import Mathlib

/-!
# Cerebral / function-tree: devtools bridges and run failure contract

A shallow embedding of

* `packages/function-tree/src/devtools/index.js` (the function-tree devtools bridge),
* `packages/cerebral/src/devtools/index.js` (the cerebral devtools bridge),
* the failure contract of `FunctionTree.run`, whose implementation is exercised by
  `packages/function-tree/src/index.test.js`: sequences, branch tables and parallel
  groups, as the specification describes them.

JavaScript values are modelled by the inductive type `JSVal`; objects are ordered
association lists of their own enumerable string keys, in the order in which JavaScript
enumerates them.  Numbers are the safe integers (below `2^53` in absolute value): no
other floating point value is modelled.  An object that a value holds at several places
carries an identity (`JSVal.ref`); a value is a finite tree, so no object holds itself.
What the components map of the cerebral bridge inherits from `Object.prototype` is
modelled by `Cerebral.inheritedLength`.
-/

set_option maxRecDepth 100000

/-! ## JavaScript values -/

/-- A safe integer: an integer `val` with `|val| < 2^53`. These are the numbers of the
    model; each is a JavaScript number, and `ToString` writes it in plain decimal digits
    (the exponent form starts at `10^21`). -/
structure SafeInteger where
  val : Int
  inRange : val.natAbs < 9007199254740992

namespace SafeInteger

/-- The safe integer of a natural number below `2^53` (a length, a counter); a larger
    natural number is reduced modulo `2^53`. -/
def ofNat (n : Nat) : SafeInteger :=
  ⟨Int.ofNat (n % 9007199254740992), Nat.mod_lt n (by decide)⟩

/-- The safe integer of an integer of absolute value below `2^53`; zero otherwise. -/
def ofInt (i : Int) : SafeInteger :=
  if h : i.natAbs < 9007199254740992 then ⟨i, h⟩ else ⟨0, by decide⟩

instance (n : Nat) : OfNat SafeInteger n := ⟨ofNat n⟩

instance : Inhabited SafeInteger := ⟨ofNat 0⟩

end SafeInteger

/-- A JavaScript data value. An object lists its own enumerable keys in the order of
    enumeration: the integer-like keys in ascending order, then the other keys in
    insertion order. `obj` is an object that is met at one place only (an object
    literal); `ref id` is an object with the identity `id`, which may be met at several
    places of a value: two `ref` values with the same `id` are the same object. -/
inductive JSVal where
  | undefined
  | null
  | bool (b : Bool)
  | num (n : SafeInteger)
  | str (s : String)
  | arr (items : List JSVal)
  | obj (fields : List (String × JSVal))
  | ref (id : Nat) (fields : List (String × JSVal))
  deriving Inhabited

/-- The fields of an object: own enumerable keys with their values. -/
abbrev Fields := List (String × JSVal)

namespace JSVal

/-- JavaScript `ToBoolean` (no NaN in the model: numbers are integers). -/
def truthy : JSVal → Bool
  | undefined => false
  | null => false
  | bool b => b
  | num n => n.val != 0
  | str s => s != ""
  | arr _ => true
  | obj _ => true
  | ref _ _ => true

end JSVal

/-- Own property lookup in a field list; `undefined` when the key is absent. -/
def lookupField : Fields → String → JSVal
  | [], _ => JSVal.undefined
  | (k, v) :: rest, key => if k = key then v else lookupField rest key

/-- The value of a string of decimal digits, `none` when a character is not a digit. -/
def digitsValue : List Char → Nat → Option Nat
  | [], acc => some acc
  | c :: rest, acc =>
    if 48 ≤ c.toNat ∧ c.toNat ≤ 57 then digitsValue rest (acc * 10 + (c.toNat - 48))
    else none

/-- The array index a property key denotes: a canonical decimal numeral (`"0"`, or digits
    without a leading zero); `none` for any other key. -/
def arrayIndex (key : String) : Option Nat :=
  match key.data with
  | [] => none
  | ['0'] => some 0
  | '0' :: _ => none
  | cs => digitsValue cs 0

/-- The integer index of an integer-like property key: a canonical numeral up to
    `2^32 - 2`. An object enumerates these keys first, in ascending order. -/
def integerKey (key : String) : Option Nat :=
  match arrayIndex key with
  | some i => if i < 4294967295 then some i else none
  | none => none

/-- Whether a key comes before the integer-like key of index `i` in the enumeration
    order: it is integer-like with a smaller index. -/
def keyBefore (k : String) (i : Nat) : Bool :=
  match integerKey k with
  | some j => decide (j < i)
  | none => false

/-- A new key is created in an association list kept in enumeration order: an
    integer-like key goes to its place among the integer-like keys, any other key to the
    end. -/
def insertKey {α : Type} : List (String × α) → String → α → List (String × α)
  | entries, key, v =>
    match integerKey key with
    | none => entries ++ [(key, v)]
    | some i => entries.takeWhile (fun kw => keyBefore kw.1 i) ++ (key, v) ::
        entries.dropWhile (fun kw => keyBefore kw.1 i)

/-- The value of an existing key is replaced; the key keeps its position. -/
def replaceKey {α : Type} : List (String × α) → String → α → List (String × α)
  | [], _, _ => []
  | (k, w) :: rest, key, v =>
    if k = key then (k, v) :: rest else (k, w) :: replaceKey rest key v

/-- Whether an association list holds a key. -/
def hasKey {α : Type} : List (String × α) → String → Bool
  | [], _ => false
  | (k, _) :: rest, key => if k = key then true else hasKey rest key

/-- The value an association list binds to a key; `none` when the key is absent. -/
def findKey {α : Type} : List (String × α) → String → Option α
  | [], _ => none
  | (k, w) :: rest, key => if k = key then some w else findKey rest key

/-- Assignment `o[key] = v`: an existing key keeps its position, a new key is created at
    its place in the enumeration order. -/
def setKey {α : Type} (entries : List (String × α)) (key : String) (v : α) :
    List (String × α) :=
  if hasKey entries key then replaceKey entries key v else insertKey entries key v

/-- Assignment `o[key] = v` on the fields of an object. -/
def setField (fields : Fields) (key : String) (v : JSVal) : Fields :=
  setKey fields key v

/-- The call `Object.assign(target, source)` on own enumerable keys: a shallow merge. -/
def assign (target source : Fields) : Fields :=
  source.foldl (fun acc kv => setField acc kv.1 kv.2) target

/-- Property read `v.key`. `none` is the `TypeError` raised on `undefined` and `null`.
    A string has `length` and its characters at the array indices, an array has `length`
    and its items; booleans and numbers have no own data property. -/
def getProp : JSVal → String → Option JSVal
  | JSVal.undefined, _ => none
  | JSVal.null, _ => none
  | JSVal.obj fields, key => some (lookupField fields key)
  | JSVal.ref _ fields, key => some (lookupField fields key)
  | JSVal.str s, key =>
    if key = "length" then some (JSVal.num (SafeInteger.ofNat s.data.length)) else
      match arrayIndex key with
      | some i =>
        match s.data.get? i with
        | some c => some (JSVal.str (String.mk [c]))
        | none => some JSVal.undefined
      | none => some JSVal.undefined
  | JSVal.arr items, key =>
    if key = "length" then some (JSVal.num (SafeInteger.ofNat items.length)) else
      match arrayIndex key with
      | some i => some (items.getD i JSVal.undefined)
      | none => some JSVal.undefined
  | _, _ => some JSVal.undefined

/-! ## The failure contract of `FunctionTree.run` -/

namespace FunctionTree

/-- The payload threaded between the functions of a run. -/
abbrev Payload := Fields

/-- Modelled from the spec: the engine `function-tree/src/index.js` is missing; this is
    the value a function throws or rejects with. It is an object with `name`, `message`
    and `stack` properties; `toJSON` is `some r` when the value exposes a `toJSON`
    method, `r` being what that method returns. -/
structure ErrorValue where
  name : JSVal
  message : JSVal
  stack : JSVal
  toJSON : Option JSVal

/-- Modelled from the spec: the engine is missing; what a function hands back once
    settled (§4.3 step 2d): nothing, a plain object, or a `Path` with a name and an
    optional payload. -/
inductive Result where
  | nothing
  | object (o : Payload)
  | path (name : String) (payload : Option Payload)

/-- Modelled from the spec: the engine is missing; the outcome of invoking a function
    (§4.3 step 2d): a synchronous return, a thenable that resolves, a synchronous throw,
    or a thenable that rejects. -/
inductive Outcome where
  | returns (r : Result)
  | resolves (r : Result)
  | throws (e : ErrorValue)
  | rejects (e : ErrorValue)

/-- Modelled from the spec: the engine is missing; a member function of a parallel group
    (§3, §4.3 step 3) with its `functionIndex`. The function is given by its outcome on
    the payload it is invoked with, and by `settlesAfter`, the number of turns of the
    event loop after which its asynchronous result settles (a synchronous outcome
    settles at the invocation). -/
structure ParallelMember where
  functionIndex : Nat
  fn : Payload → Outcome
  settlesAfter : Nat

/-- Modelled from the spec: the engine is missing; a node of the normalized plan (§3): a
    function with its `functionIndex` and an optional branch table, or a parallel group
    of member functions. A function is given by its outcome on the payload it is invoked
    with. -/
inductive PlanNode where
  | mk (functionIndex : Nat) (fn : Payload → Outcome)
      (branches : Option (List (String × List PlanNode)))
  | parallel (members : List ParallelMember)

/-- Modelled from the spec: the engine is missing; the events of §4.3, with the
    arguments the listeners get (the execution record is the same for all events of a
    run and is left out). -/
inductive Event where
  | start (payload : Payload)
  | pathStart (path : String) (functionIndex : Nat)
  | functionStart (functionIndex : Nat) (payload : Payload)
  | functionEnd (functionIndex : Nat) (payload : Payload) (result : Result)
  | error (e : ErrorValue) (functionIndex : Nat) (payload : Payload)
  | «end» (payload : Payload)

/-- Modelled from the spec: the engine is missing; how a run stands (§4.3 state
    machine): still running, completed, failed with the rejection value `e` and the
    `payload` attached to it, or in a case the spec leaves open (a `Path` whose name no
    branch of the branch table has). -/
inductive Status where
  | running
  | completed
  | failed (e : ErrorValue) (payload : Payload)
  | unspecified

/-- Modelled from the spec: the engine is missing; the record of one function of a run
    that settled: its `functionIndex`, the outcome of its invocation, and whether its
    node has a branch table (a consumer for a `Path`). -/
structure Settlement where
  functionIndex : Nat
  outcome : Outcome
  hasBranches : Bool

/-- Modelled from the spec: the engine is missing; the state of one run: the accumulated
    payload, the events emitted so far (oldest first), the indices of the functions
    invoked so far, the status, the outputs merged into the payload so far (oldest
    first), and the functions that settled so far with their outcomes, in the order in
    which they settled. -/
structure RunState where
  payload : Payload
  events : List Event
  invoked : List Nat
  status : Status
  merged : List Payload
  settled : List Settlement

/-- Modelled from the spec: the engine is missing; the serialized error of §4.3 step 4:
    the result of `toJSON` when the value exposes one, otherwise `{name, message,
    stack}`. -/
def serializeError (e : ErrorValue) : JSVal :=
  match e.toJSON with
  | some r => r
  | none => JSVal.obj [("name", e.name), ("message", e.message), ("stack", e.stack)]

/-- Modelled from the spec: the engine is missing; the payload attached to the rejection
    value (§4.3 step 4): the last known payload with `error` bound to the serialized
    error. -/
def errorPayload (e : ErrorValue) (lastKnown : Payload) : Payload :=
  assign lastKnown [("error", serializeError e)]

/-- Modelled from the spec: the engine is missing; the contribution of a result to the
    payload (§3 Payload): a plain object itself, the payload of a `Path`, nothing
    otherwise. -/
def Result.output : Result → Payload
  | Result.nothing => []
  | Result.object o => o
  | Result.path _ (some p) => p
  | Result.path _ none => []

/-- Modelled from the spec: the engine is missing; by §4.3 step 2e `functionEnd` is
    suppressed for an empty result and for a `Path` without payload. -/
def Result.isEmpty : Result → Bool
  | Result.nothing => true
  | Result.object _ => false
  | Result.path _ (some _) => false
  | Result.path _ none => true

/-- The payload shallow-merged with a list of outputs, from left to right. -/
def mergeAll (payload : Payload) (outputs : List Payload) : Payload :=
  outputs.foldl assign payload

/-- Modelled from the spec: the engine is missing; a `Path` without payload that meets no
    branch table is itself treated as a thrown error (§4.3 step 2d): the `Path` object,
    which has the `name` of the path and neither `message`, `stack` nor `toJSON`. -/
def pathError (name : String) : ErrorValue :=
  { name := JSVal.str name, message := JSVal.undefined, stack := JSVal.undefined,
    toJSON := none }

/-- Modelled from the spec: the engine is missing; the error with which a settled
    function fails (§4.3 steps 2d and 4): the value thrown or rejected, or the `Path`
    without payload that meets no branch table; `none` when the function completes. -/
def Settlement.failure (x : Settlement) : Option ErrorValue :=
  match x.outcome with
  | Outcome.throws e => some e
  | Outcome.rejects e => some e
  | Outcome.returns (Result.path name none) =>
    if x.hasBranches then none else some (pathError name)
  | Outcome.resolves (Result.path name none) =>
    if x.hasBranches then none else some (pathError name)
  | _ => none

/-- Modelled from the spec: the engine is missing; the result a settled function hands
    back (§4.3 step 2d), nothing when it threw or rejected. -/
def Outcome.result : Outcome → Result
  | Outcome.returns r => r
  | Outcome.resolves r => r
  | _ => Result.nothing

/-- Modelled from the spec: the engine is missing; whether the outcome is a thenable,
    which settles in a later turn of the event loop (§4.3 step 2d, §5). -/
def Outcome.isAsync : Outcome → Bool
  | Outcome.resolves _ => true
  | Outcome.rejects _ => true
  | _ => false

/-- Modelled from the spec: the engine is missing; the first failure among functions
    listed in the order in which they settled (§4.3 step 3: first failure wins): the index
    of the function and the error. -/
def firstFailure : List Settlement → Option (Nat × ErrorValue)
  | [] => none
  | x :: rest =>
    match x.failure with
    | some e => some (x.functionIndex, e)
    | none => firstFailure rest

/-- Modelled from the spec: the engine is missing; a function failed with `e` (§4.3 step
    4): `error` is emitted with the last known payload and the run is failed. -/
def fail (s : RunState) (idx : Nat) (e : ErrorValue) : RunState :=
  { s with
    events := s.events ++ [Event.error e idx s.payload]
    status := Status.failed e (errorPayload e s.payload) }

/-- Modelled from the spec: the engine is missing; a function completed (§4.3 steps 2d,
    2e): emit `functionEnd` unless suppressed, then merge the result into the payload. -/
def complete (s : RunState) (idx : Nat) (r : Result) : RunState :=
  { s with
    events := if r.isEmpty then s.events
      else s.events ++ [Event.functionEnd idx s.payload r]
    payload := assign s.payload r.output
    merged := if r.isEmpty then s.merged else s.merged ++ [r.output] }

/-- Modelled from the spec: the engine is missing; the record of a member of a parallel
    group invoked with `payload`: a member has no branch table. -/
def settle (payload : Payload) (m : ParallelMember) : Settlement :=
  ⟨m.functionIndex, m.fn payload, false⟩

/-- Modelled from the spec: the engine is missing; a member is put in a list of members
    ordered by `settlesAfter`, before the first one that does not settle earlier. -/
def insertByTurn (m : ParallelMember) : List ParallelMember → List ParallelMember
  | [] => [m]
  | x :: rest =>
    if m.settlesAfter ≤ x.settlesAfter then m :: x :: rest else x :: insertByTurn m rest

/-- Modelled from the spec: the engine is missing; the members of a group whose outcome
    is a thenable, in the order in which they settle: by `settlesAfter`, and in
    declaration order when two settle in the same turn. -/
def asyncOrder (payload : Payload) (members : List ParallelMember) : List ParallelMember :=
  (members.filter (fun m => (m.fn payload).isAsync)).foldr insertByTurn []

/-- Modelled from the spec: the engine is missing; the order in which the members of a
    group settle (§4.3 step 3, §5): the members are invoked one after the other in
    declaration order, a synchronous outcome settles at the invocation, and the
    thenables settle afterwards. -/
def settleOrder (payload : Payload) (members : List ParallelMember) : List ParallelMember :=
  members.filter (fun m => !(m.fn payload).isAsync) ++ asyncOrder payload members

/-- Modelled from the spec: the engine is missing; what is emitted when a member of a
    group settles (§4.3 steps 2e and 4): `error` when it fails, `functionEnd` unless
    suppressed when it completes. Every member of the group was invoked with the payload
    at the entry of the group, which is also the last known payload of its `error`. -/
def settleEvents (payload : Payload) (x : Settlement) : List Event :=
  match x.failure with
  | some e => [Event.error e x.functionIndex payload]
  | none =>
    if x.outcome.result.isEmpty then []
    else [Event.functionEnd x.functionIndex payload x.outcome.result]

/-- Modelled from the spec: the engine is missing; the events of the invocation of one
    member: `functionStart`, followed by what its settling emits when its outcome is
    synchronous. -/
def invokeEvents (payload : Payload) (m : ParallelMember) : List Event :=
  Event.functionStart m.functionIndex payload ::
    (if (m.fn payload).isAsync then [] else settleEvents payload (settle payload m))

/-- Modelled from the spec: the engine is missing; the events of a group whose members
    all run to their end: the invocations in declaration order, then the settling of
    the thenables. -/
def groupEvents (payload : Payload) (members : List ParallelMember) : List Event :=
  members.flatMap (invokeEvents payload) ++
    (asyncOrder payload members).flatMap (fun m => settleEvents payload (settle payload m))

/-- Modelled from the spec: the engine is missing; a log up to and including its first
    `error` event: with the failure the run is over (§4.3 steps 3 and 4), and what the
    other members of the group still do is not reported. -/
def untilError : List Event → List Event
  | [] => []
  | Event.error e idx payload :: _ => [Event.error e idx payload]
  | event :: rest => event :: untilError rest

/-- Modelled from the spec: the engine is missing; the contributions of the members of a
    group that completed, in declaration order (§4.3 step 3). -/
def groupOutputs (payload : Payload) (members : List ParallelMember) : List Payload :=
  ((members.map (fun m => (m.fn payload).result)).filter (fun r => !r.isEmpty)).map
    Result.output

/-- Modelled from the spec: the engine is missing; a parallel group (§4.3 step 3, §7):
    all members are invoked with the payload at the entry of the group. When a member
    fails, the first failure in the order of settling fails the run with the last known
    payload, the payload at the entry of the group: the results of the other members
    are discarded, and so are their later errors. When all members complete, their
    contributions are merged in declaration order. -/
def runGroup (members : List ParallelMember) (s : RunState) : RunState :=
  match firstFailure ((settleOrder s.payload members).map (settle s.payload)) with
  | some failure =>
    { s with
      events := s.events ++ untilError (groupEvents s.payload members)
      invoked := s.invoked ++ members.map ParallelMember.functionIndex
      settled := s.settled ++ (settleOrder s.payload members).map (settle s.payload)
      status := Status.failed failure.2 (errorPayload failure.2 s.payload) }
  | none =>
    { s with
      events := s.events ++ untilError (groupEvents s.payload members)
      invoked := s.invoked ++ members.map ParallelMember.functionIndex
      settled := s.settled ++ (settleOrder s.payload members).map (settle s.payload)
      payload := mergeAll s.payload (groupOutputs s.payload members)
      merged := s.merged ++ groupOutputs s.payload members }

mutual

/-- Modelled from the spec: the engine is missing; one node (§4.3 steps 2 and 3): for a
    function, emit `functionStart`, invoke the function on the current payload, then
    fail, or complete and follow the `Path`; for a parallel group, run the group. -/
def runNode : PlanNode → RunState → RunState
  | PlanNode.mk idx fn branches, s =>
    let s1 : RunState :=
      { s with
        events := s.events ++ [Event.functionStart idx s.payload]
        invoked := s.invoked ++ [idx]
        settled := s.settled ++ [⟨idx, fn s.payload, branches.isSome⟩] }
    match fn s.payload with
    | Outcome.throws e => fail s1 idx e
    | Outcome.rejects e => fail s1 idx e
    | Outcome.returns r => follow idx branches r (complete s1 idx r)
    | Outcome.resolves r => follow idx branches r (complete s1 idx r)
  | PlanNode.parallel members, s => runGroup members s

/-- Modelled from the spec: the engine is missing; what follows a settled result (§4.3
    step 2d): a `Path` selects the branch of its name; without branch table a `Path`
    with payload is forwarded and a `Path` without payload is treated as a thrown
    error. -/
def follow : Nat → Option (List (String × List PlanNode)) → Result → RunState → RunState
  | _, _, Result.nothing, s => s
  | _, _, Result.object _, s => s
  | idx, some table, Result.path name _, s => runBranch idx table name s
  | _, none, Result.path _ (some _), s => s
  | idx, none, Result.path name none, s => fail s idx (pathError name)

/-- Modelled from the spec: the engine is missing; by §4.3 steps 2d and 2a the branch
    whose key equals the name of the `Path` is run after `pathStart`; the spec leaves a
    `Path` without such a branch open. -/
def runBranch : Nat → List (String × List PlanNode) → String → RunState → RunState
  | _, [], _, s => { s with status := Status.unspecified }
  | idx, (key, nodes) :: rest, name, s =>
    if key = name then
      runSeq nodes { s with events := s.events ++ [Event.pathStart name idx] }
    else runBranch idx rest name s

/-- Modelled from the spec: the engine is missing; by §4.3 steps 2 and 4 the nodes of a
    sequence run in declared order; nothing runs once the run has left the running
    state. -/
def runSeq : List PlanNode → RunState → RunState
  | [], s => s
  | node :: rest, s =>
    match s.status with
    | Status.running => runSeq rest (runNode node s)
    | _ => s

end

/-- Modelled from the spec: the engine is missing; `run(payload)` on a compiled plan
    (§4.3 steps 1, 5 and §6): emit `start`, run the sequence, and on normal completion
    emit `end` and resolve with the final payload. A failed run rejects with the value
    and payload of its status. -/
def run (plan : List PlanNode) (payload : Payload) : RunState :=
  let s := runSeq plan
    { payload := payload, events := [Event.start payload], invoked := [],
      status := Status.running, merged := [], settled := [] }
  match s.status with
  | Status.running =>
    { s with events := s.events ++ [Event.«end» s.payload], status := Status.completed }
  | _ => s

mutual

/-- Whether a node holds no parallel group. -/
def sequentialNode : PlanNode → Bool
  | PlanNode.mk _ _ none => true
  | PlanNode.mk _ _ (some table) => sequentialTable table
  | PlanNode.parallel _ => false

/-- Whether no branch of a branch table holds a parallel group. -/
def sequentialTable : List (String × List PlanNode) → Bool
  | [] => true
  | (_, nodes) :: rest => sequentialNodes nodes && sequentialTable rest

/-- Whether a sequence holds no parallel group. -/
def sequentialNodes : List PlanNode → Bool
  | [] => true
  | node :: rest => sequentialNode node && sequentialNodes rest

end

/-- The two-step tree `[f1, f2]`: two functions without branch tables, indexed in
    declaration order. -/
def twoStep (f1 f2 : Payload → Outcome) : List PlanNode :=
  [PlanNode.mk 0 f1 none, PlanNode.mk 1 f2 none]

/-- The function at `functionIndex` `idx` was invoked during the run. -/
def wasInvoked (s : RunState) (idx : Nat) : Prop := idx ∈ s.invoked

/-- The run rejected with the value `e` itself, `payload` being the payload attached
    to it (`e.payload`). -/
def rejectsWith (s : RunState) (e : ErrorValue) (payload : Payload) : Prop :=
  s.status = Status.failed e payload

/-- The value thrown by the test "should use error toJSON, if available, to serialize
    error": `new CustomError('foo')`, whose `toJSON` returns its message. -/
def customError : ErrorValue :=
  { name := JSVal.str "CustomError", message := JSVal.str "foo",
    stack := JSVal.undefined, toJSON := some (JSVal.str "foo") }

/-- The outputs of the steps that completed, in execution order, as reported by the
    `functionEnd` events of a log: the object returned, or the payload of the `Path`.
    (A step with an empty result emits no `functionEnd` and contributes nothing.) -/
def outputsOf : List Event → List Payload
  | [] => []
  | Event.functionEnd _ _ r :: rest => r.output :: outputsOf rest
  | _ :: rest => outputsOf rest

/-- Whether a log holds an `error` event. -/
def hasError : List Event → Bool
  | [] => false
  | Event.error _ _ _ :: _ => true
  | _ :: rest => hasError rest

/-- The first `error` event of a log. -/
def firstError : List Event → Option Event
  | [] => none
  | Event.error e idx payload :: _ => some (Event.error e idx payload)
  | _ :: rest => firstError rest

/-- The invariant of a run started on `init`: while running, the payload is `init` merged
    with the outputs merged so far, no `error` event was emitted and no function that
    settled has failed; once failed with `e`, the log ends with the only `error` event,
    which carries `e` and the payload merged up to there, the rejection payload is built
    from that payload, and `e` is the first failure among the functions that settled. -/
def Inv (init : Payload) (s : RunState) : Prop :=
  match s.status with
  | Status.running =>
    s.payload = mergeAll init s.merged ∧ hasError s.events = false ∧
      firstFailure s.settled = none
  | Status.failed e p =>
    ∃ pre idx, s.events = pre ++ [Event.error e idx (mergeAll init s.merged)] ∧
      hasError pre = false ∧ p = errorPayload e (mergeAll init s.merged) ∧
      firstFailure s.settled = some (idx, e)
  | _ => hasError s.events = false ∧ firstFailure s.settled = none

/-- The outputs merged so far are those the `functionEnd` events of the log report. -/
def Logged (s : RunState) : Prop := s.merged = outputsOf s.events

/-- The tree `[s1, f2]` of the spec's property: `s1` returns `{a: 1}`, `f2` throws `e`. -/
def succeedThenFail (e : ErrorValue) : List PlanNode :=
  [PlanNode.mk 0 (fun _ => Outcome.returns (Result.object [("a", JSVal.num 1)])) none,
   PlanNode.mk 1 (fun _ => Outcome.throws e) none]

/-- The value `new Error('wuuut')` of the tests (its stack is some string). -/
def wuuut : ErrorValue :=
  { name := JSVal.str "Error", message := JSVal.str "wuuut",
    stack := JSVal.str "Error: wuuut", toJSON := none }

/-- The tree `[[s1, f2]]`: one parallel group whose first member returns `{a: 1}` and
    whose second member throws `e`, both synchronously. -/
def parallelSucceedThenFail (e : ErrorValue) : List PlanNode :=
  [PlanNode.parallel
    [⟨0, fun _ => Outcome.returns (Result.object [("a", JSVal.num 1)]), 0⟩,
     ⟨1, fun _ => Outcome.throws e, 0⟩]]

/-- The tree `[[f1, f2]]`: one parallel group whose members both reject, `f1` with `e1`
    after `t1` turns and `f2` with `e2` after `t2` turns. -/
def bothReject (e1 e2 : ErrorValue) (t1 t2 : Nat) : List PlanNode :=
  [PlanNode.parallel [⟨0, fun _ => Outcome.rejects e1, t1⟩, ⟨1, fun _ => Outcome.rejects e2, t2⟩]]

/-- The tree `[[a, b], f]`: a parallel group whose members resolve with `{x: 1}` (late)
    and `{x: 2, y: 2}` (early), followed by a function that throws `e`. -/
def groupThenFail (e : ErrorValue) : List PlanNode :=
  [PlanNode.parallel
    [⟨0, fun _ => Outcome.resolves (Result.object [("x", JSVal.num 1)]), 5⟩,
     ⟨1, fun _ => Outcome.resolves
        (Result.object [("x", JSVal.num 2), ("y", JSVal.num 2)]), 0⟩],
   PlanNode.mk 2 (fun _ => Outcome.throws e) none]

end FunctionTree

/-! ## `JSON.stringify` and `String.prototype.replace` -/

namespace JSON

/-- A hexadecimal digit of `\uXXXX` escapes (lower case). -/
def hexDigit (n : Nat) : Char :=
  if n < 10 then Char.ofNat (48 + n) else Char.ofNat (87 + n)

/-- The text `QuoteJSONString` produces for one character. -/
def escapeChar (c : Char) : List Char :=
  if c.toNat = 8 then [Char.ofNat 92, 'b']
  else if c.toNat = 9 then [Char.ofNat 92, 't']
  else if c.toNat = 10 then [Char.ofNat 92, 'n']
  else if c.toNat = 12 then [Char.ofNat 92, 'f']
  else if c.toNat = 13 then [Char.ofNat 92, 'r']
  else if c.toNat = 34 then [Char.ofNat 92, Char.ofNat 34]
  else if c.toNat = 92 then [Char.ofNat 92, Char.ofNat 92]
  else if c.toNat < 32 then
    [Char.ofNat 92, 'u', '0', '0', hexDigit (c.toNat / 16), hexDigit (c.toNat % 16)]
  else [c]

/-- The abstract operation `QuoteJSONString`: the string between double quotes, escaped. -/
def quote (s : String) : String :=
  String.mk (Char.ofNat 34 :: (s.data.flatMap escapeChar ++ [Char.ofNat 34]))

/-- The decimal numeral of a safe integer (`Number::toString`, which writes an integer
    below `10^21` in plain digits). -/
def numeral (n : SafeInteger) : String :=
  match n.val with
  | Int.ofNat m => String.mk (Nat.toDigits 10 m)
  | Int.negSucc m => String.mk ('-' :: Nat.toDigits 10 (m + 1))

/-- A list of texts joined by commas. -/
def commaJoin : List String → String
  | [] => ""
  | [s] => s
  | s :: rest => s ++ "," ++ commaJoin rest

mutual

/-- The call `JSON.stringify(value)`; `none` is the result `undefined`. -/
def stringify : JSVal → Option String
  | JSVal.undefined => none
  | JSVal.null => some "null"
  | JSVal.bool true => some "true"
  | JSVal.bool false => some "false"
  | JSVal.num n => some (numeral n)
  | JSVal.str s => some (quote s)
  | JSVal.arr items => some ("[" ++ commaJoin (stringifyItems items) ++ "]")
  | JSVal.obj fields => some ("\x7b" ++ commaJoin (stringifyMembers fields) ++ "\x7d")
  | JSVal.ref _ fields => some ("\x7b" ++ commaJoin (stringifyMembers fields) ++ "\x7d")

/-- The elements of an array: an `undefined` element is written `null`. -/
def stringifyItems : List JSVal → List String
  | [] => []
  | v :: rest =>
    (match stringify v with
     | some s => s
     | none => "null") :: stringifyItems rest

/-- The members of an object: a key bound to `undefined` is left out. -/
def stringifyMembers : List (String × JSVal) → List String
  | [] => []
  | (k, v) :: rest =>
    match stringify v with
    | some s => (quote k ++ ":" ++ s) :: stringifyMembers rest
    | none => stringifyMembers rest

end

/-- The call `JSON.stringify({...})` on an object literal, which always yields a string. -/
def stringifyObject (fields : Fields) : String :=
  "\x7b" ++ commaJoin (stringifyMembers fields) ++ "\x7d"

end JSON

/-- The first occurrence of `pat` in `s`: the text before it and the text after it. -/
def splitAtFirst (pat : List Char) : List Char → Option (List Char × List Char)
  | [] => if pat.isEmpty then some ([], []) else none
  | c :: rest =>
    if pat.isPrefixOf (c :: rest) then some ([], (c :: rest).drop pat.length)
    else match splitAtFirst pat rest with
      | some (before, after) => some (c :: before, after)
      | none => none

/-- The abstract operation `GetSubstitution` for a string pattern (no captures): in the
    replacement text `$$` stands for `$`, `$&` for the matched text, `$` followed by a
    backtick for the text before the match and `$` followed by an apostrophe for the text
    after it; any other `$` is kept. -/
def getSubstitution (matched before after : List Char) : List Char → List Char
  | [] => []
  | [c] => [c]
  | c :: d :: rest =>
    if c = '$' then
      if d = '$' then '$' :: getSubstitution matched before after rest
      else if d = '&' then matched ++ getSubstitution matched before after rest
      else if d = Char.ofNat 96 then before ++ getSubstitution matched before after rest
      else if d = Char.ofNat 39 then after ++ getSubstitution matched before after rest
      else c :: getSubstitution matched before after (d :: rest)
    else c :: getSubstitution matched before after (d :: rest)

/-- The call `s.replace(pattern, replacement)` with a string pattern: only the first
    occurrence is replaced, by the substitution of the replacement text. -/
def jsReplace (s pattern replacement : String) : String :=
  match splitAtFirst pattern.data s.data with
  | some (before, after) =>
    String.mk (before ++ getSubstitution pattern.data before after replacement.data ++ after)
  | none => s

mutual

/-- The abstract operation `ToString` on a value. -/
def toJSString : JSVal → String
  | JSVal.undefined => "undefined"
  | JSVal.null => "null"
  | JSVal.bool true => "true"
  | JSVal.bool false => "false"
  | JSVal.num n => JSON.numeral n
  | JSVal.str s => s
  | JSVal.arr items => JSON.commaJoin (toJSStringItems items)
  | JSVal.obj _ => "[object Object]"
  | JSVal.ref _ _ => "[object Object]"

/-- The elements of an array as `Array.prototype.join` writes them: `undefined` and
    `null` give the empty text. -/
def toJSStringItems : List JSVal → List String
  | [] => []
  | JSVal.undefined :: rest => "" :: toJSStringItems rest
  | JSVal.null :: rest => "" :: toJSStringItems rest
  | v :: rest => toJSString v :: toJSStringItems rest

end

/-- The template literal that puts a text between double quotes. -/
def quoted (s : String) : String :=
  String.mk (Char.ofNat 34 :: (s.data ++ [Char.ofNat 34]))

/-- The arguments a spread `...v` passes: the items of an array, the characters of a
    string; `none` is the `TypeError` on a value that is not iterable. -/
def spread : JSVal → Option (List JSVal)
  | JSVal.arr items => some items
  | JSVal.str s => some (s.data.map (fun c => JSVal.str (String.mk [c])))
  | _ => none

/-! ## What both devtools bridges share: engine events and the socket -/

/-- The execution record passed to the listeners: the fields the bridges read. -/
structure Execution where
  id : JSVal
  name : JSVal
  staticTree : JSVal
  datetime : JSVal

/-- The function details passed to the listeners: `functionIndex` and the text
    `function.toString()` gives. -/
structure FunctionDetails where
  functionIndex : JSVal
  functionText : String

/-- The error passed to the listeners of `error`: the properties the bridges read. -/
structure ErrorInfo where
  name : JSVal
  message : JSVal
  stack : JSVal

/-- The result passed to the listeners of `functionEnd`: a plain value, or an instance
    of `Path` (`result instanceof Path`) with its `payload`. -/
inductive FnResult where
  | value (v : JSVal)
  | path (payload : JSVal)

/-- An event of the engine with the arguments its listeners get. -/
inductive EngineEvent where
  | start (execution : Execution) (payload : JSVal)
  | «end» (execution : Execution)
  | pathStart (path : JSVal) (execution : Execution) (funcDetails : FunctionDetails)
  | functionStart (execution : Execution) (funcDetails : FunctionDetails) (payload : JSVal)
  | functionEnd (execution : Execution) (funcDetails : FunctionDetails) (payload : JSVal)
      (result : FnResult)
  | error (error : ErrorInfo) (execution : Execution) (funcDetails : FunctionDetails)

/-- The state of a `WebSocket`. -/
inductive ReadyState where
  | connecting
  | opened
  | closed
  deriving DecidableEq

/-- One call of `ws.send`: the socket it was made on (its position among the sockets
    created so far), the state of that socket at the call, and the text. -/
structure SendCall where
  socket : Nat
  readyState : ReadyState
  text : String
  deriving DecidableEq

/-- The expression `(payload && payload._execution) ? payload._execution : null` of the
    `start` listeners. -/
def executedBy (payload : JSVal) : JSVal :=
  if payload.truthy then
    match getProp payload "_execution" with
    | some v => if v.truthy then v else JSVal.null
    | none => JSVal.null
  else JSVal.null

/-- The test `!result || (result instanceof Path && !result.payload)` of the
    `functionEnd` listeners: the result produces no message. -/
def FnResult.suppressed : FnResult → Bool
  | FnResult.value v => !v.truthy
  | FnResult.path payload => !payload.truthy

/-- The expression `result instanceof Path ? result.payload : result`. -/
def FnResult.output : FnResult → JSVal
  | FnResult.value v => v
  | FnResult.path payload => payload

/-- The object literal of the `start` listeners, for the bridge of source `source`. -/
def executionStartEnvelope (source : String) (execution : Execution) (payload : JSVal) :
    Fields :=
  [("type", JSVal.str "executionStart"), ("source", JSVal.str source),
   ("data", JSVal.obj [("execution", JSVal.obj
      [("executionId", execution.id), ("name", execution.name),
       ("staticTree", execution.staticTree), ("datetime", execution.datetime),
       ("executedBy", executedBy payload)])])]

/-- The object literal of the `end` listeners. -/
def executionEndEnvelope (source : String) (execution : Execution) : Fields :=
  [("type", JSVal.str "executionEnd"), ("source", JSVal.str source),
   ("data", JSVal.obj [("execution", JSVal.obj [("executionId", execution.id)])])]

/-- The object literal of the `pathStart` listeners. -/
def executionPathStartEnvelope (source : String) (path : JSVal) (execution : Execution)
    (funcDetails : FunctionDetails) : Fields :=
  [("type", JSVal.str "executionPathStart"), ("source", JSVal.str source),
   ("data", JSVal.obj [("execution", JSVal.obj
      [("executionId", execution.id), ("functionIndex", funcDetails.functionIndex),
       ("path", path)])])]

/-- The object literal of the `functionStart` listeners. -/
def functionStartEnvelope (source : String) (execution : Execution)
    (funcDetails : FunctionDetails) (payload : JSVal) : Fields :=
  [("type", JSVal.str "execution"), ("source", JSVal.str source),
   ("data", JSVal.obj [("execution", JSVal.obj
      [("executionId", execution.id), ("functionIndex", funcDetails.functionIndex),
       ("payload", payload), ("data", JSVal.null)])])]

/-- The object literal of the `functionEnd` listeners (past the suppression test). -/
def executionFunctionEndEnvelope (source : String) (execution : Execution)
    (funcDetails : FunctionDetails) (result : FnResult) : Fields :=
  [("type", JSVal.str "executionFunctionEnd"), ("source", JSVal.str source),
   ("data", JSVal.obj [("execution", JSVal.obj
      [("executionId", execution.id), ("functionIndex", funcDetails.functionIndex),
       ("output", result.output)])])]

/-- The object literal of the `error` listeners. -/
def executionFunctionErrorEnvelope (source : String) (error : ErrorInfo)
    (execution : Execution) (funcDetails : FunctionDetails) : Fields :=
  [("type", JSVal.str "executionFunctionError"), ("source", JSVal.str source),
   ("data", JSVal.obj [("execution", JSVal.obj
      [("executionId", execution.id), ("functionIndex", funcDetails.functionIndex),
       ("error", JSVal.obj
          [("name", error.name), ("message", error.message), ("stack", error.stack),
           ("func", JSVal.str funcDetails.functionText)])])])]

/-- The object literal a listener of `watchExecution` builds for an event; `none` when
    the `functionEnd` listener returns before building one. -/
def eventEnvelope (source : String) : EngineEvent → Option Fields
  | EngineEvent.start execution payload =>
    some (executionStartEnvelope source execution payload)
  | EngineEvent.«end» execution => some (executionEndEnvelope source execution)
  | EngineEvent.pathStart path execution funcDetails =>
    some (executionPathStartEnvelope source path execution funcDetails)
  | EngineEvent.functionStart execution funcDetails payload =>
    some (functionStartEnvelope source execution funcDetails payload)
  | EngineEvent.functionEnd execution funcDetails _ result =>
    if result.suppressed then none
    else some (executionFunctionEndEnvelope source execution funcDetails result)
  | EngineEvent.error error execution funcDetails =>
    some (executionFunctionErrorEnvelope source error execution funcDetails)

/-- The object literal of `createExecutionMessage`, `data` being what is put under
    `data.execution.data`. -/
def executionEnvelope (source version : String) (execution : Execution)
    (functionDetails : FunctionDetails) (payload data : JSVal) : Fields :=
  [("type", JSVal.str "execution"), ("source", JSVal.str source),
   ("version", JSVal.str version),
   ("data", JSVal.obj [("execution", JSVal.obj
      [("executionId", execution.id), ("functionIndex", functionDetails.functionIndex),
       ("payload", payload), ("datetime", execution.datetime), ("data", data)])])]

/-- The constant `VERSION` of both bridges. -/
def VERSION : String := "v1"

/-- The message `JSON.stringify({type: 'ping'})` of the `onopen` handlers. -/
def pingMessage : String := JSON.stringifyObject [("type", JSVal.str "ping")]

/-! ## The cerebral devtools bridge (`packages/cerebral/src/devtools/index.js`) -/

namespace Cerebral

/-- The constant `PLACEHOLDER_INITIAL_MODEL`. -/
def PLACEHOLDER_INITIAL_MODEL : String := "PLACEHOLDER_INITIAL_MODEL"

/-- The constant `PLACEHOLDER_DEBUGGING_DATA`. -/
def PLACEHOLDER_DEBUGGING_DATA : String := "$$DEBUGGING_DATA$$"

/-- An entry of `this.mutations`: the execution id and the stringified debugging data. -/
structure Mutation where
  executionId : JSVal
  data : String

/-- An entry of a list of `debuggerComponentsMap`. -/
structure ComponentDetails where
  name : String
  renderCount : Nat
  id : Nat

/-- The value of `controller.run`: the tree runner found at `init`, or the function
    `remember` installs, which ignores the signal. -/
inductive RunFunction where
  | original
  | ignoring
  deriving DecidableEq

/-- A call the bridge makes on the controller, apart from its model. -/
inductive ControllerCall where
  | flush (force : Bool)
  | emitRemember (datetime : JSVal)

/-- What the bridge uses and the sources do not hold: `JSON.parse`, and the methods of
    `controller.model` (`callModel state method args` is the state after the call
    `model[method](...args)`, `none` when that call throws). -/
structure Platform where
  parse : String → JSVal
  callModel : JSVal → JSVal → List JSVal → Option JSVal

/-- The fields of a `Devtools` instance, with the controller and the sockets it works on:
    `model` is the state of `controller.model`, `run` is `controller.run` (`none` for
    `null`), `watchers` counts the calls of `watchExecution` (each registers one listener
    per event), `sockets` are the sockets created so far (`this.ws` is the last one),
    `sent` the calls of `ws.send` and `timers` the pending timeouts of `reconnect`. -/
structure Devtools where
  storeMutations : Bool
  backlog : List String
  mutations : List Mutation
  initialModelString : JSVal
  isConnected : Bool
  isResettingDebugger : Bool
  latestExecutionId : JSVal
  debuggerComponentsMap : List (String × List ComponentDetails)
  debuggerComponentDetailsId : Nat
  originalRunTreeFunction : Option RunFunction
  model : JSVal
  run : Option RunFunction
  controllerCalls : List ControllerCall
  watchers : Nat
  sockets : List ReadyState
  sent : List SendCall
  timers : Nat

/-- The instance the constructor builds for a controller whose model state is `model`
    (`options.storeMutations` defaults to `true`). -/
def Devtools.create (storeMutations : Bool) (model : JSVal) : Devtools :=
  { storeMutations := storeMutations
    backlog := []
    mutations := []
    initialModelString := JSVal.null
    isConnected := false
    isResettingDebugger := false
    latestExecutionId := JSVal.undefined
    debuggerComponentsMap := []
    debuggerComponentDetailsId := 1
    originalRunTreeFunction := none
    model := model
    run := some RunFunction.original
    controllerCalls := []
    watchers := 0
    sockets := []
    sent := []
    timers := 0 }

/-- The method `sendMessage(stringifiedMessage)`: the call `this.ws.send` on the last socket
    created. Without a socket `this.ws` is `null` and the call throws: nothing is sent. -/
def sendMessage (d : Devtools) (stringifiedMessage : String) : Devtools :=
  match d.sockets.getLast? with
  | some state =>
    { d with sent := d.sent ++ [⟨d.sockets.length - 1, state, stringifiedMessage⟩] }
  | none => d

/-- The statement `if (this.isConnected) this.sendMessage(message) else
    this.backlog.push(message)` that ends every listener and `sendExecutionData`. -/
def dispatch (d : Devtools) (message : String) : Devtools :=
  if d.isConnected then sendMessage d message
  else { d with backlog := d.backlog ++ [message] }

/-- One listener registered by `watchExecution`, called with the arguments of an event. -/
def listener (d : Devtools) : EngineEvent → Devtools
  | EngineEvent.start execution payload =>
    dispatch d (JSON.stringifyObject (executionStartEnvelope "c" execution payload))
  | EngineEvent.«end» execution =>
    dispatch { d with latestExecutionId := execution.id }
      (JSON.stringifyObject (executionEndEnvelope "c" execution))
  | EngineEvent.pathStart path execution funcDetails =>
    dispatch d (JSON.stringifyObject (executionPathStartEnvelope "c" path execution funcDetails))
  | EngineEvent.functionStart execution funcDetails payload =>
    dispatch d (JSON.stringifyObject (functionStartEnvelope "c" execution funcDetails payload))
  | EngineEvent.functionEnd execution funcDetails _ result =>
    if result.suppressed then d
    else dispatch d
      (JSON.stringifyObject (executionFunctionEndEnvelope "c" execution funcDetails result))
  | EngineEvent.error error execution funcDetails =>
    dispatch d
      (JSON.stringifyObject (executionFunctionErrorEnvelope "c" error execution funcDetails))

/-- The method `watchExecution()`: one more listener on each event of the controller. -/
def watchExecution (d : Devtools) : Devtools :=
  { d with watchers := d.watchers + 1 }

/-- The call `controller.emit(event)`: every registered listener is called once. -/
def emit (d : Devtools) (event : EngineEvent) : Devtools :=
  Nat.iterate (fun s => listener s event) d.watchers d

/-- The method `addListeners()`: a new socket, still connecting, becomes `this.ws`. -/
def addListeners (d : Devtools) : Devtools :=
  { d with sockets := d.sockets ++ [ReadyState.connecting] }

/-- The value `JSON.stringify(v)` as a JavaScript value. -/
def stringifyValue (v : JSVal) : JSVal :=
  match JSON.stringify v with
  | some s => JSVal.str s
  | none => JSVal.undefined

/-- The method `init(controller)` for the controller of the state. -/
def init (d : Devtools) : Devtools :=
  let d1 := { d with originalRunTreeFunction := d.run }
  let d2 := if d1.storeMutations
    then { d1 with initialModelString := stringifyValue d1.model } else d1
  watchExecution (addListeners d2)

/-- The method `reconnect()`: a timeout that will call `init` is scheduled. -/
def reconnect (d : Devtools) : Devtools :=
  { d with timers := d.timers + 1 }

/-- The timeout of `reconnect` fires: `init` is called again. -/
def timeout (d : Devtools) : Devtools :=
  match d.timers with
  | 0 => d
  | n + 1 => init { d with timers := n }

/-- The state of socket `socket` becomes `state`. -/
def setReadyState (d : Devtools) (socket : Nat) (state : ReadyState) : Devtools :=
  { d with sockets := d.sockets.set socket state }

/-- The handler `ws.onopen` of socket `socket`: the socket is open, `ping` is sent. -/
def onopen (d : Devtools) (socket : Nat) : Devtools :=
  sendMessage (setReadyState d socket ReadyState.opened) pingMessage

/-- The handler `ws.onclose` of socket `socket`: the socket is closed, `reconnect()`. -/
def onclose (d : Devtools) (socket : Nat) : Devtools :=
  reconnect (setReadyState d socket ReadyState.closed)

/-- The message `sendBulkMessage(messages)` builds. -/
def bulkMessage (messages : List String) : String :=
  JSON.stringifyObject
    [("type", JSVal.str "bulk"), ("source", JSVal.str "c"), ("version", JSVal.str VERSION),
     ("data", JSVal.obj [("messages", JSVal.arr (messages.map JSVal.str))])]

/-- The method `sendBulkMessage(messages)`: the bulk message is sent. -/
def sendBulkMessage (d : Devtools) (messages : List String) : Devtools :=
  sendMessage d (bulkMessage messages)

/-- The value of a component details object. -/
def ComponentDetails.toJS (c : ComponentDetails) : JSVal :=
  JSVal.obj [("name", JSVal.str c.name), ("renderCount", JSVal.num (SafeInteger.ofNat c.renderCount)),
    ("id", JSVal.num (SafeInteger.ofNat c.id))]

/-- The value of `this.debuggerComponentsMap`. -/
def componentsMapValue (map : List (String × List ComponentDetails)) : JSVal :=
  JSVal.obj (map.map (fun entry => (entry.1, JSVal.arr (entry.2.map ComponentDetails.toJS))))

/-- The `init` message of `sendInitial`: the stringified model takes the place of the
    placeholder when there is one. -/
def initMessage (d : Devtools) : String :=
  jsReplace
    (JSON.stringifyObject
      [("type", JSVal.str "init"), ("source", JSVal.str "c"), ("version", JSVal.str VERSION),
       ("data", JSVal.obj [("initialModel",
          if d.initialModelString.truthy then JSVal.str PLACEHOLDER_INITIAL_MODEL
          else d.model)])])
    (quoted PLACEHOLDER_INITIAL_MODEL) (toJSString d.initialModelString)

/-- The `components` message that ends `sendInitial`. -/
def componentsMessage (d : Devtools) : String :=
  JSON.stringifyObject
    [("type", JSVal.str "components"), ("source", JSVal.str "c"),
     ("data", JSVal.obj
        [("map", componentsMapValue d.debuggerComponentsMap),
         ("render", JSVal.obj [("components", JSVal.arr [])])])]

/-- The method `sendInitial()`. It is called by `ws.onmessage`, so a socket exists;
    without one the first `this.ws.send` throws and the rest is not run. -/
def sendInitial (d : Devtools) : Devtools :=
  let message := initMessage d
  match d.sockets with
  | [] => { d with isResettingDebugger := true }
  | _ :: _ =>
    let d1 := sendMessage { d with isResettingDebugger := true } message
    let d2 := sendBulkMessage d1 d1.backlog
    let d3 := { d2 with isResettingDebugger := false, backlog := [], isConnected := true }
    sendMessage d3 (componentsMessage d3)

/-- The variable `mutationString` of `createExecutionMessage`: the stringified debugging
    data when mutations are stored and the data is a mutation, the empty text otherwise. -/
def mutationString (d : Devtools) (debuggingData : JSVal) : JSVal :=
  if d.storeMutations && debuggingData.truthy then
    match getProp debuggingData "type" with
    | some (JSVal.str t) =>
      if t = "mutation" then stringifyValue debuggingData else JSVal.str ""
    | _ => JSVal.str ""
  else JSVal.str ""

/-- The method `createExecutionMessage(debuggingData, context, functionDetails, payload)`,
    `execution` being `context.execution`: the instance after the call (a mutation is
    recorded) and the message returned. -/
def createExecutionMessage (d : Devtools) (debuggingData : JSVal) (execution : Execution)
    (functionDetails : FunctionDetails) (payload : JSVal) : Devtools × String :=
  let ms := mutationString d debuggingData
  let data := if ms.truthy then JSVal.str PLACEHOLDER_DEBUGGING_DATA else debuggingData
  let d1 := if ms.truthy
    then { d with mutations := d.mutations ++ [⟨execution.id, toJSString ms⟩] } else d
  (d1, jsReplace
    (JSON.stringifyObject (executionEnvelope "c" VERSION execution functionDetails payload data))
    (quoted PLACEHOLDER_DEBUGGING_DATA) (toJSString ms))

/-- The method `sendExecutionData(debuggingData, context, functionDetails, payload)`. -/
def sendExecutionData (d : Devtools) (debuggingData : JSVal) (execution : Execution)
    (functionDetails : FunctionDetails) (payload : JSVal) : Devtools :=
  let created := createExecutionMessage d debuggingData execution functionDetails payload
  dispatch created.1 created.2

/-- The body of the loop of `remember` for one recorded mutation: the state of the model
    after `model[mutation.method](...mutation.args)`; `none` when the call throws. -/
def replayMutation (env : Platform) (state : JSVal) (m : Mutation) : Option JSVal :=
  match getProp (env.parse m.data) "method", getProp (env.parse m.data) "args" with
  | some method, some args =>
    match spread args with
    | some list => env.callModel state method list
    | none => none
  | _, _ => none

/-- The loop `for (let x = 0; x < count; x++)` of `remember`, reading `this.mutations[x]`;
    `none` when an iteration throws. -/
def rememberLoop (env : Platform) (mutations : List Mutation) (count : Nat)
    (state : JSVal) : Option JSVal :=
  (List.range count).foldlM
    (fun current x =>
      match mutations.get? x with
      | some m => replayMutation env current m
      | none => none)
    state

/-- The element `this.mutations[index]`; `none` is `undefined`. -/
def mutationAt (mutations : List Mutation) (index : Int) : Option Mutation :=
  if 0 ≤ index then mutations.get? index.toNat else none

/-- The method `remember(index)`; `none` when the call throws. -/
def remember (env : Platform) (d : Devtools) (index : Int) : Option Devtools :=
  let state := env.parse (toJSString d.initialModelString)
  let run := if index = 0 then d.originalRunTreeFunction else some RunFunction.ignoring
  match rememberLoop env d.mutations ((d.mutations.length : Int) - index).toNat state with
  | none => none
  | some replayed =>
    match mutationAt d.mutations index with
    | none => none
    | some m =>
      match getProp (env.parse m.data) "datetime" with
      | none => none
      | some datetime =>
        some { d with
          model := replayed
          run := run
          controllerCalls := d.controllerCalls ++
            [ControllerCall.flush true, ControllerCall.emitRemember datetime] }

/-- The method `reset()`. -/
def reset (env : Platform) (d : Devtools) : Devtools :=
  { d with
    model := env.parse (toJSString d.initialModelString)
    backlog := []
    mutations := []
    controllerCalls := d.controllerCalls ++ [ControllerCall.flush true] }

/-- A message of the debugger, parsed: the cases of the `switch` of `ws.onmessage`. -/
inductive DebuggerMessage where
  | changeModel (path value : JSVal)
  | remember (index : Int)
  | reset
  | pong
  | ping
  | other

/-- The handler `ws.onmessage`; `none` when it throws. -/
def onmessage (env : Platform) (d : Devtools) : DebuggerMessage → Option Devtools
  | DebuggerMessage.changeModel path value =>
    match env.callModel d.model (JSVal.str "set") [path, value] with
    | some state =>
      some { d with
        model := state
        controllerCalls := d.controllerCalls ++ [ControllerCall.flush false] }
    | none => none
  | DebuggerMessage.remember index => remember env d index
  | DebuggerMessage.reset => some (reset env d)
  | DebuggerMessage.pong => some (sendInitial d)
  | DebuggerMessage.ping => some (sendInitial d)
  | DebuggerMessage.other => some d

/-- A step that generates a devtools message: a listener of `watchExecution` called with
    an event, or a call of `sendExecutionData`. -/
inductive Generation where
  | event (event : EngineEvent)
  | executionData (debuggingData : JSVal) (execution : Execution)
      (functionDetails : FunctionDetails) (payload : JSVal)

/-- The instance after a generating step. -/
def generate (d : Devtools) : Generation → Devtools
  | Generation.event event => listener d event
  | Generation.executionData debuggingData execution functionDetails payload =>
    sendExecutionData d debuggingData execution functionDetails payload

/-- The message a generating step builds (the constant `message` of the listener or of
    `sendExecutionData`); `none` when the `functionEnd` listener returns early. -/
def generated (d : Devtools) : Generation → Option String
  | Generation.event event => (eventEnvelope "c" event).map JSON.stringifyObject
  | Generation.executionData debuggingData execution functionDetails payload =>
    some (createExecutionMessage d debuggingData execution functionDetails payload).2

/-- The messages a sequence of generating steps builds from `d` on, in generation order. -/
def generatedAll (d : Devtools) : List Generation → List String
  | [] => []
  | g :: rest => (generated d g).toList ++ generatedAll (generate d g) rest

/-- The texts passed to `ws.send` so far, oldest first. -/
def sentTexts (d : Devtools) : List String := d.sent.map SendCall.text

end Cerebral

/-- An execution record used in the examples. -/
def sampleExecution : Execution :=
  { id := JSVal.str "e1", name := JSVal.str "clicked", staticTree := JSVal.arr [],
    datetime := JSVal.num 1486998977123 }

/-- The details of the first function of a tree, used in the examples. -/
def sampleFunction : FunctionDetails :=
  { functionIndex := JSVal.num 0, functionText := "function f () \x7b\x7d" }

namespace Cerebral

/-- A bridge whose `init` has run on a controller with the model `{count: 0}`:
    mutations are stored, one socket is connecting, nothing is connected yet. -/
def sampleDevtools : Devtools :=
  init (Devtools.create true (JSVal.obj [("count", JSVal.num 0)]))

end Cerebral

/-- A mutation as the state provider reports it: `state.set(path, value)`. -/
def setMutation (path value : JSVal) : JSVal :=
  JSVal.obj [("type", JSVal.str "mutation"), ("method", JSVal.str "set"),
    ("args", JSVal.arr [path, value])]

namespace Cerebral

/-- Two generating steps used in the examples: the `start` listener, then a mutation sent
    through `sendExecutionData`. -/
def sampleGenerations : List Generation :=
  [Generation.event (EngineEvent.start sampleExecution JSVal.undefined),
   Generation.executionData (setMutation (JSVal.str "count") (JSVal.num 1))
     sampleExecution sampleFunction (JSVal.obj [])]

end Cerebral

/-! ## The function-tree devtools bridge (`packages/function-tree/src/devtools/index.js`) -/

namespace FunctionTreeDevtools

/-- The fields of a `DevtoolsClass` instance with the trees and the sockets it works on:
    `watchers` holds, for each tree of `this.trees`, the number of calls of
    `watchExecution` on it (each registers one listener per event); `sockets` are the
    sockets created so far (`this.ws` is the last one), `sent` the calls of `ws.send` and
    `timers` the pending timeouts of `reconnect`. -/
structure DevtoolsClass where
  backlog : List String
  latestExecutionId : JSVal
  isConnected : Bool
  isResettingDebugger : Bool
  watchers : List Nat
  sockets : List ReadyState
  sent : List SendCall
  timers : Nat

/-- The text the replacer of `safeStringify` puts in the place of an object found in
    `refs`. -/
def CIRCULAR : String := "[CIRCULAR]"

mutual

/-- The serialization of one property value by `JSON.stringify(object, replacer)` with
    the replacer of `safeStringify`, `refs` being the identities pushed so far: the
    replacer is called on the value before it is serialized; an object (not an array)
    whose identity is in `refs` is replaced by the string `'[CIRCULAR]'`, any other
    object is pushed to `refs` and serialized member by member. The result is the text
    (`none` for `undefined`) and `refs` after the call. An object literal (`obj`) is
    met at one place only, so it is never found in `refs`. -/
def safeValue : JSVal → List Nat → Option String × List Nat
  | JSVal.undefined, refs => (none, refs)
  | JSVal.null, refs => (some "null", refs)
  | JSVal.bool true, refs => (some "true", refs)
  | JSVal.bool false, refs => (some "false", refs)
  | JSVal.num n, refs => (some (JSON.numeral n), refs)
  | JSVal.str s, refs => (some (JSON.quote s), refs)
  | JSVal.arr items, refs =>
    (some ("[" ++ JSON.commaJoin (safeItems items refs).1 ++ "]"), (safeItems items refs).2)
  | JSVal.obj fields, refs =>
    (some ("\x7b" ++ JSON.commaJoin (safeMembers fields refs).1 ++ "\x7d"),
      (safeMembers fields refs).2)
  | JSVal.ref id fields, refs =>
    if refs.contains id then (some (JSON.quote CIRCULAR), refs)
    else
      (some ("\x7b" ++ JSON.commaJoin (safeMembers fields (refs ++ [id])).1 ++ "\x7d"),
        (safeMembers fields (refs ++ [id])).2)

/-- The elements of an array, from first to last: an `undefined` element is written
    `null`. -/
def safeItems : List JSVal → List Nat → List String × List Nat
  | [], refs => ([], refs)
  | v :: rest, refs =>
    ((match (safeValue v refs).1 with
      | some s => s
      | none => "null") :: (safeItems rest (safeValue v refs).2).1,
     (safeItems rest (safeValue v refs).2).2)

/-- The members of an object, in the order of its keys: a key bound to `undefined` is
    left out. -/
def safeMembers : List (String × JSVal) → List Nat → List String × List Nat
  | [], refs => ([], refs)
  | (k, v) :: rest, refs =>
    ((match (safeValue v refs).1 with
      | some s => (JSON.quote k ++ ":" ++ s) :: (safeMembers rest (safeValue v refs).2).1
      | none => (safeMembers rest (safeValue v refs).2).1),
     (safeMembers rest (safeValue v refs).2).2)

end

/-- The method `safeStringify(object)` on an object literal: `refs` starts empty, and
    the literal itself, pushed first, is met nowhere inside the value. -/
def safeStringify (fields : Fields) : String :=
  "\x7b" ++ JSON.commaJoin (safeMembers fields []).1 ++ "\x7d"

mutual

/-- The identities of the objects met in a value, in the order in which `JSON.stringify`
    visits them. -/
def refsOf : JSVal → List Nat
  | JSVal.arr items => refsOfItems items
  | JSVal.obj fields => refsOfMembers fields
  | JSVal.ref id fields => id :: refsOfMembers fields
  | _ => []

/-- The identities met in the elements of an array. -/
def refsOfItems : List JSVal → List Nat
  | [] => []
  | v :: rest => refsOf v ++ refsOfItems rest

/-- The identities met in the members of an object. -/
def refsOfMembers : List (String × JSVal) → List Nat
  | [] => []
  | (_, v) :: rest => refsOf v ++ refsOfMembers rest

end

/-- The method `sendMessage(stringifiedMessage)`: the call `this.ws.send` on the last socket
    created. Without a socket `this.ws` is `null` and the call throws: nothing is sent. -/
def sendMessage (d : DevtoolsClass) (stringifiedMessage : String) : DevtoolsClass :=
  match d.sockets.getLast? with
  | some state =>
    { d with sent := d.sent ++ [⟨d.sockets.length - 1, state, stringifiedMessage⟩] }
  | none => d

/-- The statement `if (this.isConnected) this.sendMessage(message) else
    this.backlog.push(message)` that ends every listener and `sendExecutionData`. -/
def dispatch (d : DevtoolsClass) (message : String) : DevtoolsClass :=
  if d.isConnected then sendMessage d message
  else { d with backlog := d.backlog ++ [message] }

/-- One listener registered by `watchExecution(tree)`, called with the arguments of an
    event. -/
def listener (d : DevtoolsClass) : EngineEvent → DevtoolsClass
  | EngineEvent.start execution payload =>
    dispatch d (JSON.stringifyObject (executionStartEnvelope "ft" execution payload))
  | EngineEvent.«end» execution =>
    dispatch { d with latestExecutionId := execution.id }
      (JSON.stringifyObject (executionEndEnvelope "ft" execution))
  | EngineEvent.pathStart path execution funcDetails =>
    dispatch d (JSON.stringifyObject (executionPathStartEnvelope "ft" path execution funcDetails))
  | EngineEvent.functionStart execution funcDetails payload =>
    dispatch d (safeStringify (functionStartEnvelope "ft" execution funcDetails payload))
  | EngineEvent.functionEnd execution funcDetails _ result =>
    if result.suppressed then d
    else dispatch d
      (safeStringify (executionFunctionEndEnvelope "ft" execution funcDetails result))
  | EngineEvent.error error execution funcDetails =>
    dispatch d
      (JSON.stringifyObject (executionFunctionErrorEnvelope "ft" error execution funcDetails))

/-- The call `this.trees.forEach(this.watchExecution)`: one more listener on each event of
    each tree. -/
def watchExecution (d : DevtoolsClass) : DevtoolsClass :=
  { d with watchers := d.watchers.map (fun n => n + 1) }

/-- The call `tree.emit(event)` on the tree at position `tree`: every listener registered
    on that tree is called once. -/
def emit (d : DevtoolsClass) (tree : Nat) (event : EngineEvent) : DevtoolsClass :=
  Nat.iterate (fun s => listener s event) (d.watchers.getD tree 0) d

/-- The method `addListeners()`: a new socket, still connecting, becomes `this.ws`. -/
def addListeners (d : DevtoolsClass) : DevtoolsClass :=
  { d with sockets := d.sockets ++ [ReadyState.connecting] }

/-- The method `init()`. -/
def init (d : DevtoolsClass) : DevtoolsClass := addListeners d

/-- The instance the constructor builds for `trees` function trees; it calls `init()`. -/
def DevtoolsClass.create (trees : Nat) : DevtoolsClass :=
  init
    { backlog := []
      latestExecutionId := JSVal.null
      isConnected := false
      isResettingDebugger := false
      watchers := List.replicate trees 0
      sockets := []
      sent := []
      timers := 0 }

/-- The method `reconnect()`: a timeout that will call `init` is scheduled. -/
def reconnect (d : DevtoolsClass) : DevtoolsClass :=
  { d with timers := d.timers + 1 }

/-- The timeout of `reconnect` fires: `init` is called again. -/
def timeout (d : DevtoolsClass) : DevtoolsClass :=
  match d.timers with
  | 0 => d
  | n + 1 => init { d with timers := n }

/-- The state of socket `socket` becomes `state`. -/
def setReadyState (d : DevtoolsClass) (socket : Nat) (state : ReadyState) : DevtoolsClass :=
  { d with sockets := d.sockets.set socket state }

/-- The handler `ws.onopen` of socket `socket`: the socket is open, `ping` is sent and
    `watchExecution` is called on every tree. -/
def onopen (d : DevtoolsClass) (socket : Nat) : DevtoolsClass :=
  watchExecution (sendMessage (setReadyState d socket ReadyState.opened) pingMessage)

/-- The handler `ws.onclose` of socket `socket`: the socket is closed, `reconnect()`. -/
def onclose (d : DevtoolsClass) (socket : Nat) : DevtoolsClass :=
  reconnect (setReadyState d socket ReadyState.closed)

/-- The object literal of the `init` message of `sendInitial`. -/
def initEnvelope : Fields :=
  [("type", JSVal.str "init"), ("source", JSVal.str "ft"), ("version", JSVal.str VERSION)]

/-- The method `sendInitial()`: the `init` message, then every item of the backlog. It is
    called by `ws.onmessage`, so a socket exists; without one the first `this.ws.send`
    throws and the rest is not run. -/
def sendInitial (d : DevtoolsClass) : DevtoolsClass :=
  match d.sockets with
  | [] => d
  | _ :: _ =>
    let d1 := sendMessage d (JSON.stringifyObject initEnvelope)
    let d2 := d1.backlog.foldl sendMessage d1
    { d2 with backlog := [], isConnected := true }

/-- A message of the debugger, parsed: the cases of the `switch` of `ws.onmessage`. -/
inductive DebuggerMessage where
  | pong
  | ping
  | other

/-- The handler `ws.onmessage`. -/
def onmessage (d : DevtoolsClass) : DebuggerMessage → DevtoolsClass
  | DebuggerMessage.pong => sendInitial d
  | DebuggerMessage.ping => sendInitial d
  | DebuggerMessage.other => d

/-- The method `createExecutionMessage(debuggingData, context, functionDetails, payload)`,
    `execution` being `context.execution`. -/
def createExecutionMessage (debuggingData : JSVal) (execution : Execution)
    (functionDetails : FunctionDetails) (payload : JSVal) : String :=
  safeStringify (executionEnvelope "ft" VERSION execution functionDetails payload debuggingData)

/-- The method `sendExecutionData(debuggingData, context, functionDetails, payload)`. -/
def sendExecutionData (d : DevtoolsClass) (debuggingData : JSVal) (execution : Execution)
    (functionDetails : FunctionDetails) (payload : JSVal) : DevtoolsClass :=
  dispatch d (createExecutionMessage debuggingData execution functionDetails payload)

/-- The texts passed to `ws.send` so far, oldest first. -/
def sentTexts (d : DevtoolsClass) : List String := d.sent.map SendCall.text

end FunctionTreeDevtools

/-- A step produces exactly the message `m`: it is the one text sent more, or the one text
    queued more. -/
def producesOne (sent backlog sent' backlog' : List String) (m : String) : Prop :=
  (sent' = sent ++ [m] ∧ backlog' = backlog) ∨ (sent' = sent ∧ backlog' = backlog ++ [m])

/-- The value under `data.execution.output` of a message object; `none` when the read
    throws. -/
def envelopeOutput (envelope : Fields) : Option JSVal :=
  match getProp (lookupField envelope "data") "execution" with
  | some execution => getProp execution "output"
  | none => none

/-- Whether the text of a message object carries the field `key`: `JSON.stringify` writes
    every own key whose value is not `undefined`. -/
def carries (envelope : Fields) (key : String) : Bool :=
  match lookupField envelope key with
  | JSVal.undefined => false
  | _ => true

namespace Cerebral

/-- The bridge of the examples after a completed handshake on its first socket: the socket
    opened (`ping` sent), `pong` came back and `sendInitial` ran. -/
def connectedDevtools : Devtools := sendInitial (onopen sampleDevtools 0)

/-- The first socket closes after the handshake, then the `start` listener runs. -/
def startAfterClose : Devtools :=
  listener (onclose connectedDevtools 0) (EngineEvent.start sampleExecution JSVal.undefined)

/-- The timeout of `reconnect` fires, the new socket opens and the handshake completes. -/
def reconnected : Devtools := sendInitial (onopen (timeout startAfterClose) 1)

/-- The texts passed to `ws.send` on the socket at position `socket`. -/
def textsOn (d : Devtools) (socket : Nat) : List String :=
  (d.sent.filter (fun call => call.socket == socket)).map SendCall.text

end Cerebral

namespace FunctionTreeDevtools

/-- A bridge for one tree after a completed handshake on its first socket. -/
def connectedDevtools : DevtoolsClass := sendInitial (onopen (DevtoolsClass.create 1) 0)

/-- The first socket closes after the handshake, then the `start` listener runs. -/
def startAfterClose : DevtoolsClass :=
  listener (onclose connectedDevtools 0) (EngineEvent.start sampleExecution JSVal.undefined)

/-- The timeout of `reconnect` fires, the new socket opens and the handshake completes. -/
def reconnected : DevtoolsClass := sendInitial (onopen (timeout startAfterClose) 1)

/-- The texts passed to `ws.send` on the socket at position `socket`. -/
def textsOn (d : DevtoolsClass) (socket : Nat) : List String :=
  (d.sent.filter (fun call => call.socket == socket)).map SendCall.text

/-- A message the bridge builds for the debugger: the `init` message, the message of a
    listener of `watchExecution`, or the message of `createExecutionMessage` (the `ping`
    of `onopen`, an object with `type` alone, opens the handshake and is not one of them). -/
inductive Built where
  | init
  | listener (event : EngineEvent)
  | executionData (debuggingData : JSVal) (execution : Execution)
      (functionDetails : FunctionDetails) (payload : JSVal)

/-- The object literal that is stringified for a message; `none` when the `functionEnd`
    listener returns before building one. -/
def Built.envelope : Built → Option Fields
  | Built.init => some initEnvelope
  | Built.listener event => eventEnvelope "ft" event
  | Built.executionData debuggingData execution functionDetails payload =>
    some (executionEnvelope "ft" VERSION execution functionDetails payload debuggingData)

end FunctionTreeDevtools

namespace Cerebral

/-- The text the comment on `createExecutionMessage` promises: the envelope with the
    debugging data in place, stringified directly. -/
def directExecutionMessage (debuggingData : JSVal) (execution : Execution)
    (functionDetails : FunctionDetails) (payload : JSVal) : String :=
  JSON.stringifyObject
    (executionEnvelope "c" VERSION execution functionDetails payload debuggingData)

/-- The recorded mutations applied in recording order, each once, to a state of the model;
    `none` when one of the calls throws. -/
def replayAll (env : Platform) (state : JSVal) (mutations : List Mutation) : Option JSVal :=
  mutations.foldlM (replayMutation env) state

/-- A platform for the examples: the model is a counter with the methods `inc` and
    `double`; the text `0` parses to the number 0 and any other text to a mutation of
    that method name without arguments. -/
def samplePlatform : Platform :=
  { parse := fun text =>
      if text = "0" then JSVal.num 0
      else JSVal.obj [("method", JSVal.str text), ("args", JSVal.arr []),
        ("datetime", JSVal.num 7)]
    callModel := fun state method _ =>
      match state, method with
      | JSVal.num n, JSVal.str name =>
        if name = "inc" then some (JSVal.num (SafeInteger.ofInt (n.val + 1)))
        else if name = "double" then some (JSVal.num (SafeInteger.ofInt (2 * n.val)))
        else none
      | _, _ => none }

/-- A bridge for the examples with the initial model `0` and three recorded mutations:
    `inc`, `double`, `inc`. -/
def rememberingDevtools : Devtools :=
  { Devtools.create true (JSVal.num 5) with
    initialModelString := JSVal.str "0"
    mutations := [⟨JSVal.str "e1", "inc"⟩, ⟨JSVal.str "e1", "double"⟩, ⟨JSVal.str "e2", "inc"⟩] }

end Cerebral

namespace FunctionTreeDevtools

/-- A property of an object of the context: a data value, a function of a provider (given
    by its result on the receiver, named by its identity, and the arguments), the `send`
    and the `wrapProvider` of `context.debugger` (closures of one call of `provider`, which
    hold its `functionDetails` and `payload`), or the arrow function `wrapProvider` builds,
    a closure that holds `providerKey`, `key`, `originalFunc` and `provider`. -/
inductive Member where
  | data (v : JSVal)
  | native (f : Nat → List JSVal → JSVal)
  | send (functionDetails : FunctionDetails) (payload : JSVal)
  | wrapProvider
  | wrapped (providerKey key : String) (originalFunc : Member) (provider : Nat)

/-- An object of the context: its identity and its own enumerable properties. -/
structure Obj where
  id : Nat
  members : List (String × Member)

/-- The context of one function call: `context.execution`, and the objects bound to the
    other keys of the context, which are the providers and the debugger handle (`nextId`
    is the identity the next new object gets). The execution record is built by the
    engine and is kept apart: only its `id` and `datetime` are read by the bridge. -/
structure Context where
  execution : Execution
  objects : List (String × Obj)
  nextId : Nat

/-- The read `context[key]`; `none` is `undefined`. -/
def lookupObject : List (String × Obj) → String → Option Obj
  | [], _ => none
  | (k, o) :: rest, key => if k = key then some o else lookupObject rest key

/-- The read `object[key]`; `none` is `undefined`. -/
def lookupMember : List (String × Member) → String → Option Member
  | [], _ => none
  | (k, m) :: rest, key => if k = key then some m else lookupMember rest key

/-- The assignment `context[key] = object`. -/
def setObject (objects : List (String × Obj)) (key : String) (o : Obj) :
    List (String × Obj) :=
  setKey objects key o

/-- The keys `Object.keys(object)` lists. -/
def Obj.keys (o : Obj) : List String := o.members.map Prod.fst

/-- The function `provider(context, functionDetails, payload)` that `Provider` returns:
    `context.debugger` becomes a new object with `send` and `wrapProvider`. -/
def provider (context : Context) (functionDetails : FunctionDetails) (payload : JSVal) :
    Context :=
  { context with
    objects := setObject context.objects "debugger"
      ⟨context.nextId,
        [("send", Member.send functionDetails payload), ("wrapProvider", Member.wrapProvider)]⟩
    nextId := context.nextId + 1 }

/-- The body of `wrapProvider(providerKey)`: `context[providerKey]` becomes a new object
    that binds every key of the provider to an arrow function; `none` when
    `context[providerKey]` is `undefined` and `Object.keys` throws. -/
def wrapProvider (context : Context) (providerKey : String) : Option Context :=
  match lookupObject context.objects providerKey with
  | none => none
  | some provider =>
    some { context with
      objects := setObject context.objects providerKey
        ⟨context.nextId,
          provider.members.map
            (fun entry => (entry.1, Member.wrapped providerKey entry.1 entry.2 provider.id))⟩
      nextId := context.nextId + 1 }

/-- The debug record of a wrapped call: the object with `method` and `args`. -/
def debugRecord (providerKey key : String) (args : List JSVal) : JSVal :=
  JSVal.obj [("method", JSVal.str (providerKey ++ "." ++ key)), ("args", JSVal.arr args)]

/-- How a call ends: it returns a value, it throws, or the model ran out of steps; the
    context and the bridge are those after the call. -/
inductive CallResult where
  | returned (context : Context) (d : DevtoolsClass) (value : JSVal)
  | threw (context : Context) (d : DevtoolsClass)
  | outOfFuel

/-- The call `member.apply(receiver, args)` in `context`, `fuel` bounding the depth of the
    nested calls. An arrow function of `wrapProvider` first calls `context.debugger.send`,
    read from the context at the time of the call, with the debug record, then returns
    `originalFunc.apply(provider, args)`. -/
def callMember : Nat → Context → DevtoolsClass → Member → Nat → List JSVal → CallResult
  | 0, _, _, _, _, _ => CallResult.outOfFuel
  | _ + 1, context, d, Member.data _, _, _ => CallResult.threw context d
  | _ + 1, context, d, Member.native f, receiver, args =>
    CallResult.returned context d (f receiver args)
  | _ + 1, context, d, Member.send functionDetails payload, _, args =>
    CallResult.returned context
      (sendExecutionData d (args.headD JSVal.undefined) context.execution functionDetails
        payload)
      JSVal.undefined
  | _ + 1, context, d, Member.wrapProvider, _, args =>
    match wrapProvider context (toJSString (args.headD JSVal.undefined)) with
    | some context' => CallResult.returned context' d JSVal.undefined
    | none => CallResult.threw context d
  | fuel + 1, context, d, Member.wrapped providerKey key originalFunc provider, _, args =>
    match lookupObject context.objects "debugger" with
    | none => CallResult.threw context d
    | some handle =>
      match lookupMember handle.members "send" with
      | none => CallResult.threw context d
      | some send =>
        match callMember fuel context d send handle.id [debugRecord providerKey key args] with
        | CallResult.returned context1 d1 _ =>
          callMember fuel context1 d1 originalFunc provider args
        | other => other

/-- The method call `context[objectKey][key](...args)`. -/
def callMethod (fuel : Nat) (context : Context) (d : DevtoolsClass) (objectKey key : String)
    (args : List JSVal) : CallResult :=
  match lookupObject context.objects objectKey with
  | none => CallResult.threw context d
  | some object =>
    match lookupMember object.members key with
    | none => CallResult.threw context d
    | some member => callMember fuel context d member object.id args

/-- A result for the examples: the object `{a: s, b: s}` whose two properties hold the
    same object `s = {x: 1}`. -/
def sharedResult : FnResult :=
  FnResult.value (JSVal.obj
    [("a", JSVal.ref 1 [("x", JSVal.num 1)]), ("b", JSVal.ref 1 [("x", JSVal.num 1)])])

/-- A context for the examples: the provider `http` with the function `get` (which
    returns its receiver and the number of its arguments) and the data property `baseUrl`. -/
def sampleContext : Context :=
  { execution := sampleExecution
    objects := [("http", ⟨0,
      [("get", Member.native
          (fun receiver args => JSVal.arr
            [JSVal.num (SafeInteger.ofNat receiver), JSVal.num (SafeInteger.ofNat args.length)])),
       ("baseUrl", Member.data (JSVal.str "/api"))]⟩)]
    nextId := 1 }

end FunctionTreeDevtools

/-! ## The components map of the cerebral bridge (`updateComponentsMap`) -/

namespace Cerebral

/-- A view component as the bridge sees it: `constructor.displayName`, and the properties
    `renderCount` and `componentDetailsId` the bridge keeps on it (0 when the property is
    not set: the code reads both with a logical or, for which 0 and `undefined` are alike). -/
structure Component where
  displayName : String
  renderCount : Nat
  componentDetailsId : Nat

/-- The method `extractComponentName(component)`. -/
def extractComponentName (component : Component) : String :=
  jsReplace component.displayName "CerebralWrapping_" ""

/-- The own keys of `this.debuggerComponentsMap`: the list the bridge has assigned to
    `depsKey`; `none` when the map has no own key `depsKey`. -/
def lookupComponents :
    List (String × List ComponentDetails) → String → Option (List ComponentDetails)
  | [], _ => none
  | (k, components) :: rest, depsKey =>
    if k = depsKey then some components else lookupComponents rest depsKey

/-- The map is the plain object `{}` of the constructor, so a key it does not own is
    read from `Object.prototype`: the functions `constructor`, `hasOwnProperty`,
    `isPrototypeOf`, `propertyIsEnumerable`, `toLocaleString`, `toString`, `valueOf`,
    `__defineGetter__`, `__defineSetter__`, `__lookupGetter__`, `__lookupSetter__`, and
    the accessor `__proto__`, which gives `Object.prototype` itself. The result is the
    number of iterations the bound `x < value.length` allows: the `length` of the
    function, and zero for `__proto__`, whose value has no `length`; `none` when
    `Object.prototype` has no such property. -/
def inheritedLength (depsKey : String) : Option Nat :=
  if depsKey = "constructor" then some 1
  else if depsKey = "hasOwnProperty" then some 1
  else if depsKey = "isPrototypeOf" then some 1
  else if depsKey = "propertyIsEnumerable" then some 1
  else if depsKey = "toLocaleString" then some 0
  else if depsKey = "toString" then some 0
  else if depsKey = "valueOf" then some 0
  else if depsKey = "__defineGetter__" then some 2
  else if depsKey = "__defineSetter__" then some 2
  else if depsKey = "__lookupGetter__" then some 1
  else if depsKey = "__lookupSetter__" then some 1
  else if depsKey = "__proto__" then some 0
  else none

/-- What the read `this.debuggerComponentsMap[depsKey]` gives: `undefined`, a list the
    bridge has assigned, or a value inherited from `Object.prototype` (a function, or
    the prototype itself), given by the number of iterations its `length` allows. -/
inductive MapRead where
  | absent
  | list (components : List ComponentDetails)
  | inherited (length : Nat)

/-- The read `this.debuggerComponentsMap[depsKey]`: an own key shadows an inherited one. -/
def readComponents (map : List (String × List ComponentDetails)) (depsKey : String) :
    MapRead :=
  match lookupComponents map depsKey with
  | some components => MapRead.list components
  | none =>
    match inheritedLength depsKey with
    | some length => MapRead.inherited length
    | none => MapRead.absent

/-- The assignment `this.debuggerComponentsMap[depsKey] = components`, also the state of
    the map after a list it holds was changed in place. -/
def setComponents (map : List (String × List ComponentDetails)) (depsKey : String)
    (components : List ComponentDetails) : List (String × List ComponentDetails) :=
  setKey map depsKey components

/-- The statement `delete this.debuggerComponentsMap[depsKey]`. -/
def deleteComponents (map : List (String × List ComponentDetails)) (depsKey : String) :
    List (String × List ComponentDetails) :=
  map.filter (fun entry => entry.1 != depsKey)

/-- The inner loop over `debuggerComponents`: the list after `splice(x, 1)` at the first
    position `x` whose entry has the identity `id`; `none` when no entry has it. -/
def spliceFirst (id : Nat) : List ComponentDetails → Option (List ComponentDetails)
  | [] => none
  | entry :: rest =>
    if entry.id = id then some rest
    else match spliceFirst id rest with
      | some rest' => some (entry :: rest')
      | none => none

/-- The body of the loop over `prevDeps` for one key: the first entry of the component is
    spliced out of the list of that key and the key is deleted when the list gets empty.
    `none` when the iteration throws: the read gives `undefined`, whose `length` cannot
    be read, or an inherited function of positive `length`, whose item `0` is
    `undefined` and has no `id`; an inherited value that allows no iteration changes
    nothing. -/
def removeFromKey (map : List (String × List ComponentDetails)) (id : Nat)
    (depsKey : String) : Option (List (String × List ComponentDetails)) :=
  match readComponents map depsKey with
  | MapRead.absent => none
  | MapRead.inherited length => if length = 0 then some map else none
  | MapRead.list debuggerComponents =>
    match spliceFirst id debuggerComponents with
    | some rest =>
      if rest.length = 0 then some (deleteComponents map depsKey)
      else some (setComponents map depsKey rest)
    | none => some map

/-- The loop `for (const depsKey in prevDeps)`; `none` when an iteration throws. -/
def removeFromKeys (map : List (String × List ComponentDetails)) (id : Nat) :
    List String → Option (List (String × List ComponentDetails))
  | [] => some map
  | depsKey :: rest =>
    match removeFromKey map id depsKey with
    | some map' => removeFromKeys map' id rest
    | none => none

/-- The body of the loop over `nextDeps` for one key: the details are put at the end of
    a copy of the list of that key, or in a new list when the read gives `undefined`.
    `none` when the iteration throws: an inherited value is truthy and has no `concat`
    method. -/
def addToKey (map : List (String × List ComponentDetails)) (details : ComponentDetails)
    (depsKey : String) : Option (List (String × List ComponentDetails)) :=
  match readComponents map depsKey with
  | MapRead.list components => some (setComponents map depsKey (components ++ [details]))
  | MapRead.absent => some (setComponents map depsKey [details])
  | MapRead.inherited _ => none

/-- The loop `for (const depsKey in nextDeps)`; `none` when an iteration throws. -/
def addToKeys (map : List (String × List ComponentDetails)) (details : ComponentDetails) :
    List String → Option (List (String × List ComponentDetails))
  | [] => some map
  | depsKey :: rest =>
    match addToKey map details depsKey with
    | some map' => addToKeys map' details rest
    | none => none

/-- The arguments of a call of `updateComponentsMap` after the component: none at all
    (`arguments.length === 1`), or `nextDeps` and `prevDeps`, each an object given by its
    keys in the order of `for ... in`, or `none` for a value that is not truthy. -/
inductive DepsArguments where
  | componentOnly
  | deps (nextDeps prevDeps : Option (List String))

/-- The keys the loop over `nextDeps` visits. -/
def DepsArguments.nextKeys : DepsArguments → List String
  | DepsArguments.componentOnly => []
  | DepsArguments.deps nextDeps _ => nextDeps.getD []

/-- The keys the loop over `prevDeps` visits. -/
def DepsArguments.prevKeys : DepsArguments → List String
  | DepsArguments.componentOnly => []
  | DepsArguments.deps _ prevDeps => prevDeps.getD []

/-- The object `componentDetails` of `updateComponentsMap`, with the render count after
    the increment of a call with the component alone, and the value of
    `debuggerComponentDetailsId` after the call. -/
def componentDetails (d : Devtools) (component : Component) (arguments : DepsArguments) :
    ComponentDetails × Nat :=
  let renderCount :=
    match arguments with
    | DepsArguments.componentOnly => component.renderCount + 1
    | DepsArguments.deps _ _ => component.renderCount
  if component.componentDetailsId = 0 then
    (⟨extractComponentName component, renderCount, d.debuggerComponentDetailsId⟩,
      d.debuggerComponentDetailsId + 1)
  else
    (⟨extractComponentName component, renderCount, component.componentDetailsId⟩,
      d.debuggerComponentDetailsId)

/-- The method `updateComponentsMap(component, nextDeps, prevDeps)`: the bridge and the
    component after the call; `none` when the call throws. -/
def updateComponentsMap (d : Devtools) (component : Component) (arguments : DepsArguments) :
    Option (Devtools × Component) :=
  let made := componentDetails d component arguments
  let component' : Component :=
    { component with componentDetailsId := made.1.id, renderCount := made.1.renderCount }
  match removeFromKeys d.debuggerComponentsMap component'.componentDetailsId
      arguments.prevKeys with
  | none => none
  | some removed =>
    match addToKeys removed made.1 arguments.nextKeys with
    | none => none
    | some added =>
      some ({ d with debuggerComponentDetailsId := made.2, debuggerComponentsMap := added },
        component')

/-- The bridge together with the components of the view, each named by a number. -/
structure ComponentsWorld where
  devtools : Devtools
  components : Nat → Component

/-- One call `updateComponentsMap(component, ...)`: the component it is made for and the
    arguments after it. -/
structure MapCall where
  component : Nat
  arguments : DepsArguments

/-- The world after one call of `updateComponentsMap`; `none` when the call throws. -/
def callUpdateComponentsMap (w : ComponentsWorld) (call : MapCall) : Option ComponentsWorld :=
  match updateComponentsMap w.devtools (w.components call.component) call.arguments with
  | some (d, component) =>
    some ⟨d, Function.update w.components call.component component⟩
  | none => none

/-- The world after a sequence of calls of `updateComponentsMap`; `none` when one throws. -/
def runCalls (w : ComponentsWorld) : List MapCall → Option ComponentsWorld
  | [] => some w
  | call :: rest =>
    match callUpdateComponentsMap w call with
    | some w' => runCalls w' rest
    | none => none

/-- The keys of the latest `nextDeps` of every component, after one more call. -/
def recordCall (latest : Nat → List String) (call : MapCall) : Nat → List String :=
  Function.update latest call.component call.arguments.nextKeys

/-- The keys of the latest `nextDeps` of every component after a sequence of calls. -/
def latestKeys (latest : Nat → List String) (calls : List MapCall) : Nat → List String :=
  calls.foldl recordCall latest

/-- No component has had a call yet. -/
def noKeys : Nat → List String := fun _ => []

/-- Every call of the sequence has for `prevDeps` the keys of the `nextDeps` of the
    previous call for the same component (none on its first call), and its `nextDeps`,
    an object, has no key twice. -/
def Chained (latest : Nat → List String) : List MapCall → Prop
  | [] => True
  | call :: rest =>
    call.arguments.prevKeys = latest call.component ∧ call.arguments.nextKeys.Nodup ∧
      Chained (recordCall latest call) rest

/-- No call of the sequence has in its `nextDeps` a key that a plain object inherits
    from `Object.prototype`. -/
def OwnKeysOnly (calls : List MapCall) : Prop :=
  ∀ call ∈ calls, ∀ depsKey ∈ call.arguments.nextKeys, inheritedLength depsKey = none

/-- The identities listed under a key of the map (none when the key is absent). -/
def idsUnder (map : List (String × List ComponentDetails)) (depsKey : String) : List Nat :=
  ((lookupComponents map depsKey).getD []).map ComponentDetails.id

/-- How many times the map lists the identity `id` under a key. -/
def listedUnder (map : List (String × List ComponentDetails)) (depsKey : String)
    (id : Nat) : Nat :=
  (idsUnder map depsKey).count id

/-- No key of the map is bound to an empty list. -/
def NoEmptyList (map : List (String × List ComponentDetails)) : Prop :=
  ∀ depsKey, lookupComponents map depsKey ≠ some []

/-- The invariant of the components map: identities are positive, below the counter and
    proper to one component; the latest keys of a component have no repetition and are
    none while it has no identity; a component with an identity is listed once under each
    of its latest keys and under no other key; no list of the map is empty and every
    listed identity is below the counter. -/
def ComponentsInv (w : ComponentsWorld) (latest : Nat → List String) : Prop :=
  0 < w.devtools.debuggerComponentDetailsId ∧
  (∀ i, (w.components i).componentDetailsId < w.devtools.debuggerComponentDetailsId) ∧
  (∀ i j, (w.components i).componentDetailsId ≠ 0 →
    (w.components i).componentDetailsId = (w.components j).componentDetailsId → i = j) ∧
  (∀ i, (w.components i).componentDetailsId = 0 → latest i = []) ∧
  (∀ i, (latest i).Nodup) ∧
  (∀ i depsKey, (w.components i).componentDetailsId ≠ 0 →
    listedUnder w.devtools.debuggerComponentsMap depsKey (w.components i).componentDetailsId
      = if depsKey ∈ latest i then 1 else 0) ∧
  NoEmptyList w.devtools.debuggerComponentsMap ∧
  (∀ depsKey x, 0 < listedUnder w.devtools.debuggerComponentsMap depsKey x →
    x < w.devtools.debuggerComponentDetailsId)

/-- The world of a new bridge: the map is empty, the counter is at 1 and no component has
    an identity or a render count yet. -/
def freshWorld (storeMutations : Bool) (model : JSVal) (displayName : Nat → String) :
    ComponentsWorld :=
  { devtools := Devtools.create storeMutations model
    components := fun i => ⟨displayName i, 0, 0⟩ }

/-- Three calls for the examples: component 0 starts on the keys `a` and `b`, component 1
    starts on `b`, then component 0 moves to `b` and `c`. -/
def sampleCalls : List MapCall :=
  [⟨0, DepsArguments.deps (some ["a", "b"]) none⟩,
   ⟨1, DepsArguments.deps (some ["b"]) none⟩,
   ⟨0, DepsArguments.deps (some ["b", "c"]) (some ["a", "b"])⟩]

/-- The first call a view makes for a component that depends on the state path
    `toString`: `updateComponentsMap(component, {toString: true}, null)`. -/
def inheritedKeyCall : MapCall := ⟨0, DepsArguments.deps (some ["toString"]) none⟩

/-- The bridge of the examples when the debugger is not running: the first socket closes
    without having opened and the timeout of `reconnect` fires, so `init` runs again. -/
def reinitialised : Devtools := timeout (onclose sampleDevtools 0)

end Cerebral

namespace FunctionTreeDevtools

/-- A bridge for one tree whose first socket opened and closed, after which the timeout
    of `reconnect` fired and the second socket opened. -/
def reopened : DevtoolsClass :=
  onopen (timeout (onclose (onopen (DevtoolsClass.create 1) 0) 0)) 1

end FunctionTreeDevtools

/-! ## Theorems -/

/-- A lookup in two lists put end to end finds the key in the first, or else in the
    second. -/
theorem findKey_append {α : Type} (a b : List (String × α)) (key : String) :
    findKey (a ++ b) key = (findKey a key).or (findKey b key) := by
  induction a with
  | nil => simp [findKey]
  | cons kv rest ih =>
    obtain ⟨k, w⟩ := kv
    by_cases h : k = key
    · simp [findKey, h]
    · simp [findKey, h, ih]

/-- A list holds a key exactly when the lookup finds a value. -/
theorem hasKey_eq_isSome {α : Type} (entries : List (String × α)) (key : String) :
    hasKey entries key = (findKey entries key).isSome := by
  induction entries with
  | nil => simp [hasKey, findKey]
  | cons kv rest ih =>
    obtain ⟨k, w⟩ := kv
    by_cases h : k = key
    · simp [hasKey, findKey, h]
    · simp [hasKey, findKey, h, ih]

/-- The keys at the front of a list that a lookup does not hold are not found there. -/
theorem findKey_takeWhile_of_absent {α : Type} (entries : List (String × α))
    (p : String × α → Bool) (key : String) (h : findKey entries key = none) :
    findKey (entries.takeWhile p) key = none := by
  induction entries with
  | nil => simp [findKey]
  | cons kv rest ih =>
    obtain ⟨k, w⟩ := kv
    by_cases hk : k = key
    · simp [findKey, hk] at h
    · simp only [findKey, hk, if_false] at h
      rw [List.takeWhile_cons]
      split
      · simp [findKey, hk, ih h]
      · simp [findKey]

/-- Replacing the value of a key that is present binds the key to the new value. -/
theorem findKey_replaceKey_same {α : Type} (entries : List (String × α)) (key : String)
    (v : α) (h : hasKey entries key = true) :
    findKey (replaceKey entries key v) key = some v := by
  induction entries with
  | nil => simp [hasKey] at h
  | cons kv rest ih =>
    obtain ⟨k, w⟩ := kv
    by_cases hk : k = key
    · simp [replaceKey, findKey, hk]
    · simp only [hasKey, hk, if_false] at h
      simp [replaceKey, findKey, hk, ih h]

/-- Replacing the value of a key leaves the other keys as they were. -/
theorem findKey_replaceKey_ne {α : Type} (entries : List (String × α)) (key other : String)
    (v : α) (hne : other ≠ key) :
    findKey (replaceKey entries key v) other = findKey entries other := by
  induction entries with
  | nil => simp [replaceKey, findKey]
  | cons kv rest ih =>
    obtain ⟨k, w⟩ := kv
    by_cases hk : k = key
    · have hko : ¬ k = other := fun h => hne (h.symm.trans hk)
      have hko2 : ¬ key = other := fun h => hne h.symm
      simp [replaceKey, findKey, hk, hko2]
    · by_cases h2 : k = other
      · subst h2
        simp [replaceKey, findKey, hk]
      · simp [replaceKey, findKey, hk, h2, ih]

/-- Reading back the key just assigned gives the assigned value. -/
theorem findKey_setKey_same {α : Type} (entries : List (String × α)) (key : String) (v : α) :
    findKey (setKey entries key v) key = some v := by
  unfold setKey
  by_cases h : hasKey entries key = true
  · simp [h, findKey_replaceKey_same entries key v h]
  · have habsent : findKey entries key = none := by
      rw [hasKey_eq_isSome] at h
      simpa using h
    simp only [h, insertKey]
    cases integerKey key with
    | none => simp [findKey_append, habsent, findKey]
    | some i =>
      simp [findKey_append, findKey_takeWhile_of_absent entries _ key habsent, findKey]

/-- An assignment leaves the other keys as they were. -/
theorem findKey_setKey_ne {α : Type} (entries : List (String × α)) (key other : String)
    (v : α) (hne : other ≠ key) :
    findKey (setKey entries key v) other = findKey entries other := by
  have hko : ¬ key = other := fun h => hne h.symm
  unfold setKey
  by_cases h : hasKey entries key = true
  · simp [h, findKey_replaceKey_ne entries key other v hne]
  · simp only [h, insertKey]
    cases integerKey key with
    | none => simp [findKey_append, findKey, hko]
    | some i =>
      have hsplit := List.takeWhile_append_dropWhile (fun kw => keyBefore kw.1 i) entries
      have hfind := findKey_append (entries.takeWhile (fun kw => keyBefore kw.1 i))
        (entries.dropWhile (fun kw => keyBefore kw.1 i)) other
      rw [hsplit] at hfind
      simp [findKey_append, findKey, hko, hfind]

/-- The read of a field is the lookup of its key, `undefined` when absent. -/
theorem lookupField_eq_findKey (fields : Fields) (key : String) :
    lookupField fields key = (findKey fields key).getD JSVal.undefined := by
  induction fields with
  | nil => simp [lookupField, findKey]
  | cons kv rest ih =>
    obtain ⟨k, w⟩ := kv
    by_cases h : k = key
    · simp [lookupField, findKey, h]
    · simp [lookupField, findKey, h, ih]

/-- Reading back the key just assigned gives the assigned value. -/
theorem lookupField_setField_same (fields : Fields) (key : String) (v : JSVal) :
    lookupField (setField fields key v) key = v := by
  simp [lookupField_eq_findKey, setField, findKey_setKey_same]

namespace FunctionTree

/-- The payload attached to a rejection binds `error` to the serialized error. -/
theorem lookupField_errorPayload (e : ErrorValue) (payload : Payload) :
    lookupField (errorPayload e payload) "error" = serializeError e := by
  simp [errorPayload, assign, lookupField_setField_same]

/-- The state in which the two-step tree stops when its first function fails. -/
theorem run_twoStep_of_fails (f1 f2 : Payload → Outcome) (payload : Payload) (e : ErrorValue)
    (h : f1 payload = Outcome.throws e ∨ f1 payload = Outcome.rejects e) :
    run (twoStep f1 f2) payload =
      { payload := payload
        events := [Event.start payload, Event.functionStart 0 payload,
          Event.error e 0 payload]
        invoked := [0]
        status := Status.failed e (errorPayload e payload)
        merged := []
        settled := [⟨0, f1 payload, false⟩] } := by
  rcases h with h | h <;> simp [run, twoStep, runSeq, runNode, fail, h]

/-- C1 (as stated, refuted): in the tree `[f1, f2]` whose first function throws
    `new CustomError('foo')`, a value with a `toJSON` method, the run does not reject with
    a `payload.error.message` equal to the thrown message `'foo'`: `payload.error` is the
    string `'foo'`, whose `message` property is `undefined`. -/
theorem C1_counterexample :
    ¬ ∃ e p, rejectsWith
        (run (twoStep (fun _ => Outcome.throws customError)
          (fun _ => Outcome.returns Result.nothing)) []) e p ∧
      getProp (lookupField p "error") "message" = some customError.message := by
  rintro ⟨e, p, hrej, hmsg⟩
  rw [rejectsWith, run_twoStep_of_fails _ _ [] customError (Or.inl rfl)] at hrej
  injection hrej with _ hp
  subst hp
  have hundef : getProp (serializeError customError) "message" = some JSVal.undefined := rfl
  rw [lookupField_errorPayload, hundef] at hmsg
  simp [customError] at hmsg

/-- C1 (amended): in every two-step tree `[f1, f2]` whose first function throws or rejects
    with `e`, the second function is never invoked and the run rejects with `e`, whose
    `payload.error` is the serialized error: `e.toJSON()` when `e` exposes `toJSON`, and
    otherwise an object whose `message` equals the message of `e`. -/
theorem C1_first_failure_halts (f1 f2 : Payload → Outcome) (payload : Payload)
    (e : ErrorValue)
    (h : f1 payload = Outcome.throws e ∨ f1 payload = Outcome.rejects e) :
    ¬ wasInvoked (run (twoStep f1 f2) payload) 1 ∧
    rejectsWith (run (twoStep f1 f2) payload) e (errorPayload e payload) ∧
    (∀ r, e.toJSON = some r → lookupField (errorPayload e payload) "error" = r) ∧
    (e.toJSON = none →
      getProp (lookupField (errorPayload e payload) "error") "message" = some e.message) := by
  rw [run_twoStep_of_fails f1 f2 payload e h]
  refine ⟨by simp [wasInvoked], rfl, ?_, ?_⟩
  · intro r hr
    simp [lookupField_errorPayload, serializeError, hr]
  · intro hn
    simp [lookupField_errorPayload, serializeError, hn, getProp, lookupField]

/-- Witness of C1: the test "should pass error with payload property", a first function
    rejecting with `new Error('wuuut')` on the payload `{prop1, prop2}`. -/
theorem C1_first_failure_halts_witness :
    ¬ wasInvoked (run (twoStep
        (fun _ => Outcome.rejects ⟨JSVal.str "Error", JSVal.str "wuuut", JSVal.str "at", none⟩)
        (fun _ => Outcome.returns Result.nothing))
        [("prop1", JSVal.str "value"), ("prop2", JSVal.str "value")]) 1 ∧
    getProp (lookupField (errorPayload ⟨JSVal.str "Error", JSVal.str "wuuut", JSVal.str "at", none⟩
        [("prop1", JSVal.str "value"), ("prop2", JSVal.str "value")]) "error") "message"
      = some (JSVal.str "wuuut") :=
  have h := C1_first_failure_halts
    (fun _ => Outcome.rejects ⟨JSVal.str "Error", JSVal.str "wuuut", JSVal.str "at", none⟩)
    (fun _ => Outcome.returns Result.nothing)
    [("prop1", JSVal.str "value"), ("prop2", JSVal.str "value")]
    ⟨JSVal.str "Error", JSVal.str "wuuut", JSVal.str "at", none⟩ (Or.inr rfl)
  ⟨h.1, h.2.2.2 rfl⟩

/-- The outputs reported by two logs put end to end. -/
theorem outputsOf_append (xs ys : List Event) :
    outputsOf (xs ++ ys) = outputsOf xs ++ outputsOf ys := by
  induction xs with
  | nil => simp [outputsOf]
  | cons x rest ih => cases x <;> simp [outputsOf, ih]

/-- Two logs put end to end hold an `error` event when one of them does. -/
theorem hasError_append (xs ys : List Event) :
    hasError (xs ++ ys) = (hasError xs || hasError ys) := by
  induction xs with
  | nil => simp [hasError]
  | cons x rest ih => cases x <;> simp [hasError, ih]

/-- The first `error` event of two logs put end to end. -/
theorem firstError_append (xs ys : List Event) :
    firstError (xs ++ ys) = (firstError xs).or (firstError ys) := by
  induction xs with
  | nil => simp [firstError]
  | cons x rest ih => cases x <;> simp [firstError, ih]

/-- The first failure of two lists of settled functions put end to end. -/
theorem firstFailure_append (xs ys : List Settlement) :
    firstFailure (xs ++ ys) = (firstFailure xs).or (firstFailure ys) := by
  induction xs with
  | nil => simp [firstFailure]
  | cons x rest ih =>
    simp only [List.cons_append, firstFailure]
    cases x.failure <;> simp [ih]

/-- Merging two lists of outputs one after the other. -/
theorem mergeAll_append (payload : Payload) (xs ys : List Payload) :
    mergeAll payload (xs ++ ys) = mergeAll (mergeAll payload xs) ys := by
  simp [mergeAll, List.foldl_append]

/-- A log is cut after its first `error` event, before which it holds none. -/
theorem untilError_of_firstError (events : List Event) (event : Event)
    (h : firstError events = some event) :
    ∃ pre, untilError events = pre ++ [event] ∧ hasError pre = false := by
  induction events with
  | nil => simp [firstError] at h
  | cons x rest ih =>
    cases x with
    | error e idx payload =>
      simp only [firstError, Option.some.injEq] at h
      exact ⟨[], by simp [untilError, h], rfl⟩
    | start payload =>
      obtain ⟨pre, hpre, herr⟩ := ih (by simpa [firstError] using h)
      exact ⟨Event.start payload :: pre, by simp [untilError, hpre], by simp [hasError, herr]⟩
    | pathStart path idx =>
      obtain ⟨pre, hpre, herr⟩ := ih (by simpa [firstError] using h)
      exact ⟨Event.pathStart path idx :: pre, by simp [untilError, hpre],
        by simp [hasError, herr]⟩
    | functionStart idx payload =>
      obtain ⟨pre, hpre, herr⟩ := ih (by simpa [firstError] using h)
      exact ⟨Event.functionStart idx payload :: pre, by simp [untilError, hpre],
        by simp [hasError, herr]⟩
    | functionEnd idx payload r =>
      obtain ⟨pre, hpre, herr⟩ := ih (by simpa [firstError] using h)
      exact ⟨Event.functionEnd idx payload r :: pre, by simp [untilError, hpre],
        by simp [hasError, herr]⟩
    | «end» payload =>
      obtain ⟨pre, hpre, herr⟩ := ih (by simpa [firstError] using h)
      exact ⟨Event.«end» payload :: pre, by simp [untilError, hpre], by simp [hasError, herr]⟩

/-- A log without `error` event is not cut. -/
theorem untilError_of_no_error (events : List Event) (h : firstError events = none) :
    untilError events = events ∧ hasError events = false := by
  induction events with
  | nil => simp [untilError, hasError]
  | cons x rest ih =>
    cases x <;> simp_all [firstError, untilError, hasError]

/-- The first `error` event among what a settled member emits, followed by more events. -/
theorem firstError_settleEvents (payload : Payload) (x : Settlement) (more : List Event) :
    firstError (settleEvents payload x ++ more) =
      match x.failure with
      | some e => some (Event.error e x.functionIndex payload)
      | none => firstError more := by
  unfold settleEvents
  cases x.failure with
  | some e => simp [firstError]
  | none =>
    by_cases hr : x.outcome.result.isEmpty = true
    · simp [hr]
    · simp [hr, firstError]

/-- The first `error` event of the settling of a list of members is the first failure
    among them. -/
theorem firstError_settling (payload : Payload) (members : List ParallelMember) :
    firstError (members.flatMap (fun m => settleEvents payload (settle payload m))) =
      (firstFailure (members.map (settle payload))).map
        (fun failure => Event.error failure.2 failure.1 payload) := by
  induction members with
  | nil => simp [firstError, firstFailure]
  | cons m rest ih =>
    simp only [List.flatMap_cons, List.map_cons, firstFailure, firstError_settleEvents]
    cases (settle payload m).failure <;> simp [ih]

/-- The first `error` event among what the invocation of a member emits, followed by
    more events. -/
theorem firstError_invokeEvents (payload : Payload) (m : ParallelMember)
    (more : List Event) :
    firstError (invokeEvents payload m ++ more) =
      if (m.fn payload).isAsync then firstError more
      else match (settle payload m).failure with
        | some e => some (Event.error e m.functionIndex payload)
        | none => firstError more := by
  by_cases ha : (m.fn payload).isAsync = true
  · simp [invokeEvents, ha, firstError]
  · simp only [Bool.not_eq_true] at ha
    have h := firstError_settleEvents payload (settle payload m) more
    simp only [invokeEvents, ha, Bool.false_eq_true, if_false, List.cons_append, firstError]
    exact h

/-- The first `error` event of the invocations of a list of members is the first failure
    among those with a synchronous outcome. -/
theorem firstError_invoking (payload : Payload) (members : List ParallelMember) :
    firstError (members.flatMap (invokeEvents payload)) =
      (firstFailure ((members.filter (fun m => !(m.fn payload).isAsync)).map
        (settle payload))).map
        (fun failure => Event.error failure.2 failure.1 payload) := by
  induction members with
  | nil => simp [firstError, firstFailure]
  | cons m rest ih =>
    rw [List.flatMap_cons, firstError_invokeEvents, ih, List.filter_cons]
    by_cases ha : (m.fn payload).isAsync = true
    · simp [ha]
    · simp only [Bool.not_eq_true] at ha
      simp only [ha, Bool.not_false, if_true, List.map_cons, firstFailure, Bool.false_eq_true,
        if_false]
      cases (settle payload m).failure <;> rfl

/-- The first `error` event of a group is the first failure in the order in which its
    members settle, reported with the payload at the entry of the group. -/
theorem firstError_groupEvents (payload : Payload) (members : List ParallelMember) :
    firstError (groupEvents payload members) =
      (firstFailure ((settleOrder payload members).map (settle payload))).map
        (fun failure => Event.error failure.2 failure.1 payload) := by
  simp only [groupEvents, settleOrder, firstError_append, List.map_append,
    firstFailure_append, firstError_invoking, firstError_settling]
  cases firstFailure ((members.filter (fun m => !(m.fn payload).isAsync)).map
    (settle payload)) <;> simp

/-- Completing a step of a running run keeps it running, with the payload merged, no
    `error` event and the same settled functions. -/
theorem complete_running (init : Payload) (s : RunState) (idx : Nat) (r : Result)
    (hr : s.status = Status.running) (hp : s.payload = mergeAll init s.merged)
    (he : hasError s.events = false) :
    (complete s idx r).status = Status.running ∧
    (complete s idx r).payload = mergeAll init (complete s idx r).merged ∧
    hasError (complete s idx r).events = false ∧
    (complete s idx r).settled = s.settled := by
  refine ⟨by simp [complete, hr], ?_, ?_, rfl⟩
  · cases r with
    | nothing => simp [complete, Result.isEmpty, Result.output, assign, hp]
    | object o => simp [complete, Result.isEmpty, Result.output, mergeAll_append, mergeAll, hp]
    | path name q =>
      cases q with
      | none => simp [complete, Result.isEmpty, Result.output, assign, hp]
      | some q =>
        simp [complete, Result.isEmpty, Result.output, mergeAll_append, mergeAll, hp]
  · simp only [complete]
    split
    · exact he
    · simp [hasError_append, he, hasError]

/-- A failing step establishes the failed case of the invariant. -/
theorem fail_inv (init : Payload) (s : RunState) (idx : Nat) (e : ErrorValue)
    (hp : s.payload = mergeAll init s.merged) (he : hasError s.events = false)
    (hf : firstFailure s.settled = some (idx, e)) : Inv init (fail s idx e) := by
  simp only [Inv, fail]
  exact ⟨s.events, idx, by rw [hp], he, by rw [hp], hf⟩

/-- A parallel group run from a running state keeps the invariant. -/
theorem runGroup_inv (init : Payload) (members : List ParallelMember) (s : RunState)
    (hr : s.status = Status.running) (hi : Inv init s) : Inv init (runGroup members s) := by
  simp only [Inv, hr] at hi
  obtain ⟨hp, he, hf⟩ := hi
  have hfirst := firstError_groupEvents s.payload members
  unfold runGroup
  cases hfail : firstFailure ((settleOrder s.payload members).map (settle s.payload)) with
  | none =>
    rw [hfail] at hfirst
    obtain ⟨hcut, hnone⟩ := untilError_of_no_error _ (by simpa using hfirst)
    simp only [Inv, hr]
    refine ⟨by rw [mergeAll_append, hp], by simp [hasError_append, he, hcut, hnone], ?_⟩
    simp [firstFailure_append, hf, hfail]
  | some failure =>
    rw [hfail] at hfirst
    obtain ⟨pre, hcut, hnone⟩ := untilError_of_firstError _ _ (by simpa using hfirst)
    simp only [Inv]
    refine ⟨s.events ++ pre, failure.1, by rw [hcut, ← hp]; simp,
      by simp [hasError_append, he, hnone], by rw [hp], ?_⟩
    simp [firstFailure_append, hf, hfail]

mutual

/-- A node run from a running state keeps the invariant. -/
theorem runNode_inv (init : Payload) : ∀ (node : PlanNode) (s : RunState),
    s.status = Status.running → Inv init s → Inv init (runNode node s)
  | PlanNode.parallel members, s, hr, hi => by
    rw [runNode]; exact runGroup_inv init members s hr hi
  | PlanNode.mk idx fn branches, s, hr, hi => by
    simp only [Inv, hr] at hi
    obtain ⟨hp, he, hf⟩ := hi
    have he1 : hasError (s.events ++ [Event.functionStart idx s.payload]) = false := by
      simp [hasError_append, he, hasError]
    have hsettled : ∀ (r : Result) (o : Outcome), o = Outcome.returns r ∨ o = Outcome.resolves r →
        Inv init (follow idx branches r (complete
          { s with
            events := s.events ++ [Event.functionStart idx s.payload]
            invoked := s.invoked ++ [idx]
            settled := s.settled ++ [⟨idx, o, branches.isSome⟩] } idx r)) := by
      intro r o ho
      have hc := complete_running init
        { s with
          events := s.events ++ [Event.functionStart idx s.payload]
          invoked := s.invoked ++ [idx]
          settled := s.settled ++ [⟨idx, o, branches.isSome⟩] } idx r hr hp he1
      obtain ⟨hcr, hcp, hce, hcs⟩ := hc
      by_cases hpath : branches = none ∧ ∃ name, r = Result.path name none
      · obtain ⟨hb, name, hname⟩ := hpath
        subst hb hname
        rw [follow]
        refine fail_inv init _ idx (pathError name) hcp hce ?_
        rw [hcs]
        rcases ho with ho | ho <;> subst ho <;>
          simp [firstFailure_append, hf, firstFailure, Settlement.failure]
      · refine follow_inv init idx branches r _ hcr ?_ (fun hb name hname => hpath ⟨hb, name, hname⟩)
        simp only [Inv, hcr]
        refine ⟨hcp, hce, ?_⟩
        rw [hcs]
        have hnofail : Settlement.failure ⟨idx, o, branches.isSome⟩ = none := by
          rcases ho with ho | ho <;> subst ho
          · cases r with
            | nothing => rfl
            | object _ => rfl
            | path name q =>
              cases q with
              | some _ => rfl
              | none =>
                cases branches with
                | none => exact absurd ⟨rfl, name, rfl⟩ hpath
                | some _ => rfl
          · cases r with
            | nothing => rfl
            | object _ => rfl
            | path name q =>
              cases q with
              | some _ => rfl
              | none =>
                cases branches with
                | none => exact absurd ⟨rfl, name, rfl⟩ hpath
                | some _ => rfl
        simp [firstFailure_append, hf, firstFailure, hnofail]
    rw [runNode]
    cases hfn : fn s.payload with
    | throws e =>
      exact fail_inv init _ idx e hp he1
        (by simp [firstFailure_append, hf, firstFailure, Settlement.failure])
    | rejects e =>
      exact fail_inv init _ idx e hp he1
        (by simp [firstFailure_append, hf, firstFailure, Settlement.failure])
    | returns r => exact hsettled r _ (Or.inl rfl)
    | resolves r => exact hsettled r _ (Or.inr rfl)

/-- Following a result from a running state keeps the invariant, unless the result is a
    `Path` without payload that meets no branch table. -/
theorem follow_inv (init : Payload) :
    ∀ (idx : Nat) (branches : Option (List (String × List PlanNode)))
      (r : Result) (s : RunState),
    s.status = Status.running → Inv init s →
    (branches = none → ∀ name, r ≠ Result.path name none) →
    Inv init (follow idx branches r s)
  | _, none, Result.nothing, s, _, hi, _ => by simpa [follow] using hi
  | _, some _, Result.nothing, s, _, hi, _ => by simpa [follow] using hi
  | _, none, Result.object _, s, _, hi, _ => by simpa [follow] using hi
  | _, some _, Result.object _, s, _, hi, _ => by simpa [follow] using hi
  | idx, some table, Result.path name _, s, hr, hi, _ => by
    rw [follow]; exact runBranch_inv init idx table name s hr hi
  | _, none, Result.path _ (some _), s, _, hi, _ => by simpa [follow] using hi
  | _, none, Result.path name none, s, _, _, hno => absurd rfl (hno rfl name)

/-- Selecting and running a branch from a running state keeps the invariant. -/
theorem runBranch_inv (init : Payload) :
    ∀ (idx : Nat) (table : List (String × List PlanNode)) (name : String) (s : RunState),
    s.status = Status.running → Inv init s → Inv init (runBranch idx table name s)
  | _, [], _, s, hr, hi => by
    simp only [Inv, hr] at hi
    simp [runBranch, Inv, hi.2]
  | idx, (key, nodes) :: rest, name, s, hr, hi => by
    rw [runBranch]
    split
    · refine runSeq_inv init nodes _ ?_
      simp only [Inv, hr] at hi ⊢
      exact ⟨hi.1, by simp [hasError_append, hi.2.1, hasError], hi.2.2⟩
    · exact runBranch_inv init idx rest name s hr hi

/-- A sequence keeps the invariant. -/
theorem runSeq_inv (init : Payload) : ∀ (nodes : List PlanNode) (s : RunState),
    Inv init s → Inv init (runSeq nodes s)
  | [], s, hi => by simpa [runSeq] using hi
  | node :: rest, s, hi => by
    rw [runSeq]
    split
    · next hr => exact runSeq_inv init rest _ (runNode_inv init node s hr hi)
    · exact hi

end

mutual

/-- In a node without parallel group the outputs merged are those the log reports. -/
theorem runNode_logged : ∀ (node : PlanNode) (s : RunState),
    sequentialNode node = true → Logged s → Logged (runNode node s)
  | PlanNode.parallel _, _, hseq, _ => by simp [sequentialNode] at hseq
  | PlanNode.mk idx fn branches, s, hseq, hl => by
    have hsettled : ∀ (r : Result) (o : Outcome), Logged (follow idx branches r (complete
          { s with
            events := s.events ++ [Event.functionStart idx s.payload]
            invoked := s.invoked ++ [idx]
            settled := s.settled ++ [⟨idx, o, branches.isSome⟩] } idx r)) := by
      intro r o
      refine follow_logged idx branches r _ ?_ ?_
      · intro table hb
        subst hb
        simpa [sequentialNode] using hseq
      · simp only [Logged] at hl
        simp only [Logged, complete]
        by_cases hr : r.isEmpty = true
        · simp [hr, outputsOf_append, outputsOf, hl]
        · simp [hr, outputsOf_append, outputsOf, hl]
    rw [runNode]
    cases hfn : fn s.payload with
    | throws e => simpa [Logged, fail, outputsOf_append, outputsOf] using hl
    | rejects e => simpa [Logged, fail, outputsOf_append, outputsOf] using hl
    | returns r => exact hsettled r _
    | resolves r => exact hsettled r _

/-- Following a result keeps the outputs merged in step with the log. -/
theorem follow_logged :
    ∀ (idx : Nat) (branches : Option (List (String × List PlanNode)))
      (r : Result) (s : RunState),
    (∀ table, branches = some table → sequentialTable table = true) → Logged s →
    Logged (follow idx branches r s)
  | _, none, Result.nothing, s, _, hl => by simpa [follow] using hl
  | _, some _, Result.nothing, s, _, hl => by simpa [follow] using hl
  | _, none, Result.object _, s, _, hl => by simpa [follow] using hl
  | _, some _, Result.object _, s, _, hl => by simpa [follow] using hl
  | idx, some table, Result.path name _, s, hseq, hl => by
    rw [follow]; exact runBranch_logged idx table name s (hseq table rfl) hl
  | _, none, Result.path _ (some _), s, _, hl => by simpa [follow] using hl
  | _, none, Result.path name none, s, _, hl => by
    simpa [follow, Logged, fail, outputsOf_append, outputsOf] using hl

/-- Running a branch keeps the outputs merged in step with the log. -/
theorem runBranch_logged :
    ∀ (idx : Nat) (table : List (String × List PlanNode)) (name : String) (s : RunState),
    sequentialTable table = true → Logged s → Logged (runBranch idx table name s)
  | _, [], _, s, _, hl => by simpa [runBranch, Logged] using hl
  | idx, (key, nodes) :: rest, name, s, hseq, hl => by
    simp only [sequentialTable, Bool.and_eq_true] at hseq
    rw [runBranch]
    split
    · refine runSeq_logged nodes _ hseq.1 ?_
      simpa [Logged, outputsOf_append, outputsOf] using hl
    · exact runBranch_logged idx rest name s hseq.2 hl

/-- A sequence without parallel group keeps the outputs merged in step with the log. -/
theorem runSeq_logged : ∀ (nodes : List PlanNode) (s : RunState),
    sequentialNodes nodes = true → Logged s → Logged (runSeq nodes s)
  | [], s, _, hl => by simpa [runSeq] using hl
  | node :: rest, s, hseq, hl => by
    simp only [sequentialNodes, Bool.and_eq_true] at hseq
    rw [runSeq]
    split
    · exact runSeq_logged rest _ hseq.2 (runNode_logged node s hseq.1 hl)
    · exact hl

end

/-- The state a sequence reaches from the start of a run satisfies the invariant. -/
theorem runSeq_start_inv (plan : List PlanNode) (payload : Payload) :
    Inv payload (runSeq plan
      { payload := payload, events := [Event.start payload], invoked := [],
        status := Status.running, merged := [], settled := [] }) :=
  runSeq_inv payload plan _ (by simp [Inv, hasError, mergeAll, firstFailure])

/-- A failed run is the failed state its sequence reached. -/
theorem run_eq_of_failed (plan : List PlanNode) (payload : Payload) (e : ErrorValue)
    (p : Payload) (h : (run plan payload).status = Status.failed e p) :
    run plan payload = runSeq plan
      { payload := payload, events := [Event.start payload], invoked := [],
        status := Status.running, merged := [], settled := [] } := by
  simp only [run] at h ⊢
  generalize runSeq plan _ = s at h ⊢
  cases hs : s.status <;> simp [hs] at h ⊢

/-- The functions that settled in a run are those that settled in its sequence. -/
theorem run_settled (plan : List PlanNode) (payload : Payload) :
    (run plan payload).settled = (runSeq plan
      { payload := payload, events := [Event.start payload], invoked := [],
        status := Status.running, merged := [], settled := [] }).settled := by
  simp only [run]
  generalize runSeq plan _ = s
  cases hs : s.status <;> simp [hs]

/-- A sequence does nothing on a run that has failed. -/
theorem runSeq_of_failed (nodes : List PlanNode) (s : RunState) (e : ErrorValue)
    (p : Payload) (h : s.status = Status.failed e p) : runSeq nodes s = s := by
  cases nodes with
  | nil => rfl
  | cons node rest => simp [runSeq, h]

/-- The first failure of a list whose entries before a thrown value have not failed. -/
theorem firstFailure_of_first (pre post : List Settlement) (x : Settlement) (e : ErrorValue)
    (hthrown : x.outcome = Outcome.throws e ∨ x.outcome = Outcome.rejects e)
    (hfirst : ∀ y ∈ pre, y.failure = none) :
    firstFailure (pre ++ x :: post) = some (x.functionIndex, e) := by
  induction pre with
  | nil =>
    rcases hthrown with h | h <;> simp [firstFailure, Settlement.failure, h]
  | cons y rest ih =>
    have hy : y.failure = none := hfirst y (by simp)
    simp only [List.cons_append, firstFailure, hy]
    exact ih (fun z hz => hfirst z (by simp [hz]))

/-- C2 (as stated, refuted): in the tree `[[s1, f2]]`, a parallel group whose member `s1`
    returns `{a: 1}` and whose member `f2` then throws, run on `{}`, the step
    `s1` completed before the failing one: its `functionEnd` event, with the output
    `{a: 1}`, precedes the `error` event. Yet the `error` event carries the payload
    `{}`, not `{a: 1}`: the results of the members of a group that fails are
    discarded. -/
theorem C2_counterexample :
    ∃ pre, (run (parallelSucceedThenFail wuuut) []).events =
        pre ++ [Event.error wuuut 1 []] ∧
      pre = [Event.start [], Event.functionStart 0 [],
        Event.functionEnd 0 [] (Result.object [("a", JSVal.num 1)]),
        Event.functionStart 1 []] ∧
      mergeAll [] (outputsOf pre) = [("a", JSVal.num 1)] ∧
      ¬ (([] : Payload) = mergeAll [] (outputsOf pre)) :=
  ⟨[Event.start [], Event.functionStart 0 [],
      Event.functionEnd 0 [] (Result.object [("a", JSVal.num 1)]), Event.functionStart 1 []],
    rfl, rfl, rfl, fun h => List.noConfusion h⟩

/-- C2 (amended): whenever a run fails, the log ends with the only `error` event, and the
    payload its listeners get is the initial payload shallow-merged with the outputs
    merged before the failure, oldest first: the output of every step of a sequence that
    completed before, and the outputs of the members of every parallel group that
    completed as a whole before, in declaration order; the members of the group of the
    failing step are not among them. In a plan without parallel group these are the
    outputs of all the steps that completed before the failing one, as the `functionEnd`
    events report them, in execution order. When the first step fails, or a member of a
    group that is the first step, the payload is the initial payload passed to `run`;
    when the first function hands back the object `o` and the second fails, it is the
    initial payload merged with `o`. -/
theorem C2_error_event_payload (plan : List PlanNode) (payload : Payload) (e : ErrorValue)
    (p : Payload) (h : (run plan payload).status = Status.failed e p) :
    (∃ pre idx, (run plan payload).events =
        pre ++ [Event.error e idx (mergeAll payload (run plan payload).merged)] ∧
      hasError pre = false ∧
      (sequentialNodes plan = true → (run plan payload).merged = outputsOf pre)) ∧
    (∀ idx fn branches rest, plan = PlanNode.mk idx fn branches :: rest →
      (fn payload = Outcome.throws e ∨ fn payload = Outcome.rejects e) →
      (run plan payload).events =
        [Event.start payload, Event.functionStart idx payload, Event.error e idx payload]) ∧
    (∀ members rest, plan = PlanNode.parallel members :: rest →
      firstFailure ((settleOrder payload members).map (settle payload)) ≠ none →
      ∃ pre idx, (run plan payload).events = pre ++ [Event.error e idx payload] ∧
        hasError pre = false) ∧
    (∀ i1 f1 i2 f2 o rest,
      plan = PlanNode.mk i1 f1 none :: PlanNode.mk i2 f2 none :: rest →
      (f1 payload = Outcome.returns (Result.object o) ∨
        f1 payload = Outcome.resolves (Result.object o)) →
      (f2 (assign payload o) = Outcome.throws e ∨
        f2 (assign payload o) = Outcome.rejects e) →
      (run plan payload).events =
        [Event.start payload, Event.functionStart i1 payload,
          Event.functionEnd i1 payload (Result.object o),
          Event.functionStart i2 (assign payload o),
          Event.error e i2 (assign payload o)]) := by
  refine ⟨?_, ?_, ?_, ?_⟩
  · have hinv := runSeq_start_inv plan payload
    have heq := run_eq_of_failed plan payload e p h
    rw [heq] at h ⊢
    simp only [Inv, h] at hinv
    obtain ⟨pre, idx, hev, hpre, _, _⟩ := hinv
    refine ⟨pre, idx, hev, hpre, ?_⟩
    intro hseq
    have hlogged := runSeq_logged plan
      { payload := payload, events := [Event.start payload], invoked := [],
        status := Status.running, merged := [], settled := [] } hseq
      (by simp [Logged, outputsOf])
    simp only [Logged] at hlogged
    rw [hlogged, hev, outputsOf_append]
    simp [outputsOf]
  · intro idx fn branches rest hplan hfn
    subst hplan
    rcases hfn with hfn | hfn <;> cases rest <;> simp [run, runSeq, runNode, fail, hfn]
  · intro members rest hplan hfail
    subst hplan
    cases hf : firstFailure ((settleOrder payload members).map (settle payload)) with
    | none => exact absurd hf hfail
    | some failure =>
      have hfirst := firstError_groupEvents payload members
      rw [hf] at hfirst
      obtain ⟨pre, hcut, hnone⟩ := untilError_of_firstError _ _ (by simpa using hfirst)
      have hgroup : runGroup members
          { payload := payload, events := [Event.start payload], invoked := [],
            status := Status.running, merged := [], settled := [] } =
          { payload := payload
            events := [Event.start payload] ++ untilError (groupEvents payload members)
            invoked := [] ++ members.map ParallelMember.functionIndex
            status := Status.failed failure.2 (errorPayload failure.2 payload)
            merged := []
            settled := [] ++ (settleOrder payload members).map (settle payload) } := by
        simp only [runGroup, hf]
      have hrun : run (PlanNode.parallel members :: rest) payload =
          { payload := payload
            events := [Event.start payload] ++ untilError (groupEvents payload members)
            invoked := [] ++ members.map ParallelMember.functionIndex
            status := Status.failed failure.2 (errorPayload failure.2 payload)
            merged := []
            settled := [] ++ (settleOrder payload members).map (settle payload) } := by
        simp only [run, runSeq, runNode, hgroup]
        rw [runSeq_of_failed rest _ failure.2 (errorPayload failure.2 payload) rfl]
      rw [hrun] at h ⊢
      simp only [Status.failed.injEq] at h
      refine ⟨Event.start payload :: pre, failure.1, ?_, by simp [hasError, hnone]⟩
      simp [hcut, h.1]
  · intro i1 f1 i2 f2 o rest hplan h1 h2
    subst hplan
    rcases h1 with h1 | h1 <;> rcases h2 with h2 | h2 <;> cases rest <;>
      simp [run, runSeq, runNode, complete, follow, fail, h1, h2, Result.isEmpty,
        Result.output]

/-- Witness of C2: in the tree `[s1, f2]` run on `{}`, `s1` returning `{a: 1}`
    and `f2` throwing, the `error` event carries the payload `{a: 1}`; in the tree
    `[[a, b], f]`, whose group resolves with `{x: 1}` (late) and `{x: 2, y: 2}`
    (early) before `f` throws, it carries the outputs of the group merged in declaration
    order, `{x: 2, y: 2}`; in the tree `[f]` whose function returns a `Path` without
    payload, which meets no branch table, the `Path` is the error and the event carries
    the initial payload. -/
theorem C2_error_event_payload_witness :
    (run (succeedThenFail wuuut) []).events =
      [Event.start [], Event.functionStart 0 [],
        Event.functionEnd 0 [] (Result.object [("a", JSVal.num 1)]),
        Event.functionStart 1 [("a", JSVal.num 1)],
        Event.error wuuut 1 [("a", JSVal.num 1)]] ∧
    (run (groupThenFail wuuut) []).events =
      [Event.start [], Event.functionStart 0 [], Event.functionStart 1 [],
        Event.functionEnd 1 [] (Result.object [("x", JSVal.num 2), ("y", JSVal.num 2)]),
        Event.functionEnd 0 [] (Result.object [("x", JSVal.num 1)]),
        Event.functionStart 2 [("x", JSVal.num 2), ("y", JSVal.num 2)],
        Event.error wuuut 2 [("x", JSVal.num 2), ("y", JSVal.num 2)]] ∧
    (run [PlanNode.mk 0 (fun _ => Outcome.returns (Result.path "done" none)) none]
        [("a", JSVal.num 1)]).events =
      [Event.start [("a", JSVal.num 1)], Event.functionStart 0 [("a", JSVal.num 1)],
        Event.error (pathError "done") 0 [("a", JSVal.num 1)]] ∧
    (∃ pre idx, (run (succeedThenFail wuuut) []).events =
        pre ++ [Event.error wuuut idx
          (mergeAll [] (run (succeedThenFail wuuut) []).merged)] ∧
      hasError pre = false ∧
      (sequentialNodes (succeedThenFail wuuut) = true →
        (run (succeedThenFail wuuut) []).merged = outputsOf pre)) ∧
    (∃ pre idx, (run (groupThenFail wuuut) []).events =
        pre ++ [Event.error wuuut idx
          (mergeAll [] (run (groupThenFail wuuut) []).merged)] ∧
      hasError pre = false ∧
      (sequentialNodes (groupThenFail wuuut) = true →
        (run (groupThenFail wuuut) []).merged = outputsOf pre)) :=
  ⟨rfl, rfl, rfl,
    (C2_error_event_payload (succeedThenFail wuuut) [] wuuut
      (errorPayload wuuut [("a", JSVal.num 1)]) rfl).1,
    (C2_error_event_payload (groupThenFail wuuut) [] wuuut
      (errorPayload wuuut [("x", JSVal.num 2), ("y", JSVal.num 2)]) rfl).1⟩

/-- C3 (as stated, refuted): in the tree `[[f1, f2]]`, a parallel group whose two members
    both reject in the same turn, `f1` with `new CustomError('foo')` and `f2` with
    `new Error('wuuut')`, the value `new Error('wuuut')` is rejected from a function of
    the run, yet the run does not reject with it: the first failure wins, the run
    rejects with `new CustomError('foo')`, and the later error is discarded. -/
theorem C3_counterexample :
    (run (bothReject customError wuuut 0 0) []).settled =
      [⟨0, Outcome.rejects customError, false⟩, ⟨1, Outcome.rejects wuuut, false⟩] ∧
    rejectsWith (run (bothReject customError wuuut 0 0) []) customError
      [("error", JSVal.str "foo")] ∧
    ¬ ∃ p, rejectsWith (run (bothReject customError wuuut 0 0) []) wuuut p := by
  refine ⟨rfl, rfl, ?_⟩
  rintro ⟨p, hp⟩
  have hs : (run (bothReject customError wuuut 0 0) []).status =
      Status.failed customError [("error", JSVal.str "foo")] := rfl
  rw [rejectsWith, hs] at hp
  injection hp with he _
  have hname := congrArg ErrorValue.name he
  simp [customError, wuuut] at hname

/-- C3 (amended): for the value `e` thrown by (or rejected from) the first function of a
    run to fail (`pre` lists the functions that settled before it, none of which has
    failed), the run rejects with `e` itself, the `error` event reports `e` for that
    function, and `e.payload.error` equals `e.toJSON()` when `e` exposes `toJSON` and
    the object `{name, message, stack}` of `e` otherwise. -/
theorem C3_rejects_with_thrown_value (plan : List PlanNode) (payload : Payload)
    (e : ErrorValue) (pre : List Settlement) (x : Settlement) (post : List Settlement)
    (hsettled : (run plan payload).settled = pre ++ x :: post)
    (hthrown : x.outcome = Outcome.throws e ∨ x.outcome = Outcome.rejects e)
    (hfirst : ∀ y ∈ pre, y.failure = none) :
    ∃ q, rejectsWith (run plan payload) e (errorPayload e q) ∧
      Event.error e x.functionIndex q ∈ (run plan payload).events ∧
      lookupField (errorPayload e q) "error" =
        (match e.toJSON with
         | some r => r
         | none =>
           JSVal.obj [("name", e.name), ("message", e.message), ("stack", e.stack)]) := by
  have hff := firstFailure_of_first pre post x e hthrown hfirst
  rw [← hsettled, run_settled] at hff
  have hinv := runSeq_start_inv plan payload
  simp only [run, rejectsWith]
  generalize runSeq plan _ = s at hff hinv ⊢
  cases hs : s.status with
  | running =>
    simp only [Inv, hs] at hinv
    rw [hinv.2.2] at hff
    cases hff
  | completed =>
    simp only [Inv, hs] at hinv
    rw [hinv.2] at hff
    cases hff
  | unspecified =>
    simp only [Inv, hs] at hinv
    rw [hinv.2] at hff
    cases hff
  | failed e' p =>
    simp only [Inv, hs] at hinv
    obtain ⟨before, idx, hev, _, hp, hfail⟩ := hinv
    rw [hfail] at hff
    simp only [Option.some.injEq, Prod.mk.injEq] at hff
    obtain ⟨hidx, he⟩ := hff
    subst hidx he
    refine ⟨mergeAll payload s.merged, by rw [hs, hp], by simp [hs, hev], ?_⟩
    rw [lookupField_errorPayload]
    rfl

/-- Witness of C3: the test "should use error toJSON, if available, to serialize error":
    the tree `[() => { throw new CustomError('foo') }]` run on `{}` rejects
    with the thrown value, whose `payload.error` is `'foo'`; and in the tree `[[f1, f2]]`
    whose member `f2` rejects with `new Error('wuuut')` before `f1` rejects, the run
    rejects with `new Error('wuuut')`, whose `payload.error` is its `{name, message,
    stack}`. -/
theorem C3_rejects_with_thrown_value_witness :
    (∃ q, rejectsWith (run [PlanNode.mk 0 (fun _ => Outcome.throws customError) none] [])
        customError (errorPayload customError q) ∧
      Event.error customError 0 q ∈
        (run [PlanNode.mk 0 (fun _ => Outcome.throws customError) none] []).events ∧
      lookupField (errorPayload customError q) "error" = JSVal.str "foo") ∧
    (run (bothReject customError wuuut 1 0) []).settled =
      [⟨1, Outcome.rejects wuuut, false⟩, ⟨0, Outcome.rejects customError, false⟩] ∧
    (∃ q, rejectsWith (run (bothReject customError wuuut 1 0) []) wuuut
        (errorPayload wuuut q) ∧
      Event.error wuuut 1 q ∈ (run (bothReject customError wuuut 1 0) []).events ∧
      lookupField (errorPayload wuuut q) "error" =
        JSVal.obj [("name", JSVal.str "Error"), ("message", JSVal.str "wuuut"),
          ("stack", JSVal.str "Error: wuuut")]) :=
  ⟨C3_rejects_with_thrown_value [PlanNode.mk 0 (fun _ => Outcome.throws customError) none] []
      customError [] ⟨0, Outcome.throws customError, false⟩ [] rfl (Or.inl rfl)
      (fun _ h => absurd h (List.not_mem_nil _)),
    rfl,
    C3_rejects_with_thrown_value (bothReject customError wuuut 1 0) [] wuuut []
      ⟨1, Outcome.rejects wuuut, false⟩ [⟨0, Outcome.rejects customError, false⟩] rfl
      (Or.inr rfl) (fun _ h => absurd h (List.not_mem_nil _))⟩

end FunctionTree

namespace Cerebral

/-- With a socket, `sendMessage` records one more text and touches nothing else that the
    handshake reads. -/
theorem sendMessage_spec (d : Devtools) (text : String) (h : d.sockets ≠ []) :
    sentTexts (sendMessage d text) = sentTexts d ++ [text] ∧
    (sendMessage d text).sockets = d.sockets ∧
    (sendMessage d text).backlog = d.backlog ∧
    (sendMessage d text).isConnected = d.isConnected := by
  unfold sendMessage
  cases hl : d.sockets.getLast? with
  | none => exact absurd (List.getLast?_eq_none_iff.mp hl) h
  | some st => simp [sentTexts]

/-- While disconnected, `dispatch` appends the message to the backlog. -/
theorem dispatch_disconnected (d : Devtools) (message : String) (h : d.isConnected = false) :
    dispatch d message = { d with backlog := d.backlog ++ [message] } := by
  simp [dispatch, h]

/-- While disconnected, a generating step appends its message to the backlog and sends
    nothing. -/
theorem generate_disconnected (d : Devtools) (g : Generation) (h : d.isConnected = false) :
    (generate d g).backlog = d.backlog ++ (generated d g).toList ∧
    (generate d g).isConnected = false ∧
    (generate d g).sent = d.sent ∧
    (generate d g).sockets = d.sockets ∧
    initMessage (generate d g) = initMessage d ∧
    (generate d g).debuggerComponentsMap = d.debuggerComponentsMap := by
  cases g with
  | event event =>
    cases event with
    | functionEnd execution funcDetails payload result =>
      by_cases hs : result.suppressed = true
      · simp [generate, generated, listener, eventEnvelope, hs, h]
      · simp [generate, generated, listener, eventEnvelope, hs, h, dispatch_disconnected,
          initMessage]
    | «end» execution =>
      simp [generate, generated, listener, eventEnvelope, h, initMessage, dispatch]
    | _ =>
      simp [generate, generated, listener, eventEnvelope, h, dispatch_disconnected,
        initMessage]
  | executionData debuggingData execution functionDetails payload =>
    simp only [generate, generated, sendExecutionData, createExecutionMessage]
    split
    · rw [dispatch_disconnected _ _ (by simpa using h)]
      simp [h, initMessage]
    · rw [dispatch_disconnected _ _ h]
      simp [h, initMessage]

/-- While disconnected, a sequence of generating steps appends its messages, in order,
    to the backlog and sends nothing. -/
theorem generate_all_disconnected (gens : List Generation) :
    ∀ d : Devtools, d.isConnected = false →
      (gens.foldl generate d).backlog = d.backlog ++ generatedAll d gens ∧
      (gens.foldl generate d).isConnected = false ∧
      (gens.foldl generate d).sent = d.sent ∧
      (gens.foldl generate d).sockets = d.sockets ∧
      initMessage (gens.foldl generate d) = initMessage d ∧
      (gens.foldl generate d).debuggerComponentsMap = d.debuggerComponentsMap := by
  induction gens with
  | nil => intro d h; simp [generatedAll, h]
  | cons g rest ih =>
    intro d h
    obtain ⟨hb, hc, hs, hk, hi, hm⟩ := generate_disconnected d g h
    obtain ⟨hb2, hc2, hs2, hk2, hi2, hm2⟩ := ih (generate d g) hc
    simp only [List.foldl_cons, generatedAll]
    refine ⟨?_, hc2, ?_, ?_, ?_, ?_⟩
    · rw [hb2, hb, List.append_assoc]
    · rw [hs2, hs]
    · rw [hk2, hk]
    · rw [hi2, hi]
    · rw [hm2, hm]

/-- What `sendInitial` does on an instance that has a socket. -/
theorem sendInitial_spec (d : Devtools) (h : d.sockets ≠ []) :
    sentTexts (sendInitial d) =
      sentTexts d ++ [initMessage d, bulkMessage d.backlog,
        componentsMessage { d with backlog := [], isConnected := true }] ∧
    (sendInitial d).backlog = [] ∧ (sendInitial d).isConnected = true := by
  unfold sendInitial sendBulkMessage sendMessage
  cases hk : d.sockets with
  | nil => exact absurd hk h
  | cons first more =>
    cases hl : (first :: more).getLast? with
    | none => simp at hl
    | some st => simp [sentTexts, hl, componentsMessage]

/-- C4: from a disconnected bridge with an empty backlog, the messages generated by the
    listeners of `watchExecution` or by `sendExecutionData` are queued in generation
    order, and `sendInitial` then sends three messages: the `init` message (the
    stringified object of type `init`, in which the stringified model takes the place
    of the placeholder), one message of type `bulk` whose `data.messages` is the list of
    the generated messages in generation order, and the `components` message; afterwards
    the backlog is empty and `isConnected` is true. -/
theorem C4_backlog_flushed_as_bulk (d : Devtools) (gens : List Generation)
    (hc : d.isConnected = false) (hb : d.backlog = []) (hs : d.sockets ≠ []) :
    (gens.foldl generate d).backlog = generatedAll d gens ∧
    sentTexts (sendInitial (gens.foldl generate d)) =
      sentTexts d ++
        [jsReplace
          (JSON.stringifyObject
            [("type", JSVal.str "init"), ("source", JSVal.str "c"),
             ("version", JSVal.str "v1"),
             ("data", JSVal.obj [("initialModel",
                if d.initialModelString.truthy then JSVal.str "PLACEHOLDER_INITIAL_MODEL"
                else d.model)])])
          (quoted "PLACEHOLDER_INITIAL_MODEL") (toJSString d.initialModelString),
         JSON.stringifyObject
          [("type", JSVal.str "bulk"), ("source", JSVal.str "c"),
           ("version", JSVal.str "v1"),
           ("data", JSVal.obj
              [("messages", JSVal.arr ((generatedAll d gens).map JSVal.str))])],
         JSON.stringifyObject
          [("type", JSVal.str "components"), ("source", JSVal.str "c"),
           ("data", JSVal.obj
              [("map", componentsMapValue d.debuggerComponentsMap),
               ("render", JSVal.obj [("components", JSVal.arr [])])])]] ∧
    (sendInitial (gens.foldl generate d)).backlog = [] ∧
    (sendInitial (gens.foldl generate d)).isConnected = true := by
  obtain ⟨hb2, _, hs2, hk2, hi2, hm2⟩ := generate_all_disconnected gens d hc
  obtain ⟨h1, h2, h3⟩ := sendInitial_spec (gens.foldl generate d) (by rw [hk2]; exact hs)
  refine ⟨by rw [hb2, hb, List.nil_append], ?_, h2, h3⟩
  rw [h1, hi2, hb2, hb, List.nil_append]
  simp [sentTexts, hs2, componentsMessage, hm2, initMessage, bulkMessage, VERSION,
    PLACEHOLDER_INITIAL_MODEL]

/-- Witness of C4: the bridge after `init` on the model `{count: 0}`, the message of a
    `start` event and the message of a mutation, then the handshake: the texts passed to
    `send`. -/
theorem C4_backlog_flushed_as_bulk_witness :
    sentTexts (sendInitial (sampleGenerations.foldl generate sampleDevtools)) =
      ["\x7b\"type\":\"init\",\"source\":\"c\",\"version\":\"v1\",\"data\":\x7b\"initial" ++
         "Model\":\x7b\"count\":0\x7d\x7d\x7d",
       "\x7b\"type\":\"bulk\",\"source\":\"c\",\"version\":\"v1\",\"data\":\x7b\"message" ++
         "s\":[\"\x7b\\\"type\\\":\\\"executionStart\\\",\\\"source\\\":\\\"c\\\",\\\"data" ++
         "\\\":\x7b\\\"execution\\\":\x7b\\\"executionId\\\":\\\"e1\\\",\\\"name\\\":\\\"c" ++
         "licked\\\",\\\"staticTree\\\":[],\\\"datetime\\\":1486998977123,\\\"executedBy\\" ++
         "\":null\x7d\x7d\x7d\",\"\x7b\\\"type\\\":\\\"execution\\\",\\\"source\\\":\\\"c" ++
         "\\\",\\\"version\\\":\\\"v1\\\",\\\"data\\\":\x7b\\\"execution\\\":\x7b\\\"execu" ++
         "tionId\\\":\\\"e1\\\",\\\"functionIndex\\\":0,\\\"payload\\\":\x7b\x7d,\\\"datet" ++
         "ime\\\":1486998977123,\\\"data\\\":\x7b\\\"type\\\":\\\"mutation\\\",\\\"method" ++
         "\\\":\\\"set\\\",\\\"args\\\":[\\\"count\\\",1]\x7d\x7d\x7d\x7d\"]\x7d\x7d",
       "\x7b\"type\":\"components\",\"source\":\"c\",\"data\":\x7b\"map\":\x7b\x7d,\"ren" ++
         "der\":\x7b\"components\":[]\x7d\x7d\x7d"] ∧
    (sendInitial (sampleGenerations.foldl generate sampleDevtools)).backlog = [] ∧
    (sendInitial (sampleGenerations.foldl generate sampleDevtools)).isConnected = true :=
  have h := C4_backlog_flushed_as_bulk sampleDevtools sampleGenerations rfl rfl (by decide)
  ⟨h.2.1.trans (by decide), h.2.2.1, h.2.2.2⟩

end Cerebral

/-- C5 (the code at the failing input): in both bridges, after a completed handshake the
    first socket closes and the `start` listener runs: the backlog stays empty, the message
    is passed to `send` on the closed socket, and after the reconnection and the next
    handshake the new socket has carried `ping`, `init` and (in cerebral) an empty `bulk`
    and `components`, not the message. -/
theorem C5_message_after_close_not_queued :
    (Cerebral.startAfterClose.isConnected = true ∧
      Cerebral.startAfterClose.backlog = [] ∧
      Cerebral.startAfterClose.sent.getLast? =
        some ⟨0, ReadyState.closed,
          JSON.stringifyObject (executionStartEnvelope "c" sampleExecution JSVal.undefined)⟩ ∧
      Cerebral.textsOn Cerebral.reconnected 1 =
        [pingMessage, Cerebral.initMessage Cerebral.sampleDevtools, Cerebral.bulkMessage [],
          Cerebral.componentsMessage Cerebral.sampleDevtools]) ∧
    (FunctionTreeDevtools.startAfterClose.isConnected = true ∧
      FunctionTreeDevtools.startAfterClose.backlog = [] ∧
      FunctionTreeDevtools.startAfterClose.sent.getLast? =
        some ⟨0, ReadyState.closed,
          JSON.stringifyObject (executionStartEnvelope "ft" sampleExecution JSVal.undefined)⟩ ∧
      FunctionTreeDevtools.textsOn FunctionTreeDevtools.reconnected 1 =
        [pingMessage, JSON.stringifyObject FunctionTreeDevtools.initEnvelope]) := by
  refine ⟨⟨rfl, rfl, rfl, rfl⟩, ⟨rfl, rfl, rfl, rfl⟩⟩

namespace FunctionTreeDevtools

/-- The read of a key of the context is the lookup of that key. -/
theorem lookupObject_eq_findKey (objects : List (String × Obj)) (key : String) :
    lookupObject objects key = findKey objects key := by
  induction objects with
  | nil => simp [lookupObject, findKey]
  | cons kv rest ih =>
    obtain ⟨k, w⟩ := kv
    by_cases h : k = key
    · simp [lookupObject, findKey, h]
    · simp [lookupObject, findKey, h, ih]

/-- Reading back the key of the context just assigned gives the assigned object. -/
theorem lookupObject_setObject_same (objects : List (String × Obj)) (key : String) (o : Obj) :
    lookupObject (setObject objects key o) key = some o := by
  simp [lookupObject_eq_findKey, setObject, findKey_setKey_same]

/-- An assignment to a key of the context leaves the other keys as they were. -/
theorem lookupObject_setObject_ne (objects : List (String × Obj)) (key other : String)
    (o : Obj) (hne : key ≠ other) :
    lookupObject (setObject objects key o) other = lookupObject objects other := by
  simp [lookupObject_eq_findKey, setObject, findKey_setKey_ne _ _ _ _ hne.symm]

/-- The arrow function bound to a key of the wrapped provider. -/
theorem lookupMember_wrapped (members : List (String × Member)) (providerKey key : String)
    (id : Nat) :
    lookupMember
      (members.map (fun entry => (entry.1, Member.wrapped providerKey entry.1 entry.2 id)))
      key =
    (lookupMember members key).map (fun m => Member.wrapped providerKey key m id) := by
  induction members with
  | nil => simp [lookupMember]
  | cons entry rest ih =>
    obtain ⟨k, m⟩ := entry
    by_cases h : k = key
    · subst h
      simp [lookupMember]
    · simp [lookupMember, h, ih]

mutual

/-- When the identities met in a value are distinct and none was pushed before, the
    replacer of `safeStringify` replaces nothing: the text is the one of
    `JSON.stringify` and the identities met are pushed in order. -/
theorem safeValue_eq_stringify : ∀ (v : JSVal) (refs : List Nat), (refsOf v).Nodup →
    (∀ id ∈ refsOf v, id ∉ refs) → safeValue v refs = (JSON.stringify v, refs ++ refsOf v)
  | JSVal.undefined, refs, _, _ => by simp [safeValue, JSON.stringify, refsOf]
  | JSVal.null, refs, _, _ => by simp [safeValue, JSON.stringify, refsOf]
  | JSVal.bool true, refs, _, _ => by simp [safeValue, JSON.stringify, refsOf]
  | JSVal.bool false, refs, _, _ => by simp [safeValue, JSON.stringify, refsOf]
  | JSVal.num n, refs, _, _ => by simp [safeValue, JSON.stringify, refsOf]
  | JSVal.str s, refs, _, _ => by simp [safeValue, JSON.stringify, refsOf]
  | JSVal.arr items, refs, hnodup, hfresh => by
    have h := safeItems_eq_stringify items refs (by simpa [refsOf] using hnodup)
      (by simpa [refsOf] using hfresh)
    simp [safeValue, JSON.stringify, refsOf, h]
  | JSVal.obj fields, refs, hnodup, hfresh => by
    have h := safeMembers_eq_stringify fields refs (by simpa [refsOf] using hnodup)
      (by simpa [refsOf] using hfresh)
    simp [safeValue, JSON.stringify, refsOf, h]
  | JSVal.ref id fields, refs, hnodup, hfresh => by
    simp only [refsOf, List.nodup_cons] at hnodup
    have hid : id ∉ refs := hfresh id (by simp [refsOf])
    have h := safeMembers_eq_stringify fields (refs ++ [id]) hnodup.2 (by
      intro x hx hmem
      rcases List.mem_append.mp hmem with hin | hin
      · exact hfresh x (by simp [refsOf, hx]) hin
      · have : x = id := by simpa using hin
        exact hnodup.1 (this ▸ hx))
    simp [safeValue, JSON.stringify, refsOf, h, hid]

/-- The elements of an array are written as `JSON.stringify` writes them. -/
theorem safeItems_eq_stringify : ∀ (items : List JSVal) (refs : List Nat),
    (refsOfItems items).Nodup → (∀ id ∈ refsOfItems items, id ∉ refs) →
    safeItems items refs = (JSON.stringifyItems items, refs ++ refsOfItems items)
  | [], refs, _, _ => by simp [safeItems, JSON.stringifyItems, refsOfItems]
  | v :: rest, refs, hnodup, hfresh => by
    simp only [refsOfItems] at hnodup hfresh
    have hparts := List.nodup_append.mp hnodup
    have h1 := safeValue_eq_stringify v refs hparts.1
      (fun x hx => hfresh x (List.mem_append.mpr (Or.inl hx)))
    have h2 := safeItems_eq_stringify rest (refs ++ refsOf v) hparts.2.1 (by
      intro x hx hmem
      rcases List.mem_append.mp hmem with hin | hin
      · exact hfresh x (List.mem_append.mpr (Or.inr hx)) hin
      · exact hparts.2.2 hin hx)
    simp [safeItems, JSON.stringifyItems, refsOfItems, h1, h2]

/-- The members of an object are written as `JSON.stringify` writes them. -/
theorem safeMembers_eq_stringify : ∀ (fields : List (String × JSVal)) (refs : List Nat),
    (refsOfMembers fields).Nodup → (∀ id ∈ refsOfMembers fields, id ∉ refs) →
    safeMembers fields refs = (JSON.stringifyMembers fields, refs ++ refsOfMembers fields)
  | [], refs, _, _ => by simp [safeMembers, JSON.stringifyMembers, refsOfMembers]
  | (k, v) :: rest, refs, hnodup, hfresh => by
    simp only [refsOfMembers] at hnodup hfresh
    have hparts := List.nodup_append.mp hnodup
    have h1 := safeValue_eq_stringify v refs hparts.1
      (fun x hx => hfresh x (List.mem_append.mpr (Or.inl hx)))
    have h2 := safeMembers_eq_stringify rest (refs ++ refsOf v) hparts.2.1 (by
      intro x hx hmem
      rcases List.mem_append.mp hmem with hin | hin
      · exact hfresh x (List.mem_append.mpr (Or.inr hx)) hin
      · exact hparts.2.2 hin hx)
    cases hs : JSON.stringify v <;>
      simp [safeMembers, JSON.stringifyMembers, refsOfMembers, h1, h2, hs]

end

/-- When no object is met twice in a message object, `safeStringify` gives the text of
    `JSON.stringify`. -/
theorem safeStringify_eq_stringify (fields : Fields) (h : (refsOfMembers fields).Nodup) :
    safeStringify fields = JSON.stringifyObject fields := by
  have := safeMembers_eq_stringify fields [] h (by simp)
  simp [safeStringify, JSON.stringifyObject, this]

/-- With a socket, `dispatch` produces exactly the message it is given. -/
theorem dispatch_producesOne_ft (d : DevtoolsClass) (m : String) (h : d.sockets ≠ []) :
    producesOne (sentTexts d) d.backlog (sentTexts (dispatch d m)) (dispatch d m).backlog m := by
  unfold dispatch
  by_cases hc : d.isConnected = true
  · simp only [hc, if_true]
    unfold sendMessage
    cases hl : d.sockets.getLast? with
    | none => exact absurd (List.getLast?_eq_none_iff.mp hl) h
    | some st => exact Or.inl ⟨by simp [sentTexts], rfl⟩
  · simp only [hc]
    exact Or.inr ⟨rfl, rfl⟩

/-- In the context in which the debugger handle itself was wrapped, the wrapped `send`
    finds itself under `context.debugger.send` and calls itself: no number of steps is
    enough for the call to return. -/
theorem wrapped_debugger_send_diverges (context : Context) (handle : Obj) (original : Member)
    (id : Nat) (hd : lookupObject context.objects "debugger" = some handle)
    (hm : lookupMember handle.members "send" =
      some (Member.wrapped "debugger" "send" original id)) :
    ∀ (fuel : Nat) (d : DevtoolsClass) (receiver : Nat) (args : List JSVal),
      callMember fuel context d (Member.wrapped "debugger" "send" original id) receiver args =
        CallResult.outOfFuel := by
  intro fuel
  induction fuel with
  | zero => intro d receiver args; rfl
  | succ n ih =>
    intro d receiver args
    simp only [callMember, hd, hm, ih]

/-- C6 (as stated, refuted): `debugger` is a key of every context prepared by the devtools
    provider. After `context.debugger.wrapProvider('debugger')` the wrapped object has the
    keys `send` and `wrapProvider` of the handle, but the call `context.debugger.send(x)`
    emits no record and returns no result: the arrow function calls
    `context.debugger.send`, which is now itself, without end (in JavaScript until the
    call stack is exhausted). -/
theorem C6_counterexample :
    ∃ context w,
      wrapProvider (provider sampleContext sampleFunction (JSVal.obj [])) "debugger" =
        some context ∧
      lookupObject context.objects "debugger" = some w ∧
      w.keys = ["send", "wrapProvider"] ∧
      ∀ (fuel : Nat) (d : DevtoolsClass) (args : List JSVal),
        callMethod fuel context d "debugger" "send" args = CallResult.outOfFuel := by
  refine ⟨_, _, rfl, rfl, rfl, ?_⟩
  intro fuel d args
  show callMember fuel _ d
    (Member.wrapped "debugger" "send" (Member.send sampleFunction (JSVal.obj [])) 1) 2 args =
      CallResult.outOfFuel
  apply wrapped_debugger_send_diverges <;> rfl

/-- C6 (amended): on a context prepared by the devtools provider, after
    `wrapProvider(providerKey)` for a `providerKey` other than `debugger`,
    `context[providerKey]` has exactly the keys of the original provider, and calling
    `context[providerKey][key]` with `args` produces, through `debugger.send`, exactly one
    message, sent or queued: the `execution` message whose `data` is the debug record
    `{method: providerKey + '.' + key, args: args}`, written by `safeStringify`, which
    gives the text of `JSON.stringify` when no object is met twice in the message; the
    call then goes on as the
    original property applied to the original provider with `args` (it throws when that
    property is not a function), and for a function it returns that function's result. -/
theorem C6_wrapProvider_wraps_every_method (context0 : Context)
    (functionDetails : FunctionDetails) (payload : JSVal) (providerKey : String) (p : Obj)
    (d : DevtoolsClass) (hkey : providerKey ≠ "debugger")
    (hp : lookupObject (provider context0 functionDetails payload).objects providerKey
      = some p)
    (hs : d.sockets ≠ []) :
    ∃ context w,
      wrapProvider (provider context0 functionDetails payload) providerKey = some context ∧
      lookupObject context.objects providerKey = some w ∧
      w.keys = p.keys ∧
      (∀ key m args, lookupMember p.members key = some m →
        ∃ d', producesOne (sentTexts d) d.backlog (sentTexts d') d'.backlog
            (safeStringify
              [("type", JSVal.str "execution"), ("source", JSVal.str "ft"),
               ("version", JSVal.str "v1"),
               ("data", JSVal.obj [("execution", JSVal.obj
                  [("executionId", context0.execution.id),
                   ("functionIndex", functionDetails.functionIndex),
                   ("payload", payload), ("datetime", context0.execution.datetime),
                   ("data", JSVal.obj
                      [("method", JSVal.str (providerKey ++ "." ++ key)),
                       ("args", JSVal.arr args)])])])]) ∧
          ((refsOf context0.execution.id ++ (refsOf functionDetails.functionIndex ++
              (refsOf payload ++ (refsOf context0.execution.datetime ++
                refsOfItems args)))).Nodup →
            safeStringify
              [("type", JSVal.str "execution"), ("source", JSVal.str "ft"),
               ("version", JSVal.str "v1"),
               ("data", JSVal.obj [("execution", JSVal.obj
                  [("executionId", context0.execution.id),
                   ("functionIndex", functionDetails.functionIndex),
                   ("payload", payload), ("datetime", context0.execution.datetime),
                   ("data", JSVal.obj
                      [("method", JSVal.str (providerKey ++ "." ++ key)),
                       ("args", JSVal.arr args)])])])] =
            JSON.stringifyObject
              [("type", JSVal.str "execution"), ("source", JSVal.str "ft"),
               ("version", JSVal.str "v1"),
               ("data", JSVal.obj [("execution", JSVal.obj
                  [("executionId", context0.execution.id),
                   ("functionIndex", functionDetails.functionIndex),
                   ("payload", payload), ("datetime", context0.execution.datetime),
                   ("data", JSVal.obj
                      [("method", JSVal.str (providerKey ++ "." ++ key)),
                       ("args", JSVal.arr args)])])])]) ∧
          (∀ fuel, callMethod (fuel + 2) context d providerKey key args =
            callMember (fuel + 1) context d' m p.id args) ∧
          (∀ f fuel, m = Member.native f →
            callMethod (fuel + 2) context d providerKey key args =
              CallResult.returned context d' (f p.id args)) ∧
          (∀ v fuel, m = Member.data v →
            callMethod (fuel + 2) context d providerKey key args =
              CallResult.threw context d')) := by
  have hwrap : wrapProvider (provider context0 functionDetails payload) providerKey =
      some { provider context0 functionDetails payload with
        objects := setObject (provider context0 functionDetails payload).objects providerKey
          ⟨(provider context0 functionDetails payload).nextId,
            p.members.map
              (fun entry => (entry.1, Member.wrapped providerKey entry.1 entry.2 p.id))⟩
        nextId := (provider context0 functionDetails payload).nextId + 1 } := by
    rw [wrapProvider, hp]
  refine ⟨_, _, hwrap, lookupObject_setObject_same _ _ _, ?_, ?_⟩
  · simp [Obj.keys, List.map_map, Function.comp_def]
  · intro key m args hm
    have hdbg : lookupObject
        (setObject (provider context0 functionDetails payload).objects providerKey
          ⟨(provider context0 functionDetails payload).nextId,
            p.members.map
              (fun entry => (entry.1, Member.wrapped providerKey entry.1 entry.2 p.id))⟩)
        "debugger" =
        some ⟨context0.nextId, [("send", Member.send functionDetails payload),
          ("wrapProvider", Member.wrapProvider)]⟩ := by
      rw [lookupObject_setObject_ne _ _ _ _ hkey]
      exact lookupObject_setObject_same _ _ _
    have hcall : ∀ fuel, callMethod (fuel + 2)
        { provider context0 functionDetails payload with
          objects := setObject (provider context0 functionDetails payload).objects
            providerKey
            ⟨(provider context0 functionDetails payload).nextId,
              p.members.map
                (fun entry => (entry.1, Member.wrapped providerKey entry.1 entry.2 p.id))⟩
          nextId := (provider context0 functionDetails payload).nextId + 1 }
        d providerKey key args =
        callMember (fuel + 1)
          { provider context0 functionDetails payload with
            objects := setObject (provider context0 functionDetails payload).objects
              providerKey
              ⟨(provider context0 functionDetails payload).nextId,
                p.members.map
                  (fun entry =>
                    (entry.1, Member.wrapped providerKey entry.1 entry.2 p.id))⟩
            nextId := (provider context0 functionDetails payload).nextId + 1 }
          (sendExecutionData d (debugRecord providerKey key args) context0.execution
            functionDetails payload)
          m p.id args := by
      intro fuel
      simp only [callMethod, lookupObject_setObject_same, lookupMember_wrapped, hm,
        Option.map_some', callMember, hdbg, lookupMember, if_true, List.headD_cons]
      rfl
    refine ⟨sendExecutionData d (debugRecord providerKey key args) context0.execution
      functionDetails payload, ?_, ?_, hcall, ?_, ?_⟩
    · exact dispatch_producesOne_ft d _ hs
    · intro hnodup
      refine safeStringify_eq_stringify _ ?_
      simpa [refsOfMembers, refsOf] using hnodup
    · intro f fuel hf
      subst hf
      rw [hcall fuel]
      rfl
    · intro v fuel hv
      subst hv
      rw [hcall fuel]
      rfl

/-- Witness of C6: the provider `http` of the examples is wrapped on a new bridge, which
    is not connected yet; the call `context.http.get(1, 2)` queues the one message of the
    record of `http.get` and returns what `get` returns on the original provider
    (identity 0) with the two arguments. -/
theorem C6_wrapProvider_wraps_every_method_witness :
    ∃ context w d',
      wrapProvider (provider sampleContext sampleFunction (JSVal.obj [])) "http" =
        some context ∧
      lookupObject context.objects "http" = some w ∧
      w.keys = ["get", "baseUrl"] ∧
      callMethod 2 context (DevtoolsClass.create 1) "http" "get" [JSVal.num 1, JSVal.num 2] =
        CallResult.returned context d' (JSVal.arr [JSVal.num 0, JSVal.num 2]) ∧
      producesOne [] [] (sentTexts d') d'.backlog
        ("\x7b\"type\":\"execution\",\"source\":\"ft\",\"version\":\"v1\",\"data\":\x7b\"e" ++
         "xecution\":\x7b\"executionId\":\"e1\",\"functionIndex\":0,\"payload\":\x7b\x7d," ++
         "\"datetime\":1486998977123,\"data\":\x7b\"method\":\"http.get\",\"args\":[1,2]" ++
         "\x7d\x7d\x7d\x7d") :=
  match C6_wrapProvider_wraps_every_method sampleContext sampleFunction (JSVal.obj []) "http"
      ⟨0, [("get", Member.native
          (fun receiver args => JSVal.arr
            [JSVal.num (SafeInteger.ofNat receiver), JSVal.num (SafeInteger.ofNat args.length)])),
        ("baseUrl", Member.data (JSVal.str "/api"))]⟩
      (DevtoolsClass.create 1) (by decide) rfl (by decide) with
  | ⟨context, w, h1, h2, h3, h4⟩ =>
    match h4 "get" _ [JSVal.num 1, JSVal.num 2] rfl with
    | ⟨d', hone, _, _, hnative, _⟩ => ⟨context, w, d', h1, h2, h3, hnative _ 0 rfl, hone⟩

end FunctionTreeDevtools

namespace Cerebral

/-- With a socket, `dispatch` produces exactly the message it is given. -/
theorem dispatch_producesOne (d : Devtools) (m : String) (h : d.sockets ≠ []) :
    producesOne (sentTexts d) d.backlog (sentTexts (dispatch d m)) (dispatch d m).backlog m := by
  unfold dispatch
  by_cases hc : d.isConnected = true
  · obtain ⟨h1, _, h3, _⟩ := sendMessage_spec d m h
    simp only [hc, if_true]
    exact Or.inl ⟨h1, h3⟩
  · simp only [hc]
    exact Or.inr ⟨rfl, rfl⟩

end Cerebral

/-- C7 (as stated, refuted): (1) for the result `{a: s, b: s}`, whose two properties hold
    the same object `s = {x: 1}`, the connected function-tree bridge sends one
    `executionFunctionEnd` message, but its output is not the result: `safeStringify`
    writes `s` in full under `a` and, finding it in `refs` under `b`, writes the string
    `'[CIRCULAR]'` there; the cerebral bridge writes the result in full. (2) A
    function-tree bridge whose socket has not opened yet has no listener on the tree: for
    the result `{a: 1}` it produces no message, neither sent nor queued. -/
theorem C7_counterexample :
    FunctionTreeDevtools.sharedResult.suppressed = false ∧
    FunctionTreeDevtools.sentTexts
        (FunctionTreeDevtools.listener FunctionTreeDevtools.connectedDevtools
          (EngineEvent.functionEnd sampleExecution sampleFunction (JSVal.obj [])
            FunctionTreeDevtools.sharedResult)) =
      FunctionTreeDevtools.sentTexts FunctionTreeDevtools.connectedDevtools ++
        ["\x7b\"type\":\"executionFunctionEnd\",\"source\":\"ft\",\"data\":\x7b\"execution" ++
         "\":\x7b\"executionId\":\"e1\",\"functionIndex\":0,\"output\":\x7b\"a\":\x7b\"x\"" ++
         ":1\x7d,\"b\":\"[CIRCULAR]\"\x7d\x7d\x7d\x7d"] ∧
    JSON.stringifyObject
        (executionFunctionEndEnvelope "ft" sampleExecution sampleFunction
          (FnResult.value (JSVal.obj
            [("a", JSVal.obj [("x", JSVal.num 1)]), ("b", JSVal.str "[CIRCULAR]")]))) =
      ("\x7b\"type\":\"executionFunctionEnd\",\"source\":\"ft\",\"data\":\x7b\"execution" ++
         "\":\x7b\"executionId\":\"e1\",\"functionIndex\":0,\"output\":\x7b\"a\":\x7b\"x\"" ++
         ":1\x7d,\"b\":\"[CIRCULAR]\"\x7d\x7d\x7d\x7d") ∧
    Cerebral.sentTexts
        (Cerebral.listener Cerebral.connectedDevtools
          (EngineEvent.functionEnd sampleExecution sampleFunction (JSVal.obj [])
            FunctionTreeDevtools.sharedResult)) =
      Cerebral.sentTexts Cerebral.connectedDevtools ++
        ["\x7b\"type\":\"executionFunctionEnd\",\"source\":\"c\",\"data\":\x7b\"execution" ++
         "\":\x7b\"executionId\":\"e1\",\"functionIndex\":0,\"output\":\x7b\"a\":\x7b\"x\"" ++
         ":1\x7d,\"b\":\x7b\"x\":1\x7d\x7d\x7d\x7d\x7d"] ∧
    (FnResult.value (JSVal.obj [("a", JSVal.num 1)])).suppressed = false ∧
    (FunctionTreeDevtools.emit (FunctionTreeDevtools.DevtoolsClass.create 1) 0
        (EngineEvent.functionEnd sampleExecution sampleFunction (JSVal.obj [])
          (FnResult.value (JSVal.obj [("a", JSVal.num 1)])))).sent = [] ∧
    (FunctionTreeDevtools.emit (FunctionTreeDevtools.DevtoolsClass.create 1) 0
        (EngineEvent.functionEnd sampleExecution sampleFunction (JSVal.obj [])
          (FnResult.value (JSVal.obj [("a", JSVal.num 1)])))).backlog = [] := by
  refine ⟨rfl, by decide, by decide, by decide, rfl, rfl, rfl⟩

/-- C7 (amended): for a `functionEnd` event with result `r`, every `functionEnd` listener a
    bridge has registered produces no message when `r` is falsy or is a `Path` whose
    payload is falsy, and otherwise produces exactly one message, sent or queued: the
    object of type `executionFunctionEnd` whose output is the payload of `r` when `r` is a
    `Path` and `r` itself when it is not, written by `JSON.stringify` in the cerebral
    bridge and by `safeStringify` in the function-tree bridge, which gives the same text
    when no object is met twice in the message. Emitting the event calls every registered
    listener once: on a bridge with one registered listener it is one call of that
    listener. -/
theorem C7_functionEnd_message (c : Cerebral.Devtools)
    (f : FunctionTreeDevtools.DevtoolsClass) (execution : Execution)
    (funcDetails : FunctionDetails) (payload : JSVal) (r : FnResult)
    (hc : c.sockets ≠ []) (hf : f.sockets ≠ []) :
    (r.suppressed = true ↔
      (∃ v, r = FnResult.value v ∧ v.truthy = false) ∨
      (∃ p, r = FnResult.path p ∧ p.truthy = false)) ∧
    (r.suppressed = true →
      Cerebral.listener c (EngineEvent.functionEnd execution funcDetails payload r) = c ∧
      FunctionTreeDevtools.listener f
        (EngineEvent.functionEnd execution funcDetails payload r) = f) ∧
    (r.suppressed = false →
      producesOne (Cerebral.sentTexts c) c.backlog
        (Cerebral.sentTexts
          (Cerebral.listener c (EngineEvent.functionEnd execution funcDetails payload r)))
        (Cerebral.listener c
          (EngineEvent.functionEnd execution funcDetails payload r)).backlog
        (JSON.stringifyObject
          [("type", JSVal.str "executionFunctionEnd"), ("source", JSVal.str "c"),
           ("data", JSVal.obj [("execution", JSVal.obj
              [("executionId", execution.id),
               ("functionIndex", funcDetails.functionIndex),
               ("output", match r with
                  | FnResult.value v => v
                  | FnResult.path p => p)])])]) ∧
      producesOne (FunctionTreeDevtools.sentTexts f) f.backlog
        (FunctionTreeDevtools.sentTexts
          (FunctionTreeDevtools.listener f
            (EngineEvent.functionEnd execution funcDetails payload r)))
        (FunctionTreeDevtools.listener f
          (EngineEvent.functionEnd execution funcDetails payload r)).backlog
        (FunctionTreeDevtools.safeStringify
          [("type", JSVal.str "executionFunctionEnd"), ("source", JSVal.str "ft"),
           ("data", JSVal.obj [("execution", JSVal.obj
              [("executionId", execution.id),
               ("functionIndex", funcDetails.functionIndex),
               ("output", match r with
                  | FnResult.value v => v
                  | FnResult.path p => p)])])]) ∧
      ((FunctionTreeDevtools.refsOf execution.id ++
          (FunctionTreeDevtools.refsOf funcDetails.functionIndex ++
            FunctionTreeDevtools.refsOf (match r with
              | FnResult.value v => v
              | FnResult.path p => p))).Nodup →
        FunctionTreeDevtools.safeStringify
          [("type", JSVal.str "executionFunctionEnd"), ("source", JSVal.str "ft"),
           ("data", JSVal.obj [("execution", JSVal.obj
              [("executionId", execution.id),
               ("functionIndex", funcDetails.functionIndex),
               ("output", match r with
                  | FnResult.value v => v
                  | FnResult.path p => p)])])] =
        JSON.stringifyObject
          [("type", JSVal.str "executionFunctionEnd"), ("source", JSVal.str "ft"),
           ("data", JSVal.obj [("execution", JSVal.obj
              [("executionId", execution.id),
               ("functionIndex", funcDetails.functionIndex),
               ("output", match r with
                  | FnResult.value v => v
                  | FnResult.path p => p)])])])) ∧
    (Cerebral.emit c (EngineEvent.functionEnd execution funcDetails payload r) =
        Nat.iterate
          (fun s => Cerebral.listener s (EngineEvent.functionEnd execution funcDetails payload r))
          c.watchers c ∧
      (c.watchers = 1 →
        Cerebral.emit c (EngineEvent.functionEnd execution funcDetails payload r) =
          Cerebral.listener c (EngineEvent.functionEnd execution funcDetails payload r))) ∧
    (∀ tree,
      FunctionTreeDevtools.emit f tree
          (EngineEvent.functionEnd execution funcDetails payload r) =
        Nat.iterate
          (fun s => FunctionTreeDevtools.listener s
            (EngineEvent.functionEnd execution funcDetails payload r))
          (f.watchers.getD tree 0) f ∧
      (f.watchers.getD tree 0 = 1 →
        FunctionTreeDevtools.emit f tree
            (EngineEvent.functionEnd execution funcDetails payload r) =
          FunctionTreeDevtools.listener f
            (EngineEvent.functionEnd execution funcDetails payload r))) := by
  refine ⟨?_, ?_, ?_, ⟨rfl, fun h1 => by simp [Cerebral.emit, h1]⟩,
    fun tree => ⟨rfl, fun h1 => by rw [FunctionTreeDevtools.emit, h1]; rfl⟩⟩
  · cases r <;> simp [FnResult.suppressed]
  · intro hs
    simp [Cerebral.listener, FunctionTreeDevtools.listener, hs]
  · intro hs
    refine ⟨?_, ?_, ?_⟩
    · have h := Cerebral.dispatch_producesOne c (JSON.stringifyObject
        (executionFunctionEndEnvelope "c" execution funcDetails r)) hc
      simp only [Cerebral.listener, hs]
      cases r <;> exact h
    · have h := FunctionTreeDevtools.dispatch_producesOne_ft f
        (FunctionTreeDevtools.safeStringify
          (executionFunctionEndEnvelope "ft" execution funcDetails r)) hf
      simp only [FunctionTreeDevtools.listener, hs]
      cases r <;> exact h
    · intro hnodup
      refine FunctionTreeDevtools.safeStringify_eq_stringify _ ?_
      simpa [FunctionTreeDevtools.refsOfMembers, FunctionTreeDevtools.refsOf] using hnodup

/-- Witness of C7: both bridges of the examples, connected: the result `{a: 1}` gives one
    message in each, a `Path` without payload gives none. -/
theorem C7_functionEnd_message_witness :
    (FnResult.value (JSVal.obj [("a", JSVal.num 1)])).suppressed = false ∧
    producesOne (Cerebral.sentTexts Cerebral.connectedDevtools)
      Cerebral.connectedDevtools.backlog
      (Cerebral.sentTexts (Cerebral.listener Cerebral.connectedDevtools
        (EngineEvent.functionEnd sampleExecution sampleFunction (JSVal.obj [])
          (FnResult.value (JSVal.obj [("a", JSVal.num 1)])))))
      (Cerebral.listener Cerebral.connectedDevtools
        (EngineEvent.functionEnd sampleExecution sampleFunction (JSVal.obj [])
          (FnResult.value (JSVal.obj [("a", JSVal.num 1)])))).backlog
      ("\x7b\"type\":\"executionFunctionEnd\",\"source\":\"c\",\"data\":\x7b\"execution" ++
         "\":\x7b\"executionId\":\"e1\",\"functionIndex\":0,\"output\":\x7b\"a\":1\x7d\x7d" ++
         "\x7d\x7d") ∧
    producesOne (FunctionTreeDevtools.sentTexts FunctionTreeDevtools.connectedDevtools)
      FunctionTreeDevtools.connectedDevtools.backlog
      (FunctionTreeDevtools.sentTexts
        (FunctionTreeDevtools.listener FunctionTreeDevtools.connectedDevtools
          (EngineEvent.functionEnd sampleExecution sampleFunction (JSVal.obj [])
            (FnResult.value (JSVal.obj [("a", JSVal.num 1)])))))
      (FunctionTreeDevtools.listener FunctionTreeDevtools.connectedDevtools
        (EngineEvent.functionEnd sampleExecution sampleFunction (JSVal.obj [])
          (FnResult.value (JSVal.obj [("a", JSVal.num 1)])))).backlog
      ("\x7b\"type\":\"executionFunctionEnd\",\"source\":\"ft\",\"data\":\x7b\"execution" ++
         "\":\x7b\"executionId\":\"e1\",\"functionIndex\":0,\"output\":\x7b\"a\":1\x7d\x7d" ++
         "\x7d\x7d") ∧
    ((FnResult.path JSVal.undefined).suppressed = true →
      Cerebral.listener Cerebral.connectedDevtools
          (EngineEvent.functionEnd sampleExecution sampleFunction (JSVal.obj [])
            (FnResult.path JSVal.undefined)) = Cerebral.connectedDevtools ∧
      FunctionTreeDevtools.listener FunctionTreeDevtools.connectedDevtools
          (EngineEvent.functionEnd sampleExecution sampleFunction (JSVal.obj [])
            (FnResult.path JSVal.undefined)) = FunctionTreeDevtools.connectedDevtools) :=
  have h := C7_functionEnd_message Cerebral.connectedDevtools
    FunctionTreeDevtools.connectedDevtools sampleExecution sampleFunction (JSVal.obj [])
    (FnResult.value (JSVal.obj [("a", JSVal.num 1)])) (by decide) (by decide)
  ⟨rfl, (h.2.2.1 rfl).1, (h.2.2.1 rfl).2.1,
    (C7_functionEnd_message Cerebral.connectedDevtools FunctionTreeDevtools.connectedDevtools
      sampleExecution sampleFunction (JSVal.obj []) (FnResult.path JSVal.undefined)
      (by decide) (by decide)).2.1⟩

namespace FunctionTreeDevtools

/-- C8 (as stated, refuted): the messages of the function-tree bridge do not all carry the
    four fields `type`, `source`, `version` and `data`: the `init` message has no `data`
    and the `executionStart` message has no `version`. -/
theorem C8_counterexample :
    ¬ ∀ (b : Built) (envelope : Fields), b.envelope = some envelope →
      carries envelope "type" = true ∧ carries envelope "source" = true ∧
      carries envelope "version" = true ∧ carries envelope "data" = true := by
  intro h
  have h1 := (h (Built.listener (EngineEvent.start sampleExecution JSVal.undefined)) _ rfl).2.2.1
  exact absurd h1 (by decide)

/-- C8 (amended): every message the function-tree bridge builds is the text of an object
    that carries `type` and `source`; the `init` message also carries `version` and no
    `data`; the messages of the listeners carry `data` and no `version`; the message of
    `createExecutionMessage` carries all four fields. -/
theorem C8_envelope_fields (b : Built) (envelope : Fields) (h : b.envelope = some envelope) :
    carries envelope "type" = true ∧ carries envelope "source" = true ∧
    (b = Built.init →
      carries envelope "version" = true ∧ carries envelope "data" = false) ∧
    (∀ event, b = Built.listener event →
      carries envelope "version" = false ∧ carries envelope "data" = true) ∧
    (∀ debuggingData execution functionDetails payload,
      b = Built.executionData debuggingData execution functionDetails payload →
      carries envelope "version" = true ∧ carries envelope "data" = true) := by
  cases b with
  | init =>
    simp only [Built.envelope, Option.some.injEq] at h
    subst h
    simp [initEnvelope, carries, lookupField]
  | executionData debuggingData execution functionDetails payload =>
    simp only [Built.envelope, Option.some.injEq] at h
    subst h
    simp [executionEnvelope, carries, lookupField]
  | listener event =>
    cases event with
    | functionEnd execution funcDetails payload result =>
      by_cases hs : result.suppressed = true
      · simp [Built.envelope, eventEnvelope, hs] at h
      · simp only [Built.envelope, eventEnvelope, hs, Bool.false_eq_true, if_false,
          Option.some.injEq] at h
        subst h
        simp [executionFunctionEndEnvelope, carries, lookupField]
    | _ =>
      simp only [Built.envelope, eventEnvelope, Option.some.injEq] at h
      subst h
      simp [executionStartEnvelope, executionEndEnvelope, executionPathStartEnvelope,
        functionStartEnvelope, executionFunctionErrorEnvelope, carries, lookupField]

/-- Witness of C8: the message of the `end` listener. -/
theorem C8_envelope_fields_witness :
    carries (executionEndEnvelope "ft" sampleExecution) "type" = true ∧
    carries (executionEndEnvelope "ft" sampleExecution) "source" = true ∧
    carries (executionEndEnvelope "ft" sampleExecution) "version" = false ∧
    carries (executionEndEnvelope "ft" sampleExecution) "data" = true :=
  have h := C8_envelope_fields (Built.listener (EngineEvent.«end» sampleExecution))
    (executionEndEnvelope "ft" sampleExecution) rfl
  ⟨h.1, h.2.1, h.2.2.2.1 _ rfl⟩

end FunctionTreeDevtools

namespace Cerebral

/-- C9 (the code at two failing inputs): with mutations stored, (1) for the mutation
    `state.set('price', '$$')` `createExecutionMessage` returns the text of the envelope
    whose mutation holds `'$'`, not `'$$'`: `replace` reads `$$` in the replacement as
    one dollar sign; (2) for a payload holding the text of the placeholder, the stringified
    mutation lands in the payload and `data` keeps the placeholder. Neither is the text of
    the envelope stringified directly. -/
theorem C9_placeholder_changes_text :
    ((createExecutionMessage sampleDevtools
        (setMutation (JSVal.str "price") (JSVal.str "$$"))
        sampleExecution sampleFunction (JSVal.obj [])).2 =
      directExecutionMessage (setMutation (JSVal.str "price") (JSVal.str "$"))
        sampleExecution sampleFunction (JSVal.obj []) ∧
     (createExecutionMessage sampleDevtools
        (setMutation (JSVal.str "price") (JSVal.str "$$"))
        sampleExecution sampleFunction (JSVal.obj [])).2 ≠
      directExecutionMessage (setMutation (JSVal.str "price") (JSVal.str "$$"))
        sampleExecution sampleFunction (JSVal.obj [])) ∧
    ((createExecutionMessage sampleDevtools
        (setMutation (JSVal.str "count") (JSVal.num 1))
        sampleExecution sampleFunction
        (JSVal.obj [("note", JSVal.str PLACEHOLDER_DEBUGGING_DATA)])).2 =
      directExecutionMessage (JSVal.str PLACEHOLDER_DEBUGGING_DATA)
        sampleExecution sampleFunction
        (JSVal.obj [("note", setMutation (JSVal.str "count") (JSVal.num 1))]) ∧
     (createExecutionMessage sampleDevtools
        (setMutation (JSVal.str "count") (JSVal.num 1))
        sampleExecution sampleFunction
        (JSVal.obj [("note", JSVal.str PLACEHOLDER_DEBUGGING_DATA)])).2 ≠
      directExecutionMessage (setMutation (JSVal.str "count") (JSVal.num 1))
        sampleExecution sampleFunction
        (JSVal.obj [("note", JSVal.str PLACEHOLDER_DEBUGGING_DATA)])) := by
  refine ⟨⟨rfl, by decide⟩, ⟨rfl, by decide⟩⟩

/-- The loop over the positions below `count` reads the first `count` mutations. -/
theorem rememberLoop_eq_replayAll (env : Platform) (mutations : List Mutation) :
    ∀ (count : Nat) (state : JSVal), count ≤ mutations.length →
      rememberLoop env mutations count state = replayAll env state (mutations.take count) := by
  intro count
  induction count with
  | zero => intro state _; simp [rememberLoop, replayAll]
  | succ n ih =>
    intro state hn
    have hlt : n < mutations.length := hn
    have ih' := ih state (Nat.le_of_lt hlt)
    simp only [rememberLoop, replayAll] at ih' ⊢
    rw [List.range_succ, List.foldlM_append, ih', List.take_succ, List.foldlM_append]
    simp [List.getElem?_eq_getElem hlt, List.get?_eq_getElem?]

/-- C10: for every index below the number of recorded mutations, `remember(index)` leaves
    the model equal to the stored initial model with the first `mutations.length - index`
    recorded mutations applied in recording order, each once: whenever it returns the model
    is that state, and it returns whenever those calls succeed and the record at `index`
    has a readable `datetime`; `remember(0)` replays all recorded mutations. -/
theorem C10_remember_replays (env : Platform) (d : Devtools) (index : Nat)
    (h : index < d.mutations.length) :
    (∀ d', remember env d index = some d' →
      some d'.model = replayAll env (env.parse (toJSString d.initialModelString))
        (d.mutations.take (d.mutations.length - index))) ∧
    (∀ state m datetime,
      replayAll env (env.parse (toJSString d.initialModelString))
        (d.mutations.take (d.mutations.length - index)) = some state →
      d.mutations.get? index = some m →
      getProp (env.parse m.data) "datetime" = some datetime →
      ∃ d', remember env d index = some d' ∧ d'.model = state) ∧
    (index = 0 →
      d.mutations.take (d.mutations.length - index) = d.mutations) := by
  have hcount : ((d.mutations.length : Int) - (index : Int)).toNat =
      d.mutations.length - index := by omega
  have hloop := rememberLoop_eq_replayAll env d.mutations (d.mutations.length - index)
    (env.parse (toJSString d.initialModelString)) (Nat.sub_le _ _)
  have hget : d.mutations.get? index = some d.mutations[index] := by
    rw [List.get?_eq_getElem?, List.getElem?_eq_getElem h]
  have hat : mutationAt d.mutations (index : Int) = some d.mutations[index] := by
    rw [← hget]
    simp [mutationAt]
  refine ⟨?_, ?_, ?_⟩
  · intro d' hd'
    simp only [remember, hcount, hloop, hat] at hd'
    cases hr : replayAll env (env.parse (toJSString d.initialModelString))
        (d.mutations.take (d.mutations.length - index)) with
    | none => simp [hr] at hd'
    | some replayed =>
      simp only [hr] at hd'
      cases hdt : getProp (env.parse d.mutations[index].data) "datetime" with
      | none => simp [hdt] at hd'
      | some datetime =>
        simp only [hdt, Option.some.injEq] at hd'
        subst hd'
        rfl
  · intro state m datetime hr hm hdt
    rw [hget] at hm
    injection hm with hm
    subst hm
    simp only [remember, hcount, hloop, hat, hr, hdt]
    exact ⟨_, rfl, rfl⟩
  · intro h0
    subst h0
    simp

/-- Witness of C10: three recorded mutations `inc`, `double`, `inc` on the initial model
    `0`; `remember(1)` leaves the model at `(0 + 1) * 2`. -/
theorem C10_remember_replays_witness :
    (1 : Nat) < rememberingDevtools.mutations.length ∧
    (∃ d', remember samplePlatform rememberingDevtools (1 : Nat) = some d' ∧
      d'.model = JSVal.num 2) :=
  ⟨by decide,
    (C10_remember_replays samplePlatform rememberingDevtools 1 (by decide)).2.1
      (JSVal.num 2) ⟨JSVal.str "e1", "double"⟩ (JSVal.num 7) rfl rfl rfl⟩

/-- The own keys of the map are looked up like those of any association list. -/
theorem lookupComponents_eq_findKey (map : List (String × List ComponentDetails))
    (depsKey : String) : lookupComponents map depsKey = findKey map depsKey := by
  induction map with
  | nil => simp [lookupComponents, findKey]
  | cons entry rest ih =>
    obtain ⟨k, old⟩ := entry
    by_cases h : k = depsKey
    · simp [lookupComponents, findKey, h]
    · simp [lookupComponents, findKey, h, ih]

/-- Reading back the key just assigned gives the assigned list. -/
theorem lookupComponents_set_same (map : List (String × List ComponentDetails))
    (depsKey : String) (components : List ComponentDetails) :
    lookupComponents (setComponents map depsKey components) depsKey = some components := by
  simp [lookupComponents_eq_findKey, setComponents, findKey_setKey_same]

/-- An assignment leaves the other keys as they were. -/
theorem lookupComponents_set_ne (map : List (String × List ComponentDetails))
    (depsKey other : String) (components : List ComponentDetails) (hne : depsKey ≠ other) :
    lookupComponents (setComponents map depsKey components) other =
      lookupComponents map other := by
  simp [lookupComponents_eq_findKey, setComponents, findKey_setKey_ne _ _ _ _ hne.symm]

/-- A deleted key is absent. -/
theorem lookupComponents_delete_same (map : List (String × List ComponentDetails))
    (depsKey : String) : lookupComponents (deleteComponents map depsKey) depsKey = none := by
  induction map with
  | nil => simp [deleteComponents, lookupComponents]
  | cons entry rest ih =>
    obtain ⟨k, old⟩ := entry
    simp only [deleteComponents] at ih ⊢
    by_cases h : k = depsKey
    · simp [List.filter_cons, h, ih]
    · simp [List.filter_cons, h, lookupComponents, ih]

/-- A deletion leaves the other keys as they were. -/
theorem lookupComponents_delete_ne (map : List (String × List ComponentDetails))
    (depsKey other : String) (hne : depsKey ≠ other) :
    lookupComponents (deleteComponents map depsKey) other = lookupComponents map other := by
  induction map with
  | nil => simp [deleteComponents, lookupComponents]
  | cons entry rest ih =>
    obtain ⟨k, old⟩ := entry
    simp only [deleteComponents] at ih ⊢
    by_cases h : k = depsKey
    · subst h
      simp [List.filter_cons, lookupComponents, hne, ih]
    · by_cases h2 : k = other
      · subst h2
        simp [List.filter_cons, h, lookupComponents]
      · simp [List.filter_cons, h, h2, lookupComponents, ih]

/-- Splicing out the first entry of an identity that is listed removes one occurrence of
    that identity and no other. -/
theorem spliceFirst_of_listed (id : Nat) (components : List ComponentDetails)
    (h : id ∈ components.map ComponentDetails.id) :
    ∃ rest, spliceFirst id components = some rest ∧
      rest.map ComponentDetails.id = (components.map ComponentDetails.id).erase id := by
  induction components with
  | nil => simp at h
  | cons entry more ih =>
    by_cases he : entry.id = id
    · exact ⟨more, by simp [spliceFirst, he], by simp [he]⟩
    · have hin : id ∈ more.map ComponentDetails.id := by
        simpa [he, Ne.symm he] using h
      obtain ⟨rest, hrest, hids⟩ := ih hin
      refine ⟨entry :: rest, by simp [spliceFirst, he, hrest], ?_⟩
      simp [hids, List.erase_cons, he]

/-- The loop body over `prevDeps`, for a key that lists the identity: one occurrence of
    the identity leaves that key, nothing else changes and no list is left empty. -/
theorem removeFromKey_spec (map : List (String × List ComponentDetails)) (id : Nat)
    (depsKey : String) (hlisted : 0 < listedUnder map depsKey id) (hne : NoEmptyList map) :
    ∃ map', removeFromKey map id depsKey = some map' ∧
      (∀ key, idsUnder map' key =
        if key = depsKey then (idsUnder map depsKey).erase id else idsUnder map key) ∧
      NoEmptyList map' := by
  have hmem : id ∈ idsUnder map depsKey := List.count_pos_iff.mp hlisted
  cases hl : lookupComponents map depsKey with
  | none => simp [idsUnder, hl] at hmem
  | some components =>
    have hids : idsUnder map depsKey = components.map ComponentDetails.id := by
      simp [idsUnder, hl]
    rw [hids] at hmem
    obtain ⟨rest, hrest, hrestIds⟩ := spliceFirst_of_listed id components hmem
    by_cases hlen : rest.length = 0
    · have hnil : rest = [] := List.length_eq_zero.mp hlen
      refine ⟨deleteComponents map depsKey,
        by simp [removeFromKey, readComponents, hl, hrest, hlen], ?_, ?_⟩
      · intro key
        by_cases hk : key = depsKey
        · subst hk
          rw [if_pos rfl, hids, ← hrestIds, hnil]
          simp [idsUnder, lookupComponents_delete_same]
        · rw [if_neg hk]
          simp [idsUnder, lookupComponents_delete_ne map depsKey key (Ne.symm hk)]
      · intro key
        by_cases hk : key = depsKey
        · subst hk
          simp [lookupComponents_delete_same]
        · rw [lookupComponents_delete_ne map depsKey key (Ne.symm hk)]
          exact hne key
    · refine ⟨setComponents map depsKey rest,
        by simp [removeFromKey, readComponents, hl, hrest, hlen], ?_, ?_⟩
      · intro key
        by_cases hk : key = depsKey
        · subst hk
          rw [if_pos rfl, hids, ← hrestIds]
          simp [idsUnder, lookupComponents_set_same]
        · rw [if_neg hk]
          simp [idsUnder, lookupComponents_set_ne map depsKey key rest (Ne.symm hk)]
      · intro key
        by_cases hk : key = depsKey
        · subst hk
          rw [lookupComponents_set_same]
          intro hsome
          injection hsome with hsome
          exact hlen (by simp [hsome])
        · rw [lookupComponents_set_ne map depsKey key rest (Ne.symm hk)]
          exact hne key

/-- The loop over `prevDeps`, for keys without repetition that all list the identity: it
    does not throw, one occurrence of the identity leaves each of these keys, nothing else
    changes and no list is left empty. -/
theorem removeFromKeys_spec (id : Nat) (keys : List String) :
    ∀ (map : List (String × List ComponentDetails)), keys.Nodup →
      (∀ key ∈ keys, 0 < listedUnder map key id) → NoEmptyList map →
      ∃ map', removeFromKeys map id keys = some map' ∧
        (∀ key, idsUnder map' key =
          if key ∈ keys then (idsUnder map key).erase id else idsUnder map key) ∧
        NoEmptyList map' := by
  induction keys with
  | nil => intro map _ _ hne; exact ⟨map, rfl, by simp, hne⟩
  | cons depsKey rest ih =>
    intro map hnodup hlisted hne
    obtain ⟨hnotin, hnodup'⟩ := List.nodup_cons.mp hnodup
    obtain ⟨map1, h1, hids1, hne1⟩ :=
      removeFromKey_spec map id depsKey (hlisted depsKey (by simp)) hne
    have hlisted1 : ∀ key ∈ rest, 0 < listedUnder map1 key id := by
      intro key hkey
      have hk : key ≠ depsKey := fun h => hnotin (h ▸ hkey)
      have := hlisted key (by simp [hkey])
      simpa [listedUnder, hids1 key, hk] using this
    obtain ⟨map2, h2, hids2, hne2⟩ := ih map1 hnodup' hlisted1 hne1
    refine ⟨map2, by simp [removeFromKeys, h1, h2], ?_, hne2⟩
    intro key
    rw [hids2 key]
    by_cases hk : key = depsKey
    · subst hk
      simp [hnotin, hids1]
    · by_cases hr : key ∈ rest
      · simp [hr, hids1 key, hk]
      · simp [hr, hids1 key, hk]

/-- The loop body over `nextDeps`, for a key that is not inherited: the iteration does
    not throw, the identity of the details is put at the end of the key, nothing else
    changes and no list is left empty. -/
theorem addToKey_spec (map : List (String × List ComponentDetails))
    (details : ComponentDetails) (depsKey : String) (hown : inheritedLength depsKey = none)
    (hne : NoEmptyList map) :
    ∃ map', addToKey map details depsKey = some map' ∧
      (∀ key, idsUnder map' key =
        if key = depsKey then idsUnder map depsKey ++ [details.id] else idsUnder map key) ∧
      NoEmptyList map' := by
  have hadd : addToKey map details depsKey = some (setComponents map depsKey
      (match lookupComponents map depsKey with
       | some components => components ++ [details]
       | none => [details])) := by
    cases hl : lookupComponents map depsKey <;> simp [addToKey, readComponents, hl, hown]
  refine ⟨_, hadd, ?_, ?_⟩
  · intro key
    by_cases hk : key = depsKey
    · subst hk
      rw [if_pos rfl]
      cases hl : lookupComponents map key <;>
        simp [idsUnder, lookupComponents_set_same, hl]
    · rw [if_neg hk]
      simp [idsUnder, lookupComponents_set_ne map depsKey key _ (Ne.symm hk)]
  · intro key
    by_cases hk : key = depsKey
    · subst hk
      cases hl : lookupComponents map key <;>
        simp [lookupComponents_set_same, hl]
    · rw [lookupComponents_set_ne map depsKey key _ (Ne.symm hk)]
      exact hne key

/-- The loop over `nextDeps`, for keys without repetition none of which is inherited: it
    does not throw, the identity of the details is put once at the end of each of these
    keys, nothing else changes and no list is left empty. -/
theorem addToKeys_spec (details : ComponentDetails) (keys : List String) :
    ∀ (map : List (String × List ComponentDetails)), keys.Nodup →
      (∀ key ∈ keys, inheritedLength key = none) → NoEmptyList map →
      ∃ map', addToKeys map details keys = some map' ∧
        (∀ key, idsUnder map' key =
          if key ∈ keys then idsUnder map key ++ [details.id] else idsUnder map key) ∧
        NoEmptyList map' := by
  induction keys with
  | nil => intro map _ _ hne; exact ⟨map, rfl, by simp, hne⟩
  | cons depsKey rest ih =>
    intro map hnodup hown hne
    obtain ⟨hnotin, hnodup'⟩ := List.nodup_cons.mp hnodup
    obtain ⟨map1, h1, hids1, hne1⟩ :=
      addToKey_spec map details depsKey (hown depsKey (by simp)) hne
    obtain ⟨map2, h2, hids2, hne2⟩ :=
      ih map1 hnodup' (fun key hkey => hown key (by simp [hkey])) hne1
    refine ⟨map2, by simp [addToKeys, h1, h2], ?_, hne2⟩
    intro key
    rw [hids2 key]
    by_cases hk : key = depsKey
    · subst hk
      simp [hnotin, hids1]
    · by_cases hr : key ∈ rest
      · simp [hr, hids1 key, hk]
      · simp [hr, hids1 key, hk]

/-- One chained call whose `nextDeps` has no inherited key keeps the invariant of the
    components map and does not throw. -/
theorem callUpdateComponentsMap_inv (w : ComponentsWorld) (latest : Nat → List String)
    (call : MapCall) (hinv : ComponentsInv w latest)
    (hprev : call.arguments.prevKeys = latest call.component)
    (hnext : call.arguments.nextKeys.Nodup)
    (hown : ∀ depsKey ∈ call.arguments.nextKeys, inheritedLength depsKey = none) :
    ∃ w', callUpdateComponentsMap w call = some w' ∧
      ComponentsInv w' (recordCall latest call) ∧
      (w'.components call.component).componentDetailsId ≠ 0 ∧
      (∀ i, (w.components i).componentDetailsId ≠ 0 →
        (w'.components i).componentDetailsId = (w.components i).componentDetailsId) := by
  obtain ⟨hpos, hbelow, hproper, hunset, hnodup, hlisted, hnoempty, hbound⟩ := hinv
  obtain ⟨c, arguments⟩ := call
  simp only at hprev hnext hown
  -- the identity and the counter after the call
  have hfacts :
      (componentDetails w.devtools (w.components c) arguments).1.id ≠ 0 ∧
      (componentDetails w.devtools (w.components c) arguments).1.id <
        (componentDetails w.devtools (w.components c) arguments).2 ∧
      w.devtools.debuggerComponentDetailsId ≤
        (componentDetails w.devtools (w.components c) arguments).2 ∧
      ((w.components c).componentDetailsId ≠ 0 →
        (componentDetails w.devtools (w.components c) arguments).1.id =
          (w.components c).componentDetailsId) ∧
      ((w.components c).componentDetailsId = 0 →
        (componentDetails w.devtools (w.components c) arguments).1.id =
          w.devtools.debuggerComponentDetailsId) := by
    by_cases h0 : (w.components c).componentDetailsId = 0
    · simp [componentDetails, h0, Nat.ne_of_gt hpos]
    · have := hbelow c
      simp [componentDetails, h0, this]
  generalize hdetails : componentDetails w.devtools (w.components c) arguments = made
    at hfacts
  obtain ⟨details, counter'⟩ := made
  simp only at hfacts
  obtain ⟨hid0, hidlt, hcounter, hkeep, hfresh⟩ := hfacts
  -- before the call the identity is listed once under each latest key of the component
  have hself0 : ∀ key, listedUnder w.devtools.debuggerComponentsMap key details.id =
      if key ∈ latest c then 1 else 0 := by
    intro key
    by_cases h0 : (w.components c).componentDetailsId = 0
    · rw [hunset c h0]
      simp only [List.not_mem_nil, if_false]
      by_contra hne
      have := hbound key details.id (Nat.pos_of_ne_zero hne)
      rw [hfresh h0] at this
      exact Nat.lt_irrefl _ this
    · rw [hkeep h0]
      exact hlisted c key h0
  -- no other component has this identity
  have hother : ∀ i, i ≠ c → (w.components i).componentDetailsId ≠ 0 →
      (w.components i).componentDetailsId ≠ details.id := by
    intro i hic hi0 heq
    by_cases h0 : (w.components c).componentDetailsId = 0
    · have := hbelow i
      rw [heq, hfresh h0] at this
      exact Nat.lt_irrefl _ this
    · rw [hkeep h0] at heq
      exact hic (hproper i c hi0 heq)
  -- the two loops
  obtain ⟨map1, hrem, hids1, hne1⟩ := removeFromKeys_spec details.id (latest c)
    w.devtools.debuggerComponentsMap (hnodup c)
    (fun key hkey => by rw [hself0 key, if_pos hkey]; exact Nat.one_pos) hnoempty
  obtain ⟨map2, hadd, hids2, hne2⟩ :=
    addToKeys_spec details arguments.nextKeys map1 hnext hown hne1
  have hselfNew : ∀ key,
      listedUnder map2 key details.id =
        if key ∈ arguments.nextKeys then 1 else 0 := by
    intro key
    have h0 := hself0 key
    simp only [listedUnder] at h0 ⊢
    rw [hids2 key, hids1 key]
    by_cases hk : key ∈ arguments.nextKeys <;> by_cases hp : key ∈ latest c <;>
      simp [hk, hp, h0]
  have hotherNew : ∀ key x, x ≠ details.id →
      listedUnder map2 key x =
        listedUnder w.devtools.debuggerComponentsMap key x := by
    intro key x hx
    simp only [listedUnder]
    rw [hids2 key, hids1 key]
    by_cases hk : key ∈ arguments.nextKeys <;> by_cases hp : key ∈ latest c <;>
      simp [hk, hp, hx, List.count_erase_of_ne hx, Ne.symm hx]
  refine ⟨_, by
    simp only [callUpdateComponentsMap, updateComponentsMap, hdetails, hprev, hrem, hadd]
    rfl,
    ?_, by simpa using hid0, ?_⟩
  swap
  · intro i hi0
    by_cases hi : i = c
    · subst hi
      simpa using hkeep hi0
    · simp [Function.update, hi]
  refine ⟨Nat.lt_of_lt_of_le hpos hcounter, ?_, ?_, ?_, ?_, ?_, hne2, ?_⟩
  · intro i
    by_cases hi : i = c
    · subst hi; simpa using hidlt
    · simpa [Function.update, hi] using Nat.lt_of_lt_of_le (hbelow i) hcounter
  · intro i j hi0 heq
    by_cases hi : i = c <;> by_cases hj : j = c
    · rw [hi, hj]
    · subst hi
      simp [Function.update, hj] at heq hi0
      by_cases hj0 : (w.components j).componentDetailsId = 0
      · exact absurd (heq.trans hj0) hid0
      · exact absurd heq.symm (hother j hj hj0)
    · subst hj
      simp [Function.update, hi] at heq hi0
      exact absurd heq (hother i hi hi0)
    · simp [Function.update, hi, hj] at heq hi0
      exact hproper i j hi0 heq
  · intro i hi0
    by_cases hi : i = c
    · subst hi
      simp [Function.update] at hi0
      exact absurd hi0 hid0
    · simp [Function.update, hi] at hi0
      simpa [recordCall, Function.update, hi] using hunset i hi0
  · intro i
    by_cases hi : i = c
    · subst hi; simpa [recordCall] using hnext
    · simpa [recordCall, Function.update, hi] using hnodup i
  · intro i key hi0
    by_cases hi : i = c
    · subst hi
      simpa [recordCall] using hselfNew key
    · simp [Function.update, hi] at hi0
      simp only [recordCall, Function.update, hi, dite_false]
      rw [hotherNew key _ (hother i hi hi0)]
      exact hlisted i key hi0
  · intro key x hx
    by_cases hxd : x = details.id
    · rw [hxd]; exact hidlt
    · simp only at hx
      rw [hotherNew key x hxd] at hx
      exact Nat.lt_of_lt_of_le (hbound key x hx) hcounter

/-- A chained sequence of calls without inherited keys does not throw, keeps the
    invariant of the components map, gives an identity to every component it names and
    keeps the identities given. -/
theorem runCalls_inv (calls : List MapCall) :
    ∀ (w : ComponentsWorld) (latest : Nat → List String), ComponentsInv w latest →
      Chained latest calls → OwnKeysOnly calls →
      ∃ w', runCalls w calls = some w' ∧ ComponentsInv w' (latestKeys latest calls) ∧
        (∀ call ∈ calls, (w'.components call.component).componentDetailsId ≠ 0) ∧
        (∀ i, (w.components i).componentDetailsId ≠ 0 →
          (w'.components i).componentDetailsId = (w.components i).componentDetailsId) := by
  induction calls with
  | nil =>
    intro w latest hinv _ _
    exact ⟨w, rfl, by simpa [latestKeys] using hinv, by simp, fun _ _ => rfl⟩
  | cons call rest ih =>
    intro w latest hinv hchained hown
    obtain ⟨hprev, hnext, hrest⟩ := hchained
    obtain ⟨w1, h1, hinv1, hid1, hkeep1⟩ :=
      callUpdateComponentsMap_inv w latest call hinv hprev hnext (hown call (by simp))
    obtain ⟨w2, h2, hinv2, hid2, hkeep2⟩ := ih w1 (recordCall latest call) hinv1 hrest
      (fun other hother => hown other (by simp [hother]))
    refine ⟨w2, by simp [runCalls, h1, h2], by simpa [latestKeys] using hinv2, ?_, ?_⟩
    · intro other hother
      rcases List.mem_cons.mp hother with heq | hmem
      · rw [heq, hkeep2 _ hid1]
        exact hid1
      · exact hid2 other hmem
    · intro i hi0
      rw [hkeep2 i (by rw [hkeep1 i hi0]; exact hi0), hkeep1 i hi0]

/-- The world of a new bridge satisfies the invariant of the components map. -/
theorem freshWorld_inv (storeMutations : Bool) (model : JSVal) (displayName : Nat → String) :
    ComponentsInv (freshWorld storeMutations model displayName) noKeys := by
  refine ⟨Nat.one_pos, fun _ => Nat.one_pos, fun _ _ h => absurd rfl h, fun _ _ => rfl,
    fun _ => List.nodup_nil, fun _ _ h => absurd rfl h, ?_, ?_⟩
  · intro key
    simp [freshWorld, Devtools.create, lookupComponents]
  · intro key x hx
    simp [freshWorld, Devtools.create, listedUnder, idsUnder, lookupComponents] at hx

/-- After a sequence of calls that ends with `call`, the latest keys of its component are
    the keys of the `nextDeps` of `call`. -/
theorem latestKeys_last (latest : Nat → List String) (calls : List MapCall) (call : MapCall) :
    latestKeys latest (calls ++ [call]) call.component = call.arguments.nextKeys := by
  simp [latestKeys, List.foldl_append, recordCall]

/-- On a new bridge, after every call of a sequence of `updateComponentsMap` calls in which
    each call's `prevDeps` has the keys of the `nextDeps` of the previous call for the
    same component (none on its first call) and no `nextDeps` has a key inherited from
    `Object.prototype`, the call has not thrown, the component of the call has an identity
    that the map lists exactly once under every key of its latest `nextDeps` and under no
    other key (and so has every component called before), and no key of the map is bound
    to an empty list. -/
theorem components_map_lists_latest_deps (storeMutations : Bool) (model : JSVal)
    (displayName : Nat → String) (calls : List MapCall) (call : MapCall)
    (h : Chained noKeys (calls ++ [call])) (hown : OwnKeysOnly (calls ++ [call])) :
    ∃ w, runCalls (freshWorld storeMutations model displayName) (calls ++ [call]) = some w ∧
      (w.components call.component).componentDetailsId ≠ 0 ∧
      (∀ depsKey, listedUnder w.devtools.debuggerComponentsMap depsKey
          (w.components call.component).componentDetailsId =
        if depsKey ∈ call.arguments.nextKeys then 1 else 0) ∧
      (∀ earlier ∈ calls, ∀ depsKey, listedUnder w.devtools.debuggerComponentsMap depsKey
          (w.components earlier.component).componentDetailsId =
        if depsKey ∈ latestKeys noKeys (calls ++ [call]) earlier.component then 1 else 0) ∧
      NoEmptyList w.devtools.debuggerComponentsMap := by
  obtain ⟨w, hrun, hinv, hids, _⟩ := runCalls_inv (calls ++ [call])
    (freshWorld storeMutations model displayName) noKeys
    (freshWorld_inv storeMutations model displayName) h hown
  obtain ⟨_, _, _, _, _, hlisted, hnoempty, _⟩ := hinv
  have hcall := hids call (by simp)
  refine ⟨w, hrun, hcall, ?_, ?_, hnoempty⟩
  · intro depsKey
    rw [hlisted call.component depsKey hcall, latestKeys_last]
  · intro earlier hearlier depsKey
    exact hlisted earlier.component depsKey (hids earlier (by simp [hearlier]))

/-- An instance of the property above: component 0 starts on the keys `a` and `b`,
    component 1 starts on `b`, then component 0 moves to `b` and `c`: it is listed once
    under `b` and `c`, the key `a` is gone, and component 1 is still listed once under
    `b`. -/
theorem components_map_lists_latest_deps_sample :
    Chained noKeys sampleCalls ∧ OwnKeysOnly sampleCalls ∧
    ∃ w, runCalls (freshWorld true JSVal.null (fun _ => "CerebralWrapping_App")) sampleCalls
        = some w ∧
      (w.components 0).componentDetailsId ≠ 0 ∧
      (∀ depsKey, listedUnder w.devtools.debuggerComponentsMap depsKey
          (w.components 0).componentDetailsId =
        if depsKey ∈ ["b", "c"] then 1 else 0) ∧
      NoEmptyList w.devtools.debuggerComponentsMap :=
  have hchained : Chained noKeys sampleCalls :=
    ⟨rfl, by decide, rfl, by decide, rfl, by decide, trivial⟩
  have hown : OwnKeysOnly sampleCalls := by
    intro call hcall depsKey hkey
    simp only [sampleCalls, List.mem_cons, List.mem_singleton, List.not_mem_nil,
      or_false] at hcall
    rcases hcall with h | h | h <;> subst h <;>
      simp only [DepsArguments.nextKeys, Option.getD_some, List.mem_cons,
        List.mem_singleton, List.not_mem_nil, or_false] at hkey
    · rcases hkey with h | h <;> subst h <;> decide
    · subst hkey; decide
    · rcases hkey with h | h <;> subst h <;> decide
  ⟨hchained, hown,
    match components_map_lists_latest_deps true JSVal.null
        (fun _ => "CerebralWrapping_App")
        [⟨0, DepsArguments.deps (some ["a", "b"]) none⟩,
          ⟨1, DepsArguments.deps (some ["b"]) none⟩]
        ⟨0, DepsArguments.deps (some ["b", "c"]) (some ["a", "b"])⟩ hchained hown with
    | ⟨w, h1, h2, h3, _, h5⟩ => ⟨w, h1, h2, h3, h5⟩⟩

/-- C11 (the code at the failing input): on a new bridge the first call for a component
    that depends on the state path `toString`,
    `updateComponentsMap(component, {toString: true}, null)`, meets the hypothesis
    of the claim (it is a first call, so it has no `prevDeps`), yet the read
    `this.debuggerComponentsMap['toString']` gives the function inherited from
    `Object.prototype`, which is truthy and has no `concat`: the call throws, and the
    map does not list the component under `toString`. -/
theorem C11_inherited_key_throws :
    Chained noKeys [inheritedKeyCall] ∧
    readComponents (Devtools.create true JSVal.null).debuggerComponentsMap "toString" =
      MapRead.inherited 0 ∧
    (updateComponentsMap (Devtools.create true JSVal.null) ⟨"CerebralWrapping_App", 0, 0⟩
      (DepsArguments.deps (some ["toString"]) none)).isNone = true ∧
    (runCalls (freshWorld true JSVal.null (fun _ => "CerebralWrapping_App"))
      [inheritedKeyCall]).isNone = true ∧
    listedUnder (Devtools.create true JSVal.null).debuggerComponentsMap "toString" 1 = 0 :=
  ⟨⟨rfl, by decide, trivial⟩, rfl, rfl, rfl, rfl⟩

/-- A prefix of a chained sequence of calls is chained. -/
theorem chained_prefix (calls more : List MapCall) :
    ∀ latest : Nat → List String, Chained latest (calls ++ more) → Chained latest calls := by
  induction calls with
  | nil => intro _ _; trivial
  | cons call rest ih =>
    intro latest h
    exact ⟨h.1, h.2.1, ih _ h.2.2⟩

/-- Every call of `init` registers one more listener per event. -/
theorem watchers_init (d : Devtools) : (init d).watchers = d.watchers + 1 := by
  simp only [init, watchExecution, addListeners]
  split <;> rfl

/-- After `n` calls of `init` the controller has `n` more listeners per event. -/
theorem watchers_init_iterate (n : Nat) :
    ∀ d : Devtools, (Nat.iterate init n d).watchers = d.watchers + n := by
  induction n with
  | zero => intro d; rfl
  | succ k ih =>
    intro d
    rw [Function.iterate_succ_apply, ih (init d), watchers_init]
    omega

/-- While disconnected, `k` listeners of an event that builds the message `m` queue it
    `k` times. -/
theorem listeners_backlog_disconnected (event : EngineEvent) (envelope : Fields)
    (henv : eventEnvelope "c" event = some envelope) (k : Nat) :
    ∀ d : Devtools, d.isConnected = false →
      (Nat.iterate (fun s => listener s event) k d).backlog =
        d.backlog ++ List.replicate k (JSON.stringifyObject envelope) := by
  induction k with
  | zero => intro d _; simp
  | succ n ih =>
    intro d hd
    obtain ⟨hb, hc, _⟩ := generate_disconnected d (Generation.event event) hd
    simp only [generate, generated, henv, Option.map_some', Option.toList_some] at hb hc
    rw [Function.iterate_succ_apply, ih (listener d event) hc, hb, List.replicate_succ]
    simp

end Cerebral

namespace FunctionTreeDevtools

/-- Every opening of a socket registers one more listener per event on every tree. -/
theorem watchers_onopen (d : DevtoolsClass) (socket : Nat) :
    (onopen d socket).watchers = d.watchers.map (fun n => n + 1) := by
  simp only [onopen, watchExecution, sendMessage, setReadyState]
  split <;> rfl

/-- The constructor registers no listener: until a socket opens an event of a tree
    reaches no listener of the bridge. -/
theorem emit_before_open (trees tree : Nat) (event : EngineEvent) :
    emit (DevtoolsClass.create trees) tree event = DevtoolsClass.create trees := by
  have h : (DevtoolsClass.create trees).watchers.getD tree 0 = 0 := by
    simp only [DevtoolsClass.create, init, addListeners, List.getD_eq_getElem?_getD]
    by_cases ht : tree < trees
    · simp [List.getElem?_replicate, ht]
    · simp [List.getElem?_replicate, ht]
  rw [emit, h]
  rfl

end FunctionTreeDevtools

/-- C12 (the code at three failing inputs): (1) in the cerebral bridge, when the first
    socket closes without opening and the timeout of `reconnect` calls `init` again, two
    listeners are registered and one `start` event queues its message twice; (2) a new
    function-tree bridge has no listener before its socket opens, so a `start` event
    produces no message, neither sent nor queued; (3) after its second socket opened the
    function-tree bridge has two listeners and one `start` event queues its message
    twice. -/
theorem C12_listeners_registered_per_init_and_open :
    (Cerebral.reinitialised.watchers = 2 ∧
      (Cerebral.emit Cerebral.reinitialised
          (EngineEvent.start sampleExecution JSVal.undefined)).backlog =
        [JSON.stringifyObject (executionStartEnvelope "c" sampleExecution JSVal.undefined),
         JSON.stringifyObject (executionStartEnvelope "c" sampleExecution JSVal.undefined)]) ∧
    ((FunctionTreeDevtools.DevtoolsClass.create 1).watchers = [0] ∧
      (FunctionTreeDevtools.emit (FunctionTreeDevtools.DevtoolsClass.create 1) 0
          (EngineEvent.start sampleExecution JSVal.undefined)).backlog = [] ∧
      (FunctionTreeDevtools.emit (FunctionTreeDevtools.DevtoolsClass.create 1) 0
          (EngineEvent.start sampleExecution JSVal.undefined)).sent = []) ∧
    (FunctionTreeDevtools.reopened.watchers = [2] ∧
      (FunctionTreeDevtools.emit FunctionTreeDevtools.reopened 0
          (EngineEvent.start sampleExecution JSVal.undefined)).backlog =
        [JSON.stringifyObject (executionStartEnvelope "ft" sampleExecution JSVal.undefined),
         JSON.stringifyObject (executionStartEnvelope "ft" sampleExecution JSVal.undefined)]) := by
  refine ⟨⟨rfl, rfl⟩, ⟨rfl, rfl, rfl⟩, ⟨rfl, rfl⟩⟩
